import Mathlib

/-!
# go-oss: a verification development

Shallow embedding of the transfer engine of the `go-oss` client
(`lib/aliyun/oss/common.go`, `multi.go`, `object.go`) and of the command layer
(`osscmd/api.go`), followed by theorems about it.

Conventions of the embedding.

* A Go `int` is a Lean `Int`; `/` and `%` are `Int.tdiv` and `Int.tmod`
  (Go truncates towards zero).  Every quantity of this development stays far
  below `2^63`, so no wrap-around is modelled.
* A Go `string` is a Lean `String`; `map[string]string` is an association list
  in which a missing key reads as the empty string.
* A `for` or `goto` loop whose termination depends on its data is a function
  with a fuel argument that answers `none` when the fuel is used up.
* A call that leaves the process (network, file system) is represented by its
  outcome, which is an argument of the embedding.
-/

namespace Oss

/-! ## Data model -/

/-- The Go type `map[string]string`, as the list of its entries. -/
abbrev StrMap := List (String × String)

/-- Reading `m[k]`: the value stored under `k`, the empty string when `k` is
absent (also on the `nil` map, which is `[]`). -/
def StrMap.get (m : StrMap) (k : String) : String :=
  (m.lookup k).getD ""

/-- The outcome `(res, err)` of a call: `.error e` when `err != nil`. -/
abbrev Outcome := Except String StrMap

/-- The struct `Client` of `common.go`. -/
structure Client where
  host : String
  accessKeyId : String
  accessKeySecret : String
  dateTimeGMT : String
  dateTimeCST : String
  partMaxSize : Int
  partMinSize : Int
  maxRetryNum : Nat
  threadMaxNum : Int
  threadMinNum : Int
  RecvBufferSize : Int
  deriving Repr, DecidableEq

/-- The constructor `New` of `common.go`. -/
def New (host accessKeyId accessKeySecret : String) : Client :=
  { host := "." ++ host
    accessKeyId := accessKeyId
    accessKeySecret := accessKeySecret
    dateTimeGMT := "Mon, 02 Jan 2006 15:04:05 GMT"
    dateTimeCST := "2006-01-02 15:04:05.00000 +0800 CST"
    partMaxSize := 100 * 1024 * 1024
    partMinSize := 1 * 1024 * 1024
    maxRetryNum := 3
    threadMaxNum := 100
    threadMinNum := 5
    RecvBufferSize := 10 * 1024 }

/-! ## Chunk planning (`multi.go`, `object.go`, `api.go`) -/

/-- The part count `(size + partSize - 1) / partSize` computed by
`UploadLargeFile`, `CopyLargeFile`, `Get` and the `cat` command. -/
def partTotal (size partSize : Int) : Int :=
  Int.tdiv (size + partSize - 1) partSize

/-- One worker task of `UploadLargeFile`: the part index and the arguments of
`io.NewSectionReader(fd, off, num)`. -/
structure PartTask where
  partNum : Int
  off : Int
  num : Int
  deriving Repr, DecidableEq

/-- The part loop of `UploadLargeFile` (`multi.go`, lines 90-122), from part
index `partNum` on: the tasks in the order in which they are dispatched. -/
def uploadPartLoop (fileSize partMaxSize : Int) : Nat → Int → Option (List PartTask)
  | 0, _ => none
  | fuel + 1, partNum =>
    let off := partNum * partMaxSize
    if off ≥ fileSize then some []
    else
      let num := if fileSize - off < partMaxSize then fileSize - off else partMaxSize
      (uploadPartLoop fileSize partMaxSize fuel (partNum + 1)).map
        (fun rest => { partNum := partNum, off := off, num := num } :: rest)

/-- The task planned for part `i`: offset `i * P`, length `min P (S - i * P)`. -/
def plannedPart (S P : Int) (i : Nat) : PartTask :=
  { partNum := i, off := i * P, num := min P (S - i * P) }

/-- The byte range `(tmpStart, tmpEnd)` of part `partNum`, as the workers of
`CopyLargeFile` (`multi.go`, lines 213-217) and `Get` (`object.go`, lines
205-209) and the loop of the `cat` command (`api.go`, lines 335-339) compute
it; the three places differ only in the part size they use. -/
def partRange (partNum partSize objectSize : Int) : Int × Int :=
  let tmpStart := partNum * partSize
  let tmpEnd := (partNum + 1) * partSize - 1
  let tmpEnd := if tmpEnd > objectSize then tmpStart + Int.tmod objectSize partSize - 1 else tmpEnd
  (tmpStart, tmpEnd)

/-- The range of a part of `CopyLargeFile`: the part size is `partMaxSize`. -/
def copyPartRange (c : Client) (partNum objectSize : Int) : Int × Int :=
  partRange partNum c.partMaxSize objectSize

/-- The range of a part of `Get`: the part size is `RecvBufferSize`. -/
def getPartRange (c : Client) (partNum objectSize : Int) : Int × Int :=
  partRange partNum c.RecvBufferSize objectSize

/-- The range of a part of the `cat` command: the part size is
`client.RecvBufferSize`. -/
def catPartRange (c : Client) (partNum objectSize : Int) : Int × Int :=
  partRange partNum c.RecvBufferSize objectSize

/-! ## Completion manifest (`multi.go`) -/

/-- The text `fmt.Sprintf("<Part><PartNumber>%d</PartNumber><ETag>%s</ETag></Part>",
partNumber, etag)`. -/
def partElement (partNumber : Nat) (etag : String) : String :=
  "<Part><PartNumber>" ++ toString partNumber ++ "</PartNumber><ETag>" ++ etag ++ "</ETag></Part>"

/-- The manifest built by `UploadLargeFile` from `uploadPartList`
(`multi.go`, lines 127-131). -/
def completeUploadInfo (uploadPartList : List StrMap) : String :=
  let completeUploadInfo := "<CompleteMultipartUpload>"
  let completeUploadInfo := uploadPartList.enum.foldl
    (fun acc p => acc ++ partElement (p.1 + 1) (p.2.get "Etag")) completeUploadInfo
  completeUploadInfo ++ "</CompleteMultipartUpload>"

/-- The manifest built by `CopyLargeFile` from `copyPartList`
(`multi.go`, lines 242-246). -/
def completeCopyInfo (copyPartList : List StrMap) : String :=
  let completeCopyInfo := "<CompleteMultipartUpload>"
  let completeCopyInfo := copyPartList.enum.foldl
    (fun acc p => acc ++ partElement (p.1 + 1) (p.2.get "Etag")) completeCopyInfo
  completeCopyInfo ++ "</CompleteMultipartUpload>"

/-- The part array once the workers are done: `make([]map[string]string, total)`
followed by the assignments `uploadPartList[partNum] = uploadPart` (resp.
`copyPartList[partNum] = copyPart`) in the order in which the parts
completed. -/
def recordParts (total : Nat) (completions : List (Nat × StrMap)) : List StrMap :=
  completions.foldl (fun arr p => arr.set p.1 p.2) (List.replicate total [])

/-! ## Single requests and the retry loop (`object.go`, `multi.go`) -/

/-- The function `uploadPart` of `multi.go`: it hands back what the transport
(`curl2Reader`) returned. -/
def uploadPart (curl2Reader : Outcome) : Outcome :=
  match curl2Reader with
  | .error err => .error err
  | .ok res => .ok res

/-- The function `copyPart` of `multi.go`: it hands back what `curl` returned. -/
def copyPart (curl : Outcome) : Outcome :=
  match curl with
  | .error err => .error err
  | .ok res => .ok res

/-- The function `Copy` of `object.go`: it hands back what `curl` returned. -/
def Copy (curl : Outcome) : Outcome :=
  match curl with
  | .error err => .error err
  | .ok res => .ok res

/-- The function `Head` of `object.go`: it hands back what `curl` returned. -/
def Head (curl : Outcome) : Outcome :=
  match curl with
  | .error err => .error err
  | .ok res => .ok res

/-- The function `Put` of `object.go` (lines 80-94), given what `curl`
returned.  On a status other than "200" it executes `return nil, err` with
`err == nil`: the `nil` map and no error. -/
def Put (c : Client) (curl : Outcome) (bucket object : String) : Outcome :=
  match curl with
  | .error err => .error err
  | .ok res =>
    if res.get "StatusCode" ≠ "200" then .ok []
    else .ok
      [("X-Oss-Request-Id", res.get "X-Oss-Request-Id"),
       ("StatusCode", res.get "StatusCode"),
       ("Location", "http://" ++ bucket ++ c.host ++ "/" ++ object),
       ("Bucket", bucket),
       ("ETag", res.get "Etag"),
       ("Key", object)]

/-- Whether a call returned `err != nil`. -/
def isError : Outcome → Bool
  | .error _ => true
  | .ok _ => false

/-- What one work item of a pooled operation did. -/
structure ItemResult where
  /-- Number of attempts of the retried request. -/
  calls : Nat
  /-- The worker reached `os.Exit(2)`. -/
  exited : Bool
  /-- The result accepted by the retry loop (the `nil` map when there is none). -/
  response : StrMap
  /-- The amount added to `tmpSkip`. -/
  skip : Int
  /-- The amount added to `tmpFinish`. -/
  finish : Int
  deriving Repr, DecidableEq

/-- The loop `for i := 0; i < this.maxRetryNum; i++ { res, err := op(); if err
!= nil { continue }; ...; break }` shared by the pooled operations, from
iteration `i` on with `remaining = maxRetryNum - i` iterations left; `op i` is
what the call of iteration `i` returns.  The answer is the number of calls made
and the accepted result, `none` when the success flag is still `false` after
the loop. -/
def retryLoop (op : Nat → Outcome) : Nat → Nat → Nat × Option StrMap
  | 0, i => (i, none)
  | remaining + 1, i =>
    match op i with
    | .error _ => retryLoop op remaining (i + 1)
    | .ok res => (i + 1, some res)

/-- The worker of `UploadLargeFile` (`multi.go`, lines 104-117): on success
the accepted response is stored in `uploadPartList[partNum]`. -/
def uploadPartWorker (c : Client) (curl2Reader : Nat → Outcome) : ItemResult :=
  match retryLoop (fun i => uploadPart (curl2Reader i)) c.maxRetryNum 0 with
  | (calls, none) => { calls := calls, exited := true, response := [], skip := 0, finish := 0 }
  | (calls, some uploadPart) =>
    { calls := calls, exited := false, response := uploadPart, skip := 0, finish := 0 }

/-- The worker of `CopyLargeFile` (`multi.go`, lines 219-232): on success the
accepted response is stored in `copyPartList[partNum]`. -/
def copyPartWorker (c : Client) (curl : Nat → Outcome) : ItemResult :=
  match retryLoop (fun i => copyPart (curl i)) c.maxRetryNum 0 with
  | (calls, none) => { calls := calls, exited := true, response := [], skip := 0, finish := 0 }
  | (calls, some copyPart) =>
    { calls := calls, exited := false, response := copyPart, skip := 0, finish := 0 }

/-- The upload of one file in `UploadFromDir` (`object.go`, lines 354-369). -/
def uploadFromDirPut (c : Client) (curl : Nat → Outcome) (bucket object : String) : ItemResult :=
  match retryLoop (fun i => Put c (curl i) bucket object) c.maxRetryNum 0 with
  | (calls, none) => { calls := calls, exited := true, response := [], skip := 0, finish := 0 }
  | (calls, some res) =>
    { calls := calls, exited := false, response := res, skip := 0,
      finish := if res.get "StatusCode" = "200" then 1 else 0 }

/-- The copy of one object in `CopyAllObject` (`object.go`, lines 486-501). -/
def copyAllObjectCopy (c : Client) (curl : Nat → Outcome) : ItemResult :=
  match retryLoop (fun i => Copy (curl i)) c.maxRetryNum 0 with
  | (calls, none) => { calls := calls, exited := true, response := [], skip := 0, finish := 0 }
  | (calls, some res) =>
    { calls := calls, exited := false, response := res, skip := 0,
      finish := if res.get "StatusCode" = "200" then 1 else 0 }

/-- The worker of `DeleteAllObject` for one batch (`object.go`, lines 599-614);
`num` is `bodyListNum[fileNum]`. -/
def deleteBatch (c : Client) (curl : Nat → Outcome) (num : Int) : ItemResult :=
  match retryLoop curl c.maxRetryNum 0 with
  | (calls, none) => { calls := calls, exited := true, response := [], skip := 0, finish := 0 }
  | (calls, some res) =>
    { calls := calls, exited := false, response := res, skip := 0,
      finish := if res.get "StatusCode" = "200" then num else 0 }

/-- The retry contract of a work item whose request returns `op i` at attempt
`i` and which is retried on the transport errors of `curl`: at most
`maxRetryNum` attempts; if attempt `k < maxRetryNum` is the first without an
error then exactly `k + 1` attempts are made, the worker does not exit and the
result of attempt `k` is the accepted one; the worker exits exactly when the
first `maxRetryNum` attempts of the transport all fail. -/
def RetryContract (maxRetryNum : Nat) (curl op : Nat → Outcome) (r : ItemResult) : Prop :=
  r.calls ≤ maxRetryNum ∧
  (∀ (k : Nat) (res : StrMap), k < maxRetryNum → (∀ j, j < k → isError (curl j) = true) →
    op k = .ok res → r.calls = k + 1 ∧ r.exited = false ∧ r.response = res) ∧
  (r.exited = true ↔ ∀ j, j < maxRetryNum → isError (curl j) = true)

/-! ## Bulk operations (`object.go`) -/

/-- What the embedding takes from the machine and from the Go libraries. -/
structure Env where
  /-- Offset of the machine's local time zone, in seconds east of UTC. -/
  zoneOffset : Int
  /-- The value of `strconv.ParseInt(s, 10, 64)`, its error being dropped. -/
  parseInt : String → Int
  /-- The Unix time of `time.Parse(dateTimeGMT, s)`, `none` on an error. -/
  parseTime : String → Option Int

/-- The Unix time of the zero `time.Time` (1 January of year 1, UTC), which is
the value `time.Parse` returns together with an error. -/
def zeroTimeUnix : Int := -62135596800

/-- The value of `t.Unix()` after `t, _ := time.Parse(this.dateTimeGMT, s)`. -/
def parsedUnix (env : Env) (s : String) : Int :=
  (env.parseTime s).getD zeroTimeUnix

/-- The value of `localTime.Unix()` in `UploadFromDir` (`object.go`, lines 330
and 335) for a file whose `ModTime().Unix()` is `modTime`:
`time.Unix(modTime-8*3600, 0).Format(this.dateTimeGMT)` writes the wall clock
of the machine's zone (the letters `GMT` of the layout are plain text), and
`time.Parse` reads that wall clock back as UTC, which adds the zone offset. -/
def localTimeUnix (env : Env) (modTime : Int) : Int :=
  (modTime - 8 * 3600) + env.zoneOffset

/-- The part of `os.FileInfo` that `UploadFromDir` reads. -/
structure FileStat where
  /-- The value of `Size()`. -/
  size : Int
  /-- The value of `ModTime().Unix()`. -/
  modTime : Int
  deriving Repr, DecidableEq

/-- What the outside world answers to the worker of one file of
`UploadFromDir`. -/
structure UploadInput where
  /-- The answer of `os.Stat(localdir + fileName)`, `none` on an error. -/
  stat : Option FileStat
  /-- What `curl` returns to the `Head` of the destination object. -/
  head : Outcome
  /-- Whether `os.Open` and `ioutil.ReadAll` succeed. -/
  readable : Bool
  /-- What `curl` returns to the `Put` of attempt `i`. -/
  curl : Nat → Outcome

/-- The map left in `objectHead` by `objectHead, _ := this.Head(..)`: the
`nil` map on an error. -/
def headMap (curl : Outcome) : StrMap :=
  match Head curl with
  | .error _ => []
  | .ok res => res

/-- The worker of `UploadFromDir` for one file (`object.go`, lines 313-373). -/
def uploadFromDirItem (c : Client) (env : Env) (replace bucket object : String)
    (x : UploadInput) : ItemResult :=
  let exit : ItemResult := { calls := 0, exited := true, response := [], skip := 0, finish := 0 }
  let upload : ItemResult :=
    if x.readable then uploadFromDirPut c x.curl bucket object else exit
  if replace ≠ "true" then
    match x.stat with
    | none => exit
    | some localFileStat =>
      let localFileSize := localFileStat.size
      let objectHead := headMap x.head
      let objectHeadSize := env.parseInt (objectHead.get "Content-Length")
      if objectHead.get "StatusCode" = "200" ∧ localFileSize = objectHeadSize then
        let objectTime := parsedUnix env (objectHead.get "Last-Modified")
        let localTime := localTimeUnix env localFileStat.modTime
        if objectTime ≥ localTime then
          { calls := 0, exited := false, response := [], skip := 1, finish := 0 }
        else upload
      else upload
  else upload

/-- What the service answers to the worker of one object of `CopyAllObject`. -/
structure CopyInput where
  /-- What `curl` returns to the `Head` of the destination object. -/
  objectHead : Outcome
  /-- What `curl` returns to the `Head` of the source object. -/
  sourceHead : Outcome
  /-- What `curl` returns to the `Copy` of attempt `i`. -/
  curl : Nat → Outcome

/-- The worker of `CopyAllObject` for one object (`object.go`, lines 464-505). -/
def copyAllObjectItem (c : Client) (env : Env) (replace : String) (x : CopyInput) : ItemResult :=
  let copy : ItemResult := copyAllObjectCopy c x.curl
  if replace ≠ "true" then
    let objectHead := headMap x.objectHead
    if objectHead.get "StatusCode" = "200" then
      let objectHeadSize := env.parseInt (objectHead.get "Content-Length")
      let sourceHead := headMap x.sourceHead
      let sourceHeadSize := env.parseInt (sourceHead.get "Content-Length")
      if sourceHead.get "StatusCode" = "200" ∧ objectHeadSize = sourceHeadSize then
        let objectTime := parsedUnix env (objectHead.get "Last-Modified")
        let sourceTime := parsedUnix env (sourceHead.get "Last-Modified")
        if objectTime ≥ sourceTime then
          { calls := 0, exited := false, response := [], skip := 1, finish := 0 }
        else copy
      else copy
    else copy
  else copy

/-- How a run of an operation ends. -/
inductive RunResult (α : Type) where
  /-- The operation executes `return a, nil`. -/
  | returned (a : α)
  /-- The operation executes `return nil, err`. -/
  | failed (err : String)
  /-- A worker or the command executes `os.Exit(2)`. -/
  | exited
  /-- A run-time panic (index out of range). -/
  | panicked
  /-- The answers given to the embedding are used up before the run ends. -/
  | pending
  deriving Repr, DecidableEq

/-- The counters returned by `UploadFromDir` and `CopyAllObject`. -/
structure Counts where
  total : Int
  skip : Int
  finish : Int
  deriving Repr, DecidableEq

/-- The counters returned by `DeleteAllObject`. -/
structure DeleteCounts where
  total : Int
  finish : Int
  deriving Repr, DecidableEq

/-- The values of `tmpSkip` and `tmpFinish` after the work items `done` have
completed in this order: each item adds its amounts with `atomic.AddInt64`. -/
def addCounters (done : List ItemResult) : Int × Int :=
  done.foldl (fun acc r => (acc.1 + r.skip, acc.2 + r.finish)) (0, 0)

/-- The number `fail` printed by the commands `uploadfromdir` and
`copybucket` (`api.go`, lines 118 and 169). -/
def failOf (r : Counts) : Int := r.total - r.finish - r.skip

/-- The number `fail` printed by the command `deleteallobject` (`api.go`,
line 215). -/
def deleteFailOf (r : DeleteCounts) : Int := r.total - r.finish

/-- The function `strings.TrimRight(s, "/")`. -/
def trimRightSlash (s : String) : String :=
  ⟨(s.data.reverse.dropWhile (· == '/')).reverse⟩

/-- The function `strings.TrimLeft(s, "/")`. -/
def trimLeftSlash (s : String) : String :=
  ⟨s.data.dropWhile (· == '/')⟩

/-- The destination key of a file in `UploadFromDir` (`object.go`, lines
315-321). -/
def uploadObjectName (pfx fileName : String) : String :=
  let object := trimRightSlash pfx ++ "/"
  let object := object ++ fileName
  trimLeftSlash object

/-- The work items of `UploadFromDir` in the order of `fileList`; `inputs n`
is what the outside world answers to the worker of file number `n`. -/
def uploadFromDirItems (c : Client) (env : Env) (replace bucket pfx : String)
    (fileList : List String) (inputs : Nat → UploadInput) : List ItemResult :=
  fileList.enum.map (fun p =>
    uploadFromDirItem c env replace bucket (uploadObjectName pfx p.2) (inputs p.1))

/-- The function `UploadFromDir` of `object.go` on the file list returned by
`walkdir`.  The workers run concurrently; their only shared state is the two
atomic counters, so the run is determined by what each worker does. -/
def UploadFromDir (c : Client) (env : Env) (replace bucket pfx : String)
    (fileList : List String) (inputs : Nat → UploadInput) : RunResult Counts :=
  let total : Int := fileList.length
  let items := uploadFromDirItems c env replace bucket pfx fileList inputs
  if items.any (fun r => r.exited) then .exited
  else .returned { total := total, skip := (addCounters items).1, finish := (addCounters items).2 }

/-- The struct `ListObjectContents` of `object.go` (the field `Type` is
written `ObjType`). -/
structure ListObjectContents where
  Key : String
  LastModified : String
  ETag : String
  ObjType : String
  Size : String
  StorageClass : String
  deriving Repr, DecidableEq

/-- The struct `ListObjectResult` of `object.go` (the field `Prefix` is
written `KeyPrefix`). -/
structure ListObjectResult where
  Name : String
  KeyPrefix : String
  Marker : String
  MaxKeys : String
  Delimiter : String
  IsTruncated : String
  Contents : List ListObjectContents
  deriving Repr, DecidableEq

/-- What a call of `ListObject` returns: the decoded page or an error. -/
abbrev ListOutcome := Except String ListObjectResult

/-- The value of `marker` after `for _, v := range list.Contents { marker =
v.Key }`: the last key of the page, the old marker on an empty page. -/
def lastKeyOr (marker : String) (contents : List ListObjectContents) : String :=
  contents.foldl (fun _ v => v.Key) marker

/-- The loop `LIST: .. goto LIST` of `CopyAllObject` (`object.go`, lines
450-512).  `pages` are the answers of the successive calls of `ListObject`,
`marker` the marker of the next call, `total`, `skip`, `finish` the counters
so far and `inputs n` the answers to the worker of work item number `n`, the
items being numbered from `done` on.  The answer is the list of the markers of
the calls made and the end of the run. -/
def copyAllObjectLoop (c : Client) (env : Env) (replace : String) (inputs : Nat → CopyInput) :
    List ListOutcome → String → Nat → Int → Int → Int → List String × RunResult Counts
  | [], marker, _, _, _, _ => ([marker], .pending)
  | .error err :: _, marker, _, _, _, _ => ([marker], .failed err)
  | .ok sourceList :: pages, marker, done, total, skip, finish =>
    let sourceObjectNum := sourceList.Contents.length
    let total := total + sourceObjectNum
    let items := (sourceList.Contents.enumFrom done).map
      (fun p => copyAllObjectItem c env replace (inputs p.1))
    if items.any (fun r => r.exited) then ([marker], .exited)
    else
      let skip := skip + (addCounters items).1
      let finish := finish + (addCounters items).2
      if sourceList.IsTruncated = "true" then
        match sourceList.Contents.getLast? with
        | none => ([marker], .panicked)
        | some last =>
          let rest := copyAllObjectLoop c env replace inputs pages last.Key
            (done + sourceObjectNum) total skip finish
          (marker :: rest.1, rest.2)
      else ([marker], .returned { total := total, skip := skip, finish := finish })

/-- The function `CopyAllObject` of `object.go`, after its set-up. -/
def CopyAllObject (c : Client) (env : Env) (replace : String) (pages : List ListOutcome)
    (inputs : Nat → CopyInput) : List String × RunResult Counts :=
  copyAllObjectLoop c env replace inputs pages "" 0 0 0 0

/-- The body of one multi-delete request (`object.go`, lines 537-543). -/
def deleteBody (contents : List ListObjectContents) : String :=
  let body := "<Delete>"
  let body := body ++ "<Quiet>true</Quiet>"
  let body := contents.foldl (fun body v => body ++ "<Object><Key>" ++ v.Key ++ "</Key></Object>")
    body
  body ++ "</Delete>"

/-- What the listing phase of `DeleteAllObject` has collected. -/
structure DeleteListing where
  bodyList : List String
  bodyListNum : List Int
  total : Int
  deriving Repr, DecidableEq

/-- The loop `LIST: .. goto LIST` of `DeleteAllObject` (`object.go`, lines
528-548).  The answer is the list of the markers of the calls made and the
end of the phase: `returned none` is the early `return` with total 0,
`returned (some l)` the fall through to the dispatch of the batches. -/
def deleteAllObjectList :
    List ListOutcome → String → Int → List String → List Int →
      List String × RunResult (Option DeleteListing)
  | [], marker, _, _, _ => ([marker], .pending)
  | .error err :: _, marker, _, _, _ => ([marker], .failed err)
  | .ok list :: pages, marker, total, bodyList, bodyListNum =>
    let total := total + list.Contents.length
    if total ≤ 0 then ([marker], .returned none)
    else
      let body := deleteBody list.Contents
      let marker' := lastKeyOr marker list.Contents
      let bodyList := bodyList ++ [body]
      let bodyListNum := bodyListNum ++ [(list.Contents.length : Int)]
      if list.IsTruncated = "true" then
        let rest := deleteAllObjectList pages marker' total bodyList bodyListNum
        (marker :: rest.1, rest.2)
      else
        ([marker], .returned (some { bodyList := bodyList, bodyListNum := bodyListNum,
                                     total := total }))

/-- A request sent by `DeleteAllObject`. -/
inductive Request where
  /-- A call of `ListObject` with this marker (and `max-keys` 1000). -/
  | list (marker : String)
  /-- A multi-delete `POST /?delete` with this body. -/
  | delete (body : String)
  deriving Repr, DecidableEq

/-- The work items of the dispatch phase of `DeleteAllObject` (`object.go`,
lines 578-619), one per body; `curl n i` is what `curl` returns to attempt `i`
for batch `n`. -/
def deleteItems (c : Client) (l : DeleteListing) (curl : Nat → Nat → Outcome) : List ItemResult :=
  l.bodyList.enum.map (fun p => deleteBatch c (curl p.1) (l.bodyListNum.getD p.1 0))

/-- The function `DeleteAllObject` of `object.go`: the requests it sends
(a batch that is retried is sent once per attempt) and the end of the run. -/
def DeleteAllObject (c : Client) (pages : List ListOutcome) (curl : Nat → Nat → Outcome) :
    List Request × RunResult DeleteCounts :=
  match deleteAllObjectList pages "" 0 [] [] with
  | (markers, .pending) => (markers.map Request.list, .pending)
  | (markers, .failed err) => (markers.map Request.list, .failed err)
  | (markers, .exited) => (markers.map Request.list, .exited)
  | (markers, .panicked) => (markers.map Request.list, .panicked)
  | (markers, .returned none) => (markers.map Request.list, .returned { total := 0, finish := 0 })
  | (markers, .returned (some l)) =>
    let items := deleteItems c l curl
    let sent := (l.bodyList.zip items).flatMap
      (fun p => List.replicate p.2.calls (Request.delete p.1))
    (markers.map Request.list ++ sent,
      if items.any (fun r => r.exited) then .exited
      else .returned { total := l.total, finish := (addCounters items).2 })

/-- What the command `ls` (`ListObject` of `api.go`, lines 283-308) has done:
the markers of its calls of `client.ListObject`, the keys it printed and the
end of the run, which returns the printed object count. -/
structure ListRun where
  markers : List String
  printed : List String
  result : RunResult Int
  deriving Repr, DecidableEq

/-- The loop `LIST: .. goto LIST` of the command `ls` (`ListObject` of
`api.go`, lines 283-305). -/
def cliListObjectLoop (maxkeys : Int) : List ListOutcome → String → Int → ListRun
  | [], marker, _ => { markers := [marker], printed := [], result := .pending }
  | .error _ :: _, marker, _ => { markers := [marker], printed := [], result := .exited }
  | .ok list :: pages, marker, total =>
    let total := total + list.Contents.length
    let marker' := lastKeyOr marker list.Contents
    let keys := list.Contents.map (fun v => v.Key)
    if maxkeys ≠ total ∧ list.IsTruncated = "true" then
      let rest := cliListObjectLoop maxkeys pages marker' total
      { markers := marker :: rest.markers, printed := keys ++ rest.printed, result := rest.result }
    else { markers := [marker], printed := keys, result := .returned total }

/-- The command `ls` (`ListObject` of `api.go`) with the options `marker` and
`maxkeys`; `atoi` is `strconv.Atoi` with its error dropped. -/
def cliListObject (atoi : String → Int) (optMarker optMaxkeys : String)
    (pages : List ListOutcome) : ListRun :=
  let marker := ""
  let maxkeys : Int := 1000
  let marker := if optMarker ≠ "" then optMarker else marker
  let maxkeys := if optMaxkeys ≠ "" then atoi optMaxkeys else maxkeys
  cliListObjectLoop maxkeys pages marker 0

/-- The markers of the listing calls made when the pages `ps` are answered
one after the other and each of them asks for a further call: the first call
uses `marker`, every later call the last key of the page before it. -/
def pageMarkers (marker : String) : List ListObjectResult → List String
  | [] => [marker]
  | p :: ps => marker :: pageMarkers (lastKeyOr marker p.Contents) ps

/-! ## Request signing (`common.go`) -/

/-- The function `strings.Contains(s, substr)`. -/
def strContains (s substr : String) : Bool :=
  decide (substr.data <:+: s.data)

/-- The order `a <= b` of Go strings, which `sort.Strings` sorts by: the
lexicographic order of the bytes, which on the UTF-8 text held by a `String`
is the lexicographic order of the characters. -/
def strLe (a b : String) : Prop := a.data ≤ b.data

instance strLeDecidable : DecidableRel strLe :=
  fun a b => inferInstanceAs (Decidable (a.data ≤ b.data))

instance strLeTotal : IsTotal String strLe :=
  ⟨fun a b => le_total a.data b.data⟩

instance strLeTrans : IsTrans String strLe :=
  ⟨fun _ _ _ h₁ h₂ => le_trans h₁ h₂⟩

instance strLeAntisymm : IsAntisymm String strLe :=
  ⟨fun _ _ h₁ h₂ => String.ext (le_antisymm h₁ h₂)⟩

/-- The method `sign` of `common.go` (lines 89-106).  `headers` lists the
entries of the map in the order in which `range` enumerates them; `hmac` is
HMAC-SHA1 (`this.hmac(sign, key)`, a byte string) and `base64` the standard
encoding (`this.base64`). -/
def sign (c : Client) (hmac : String → String → List Nat) (base64 : List Nat → String)
    (method : String) (headers : StrMap) (bucket object : String) : String :=
  let LF := "\n"
  let sign := method ++ LF
  let keyList := headers.map Prod.fst
  let keyList := keyList.insertionSort strLe
  let sign := keyList.foldl (fun sign key =>
    if strContains key "x-oss-" then sign ++ (key ++ ":" ++ headers.get key ++ LF)
    else sign ++ (headers.get key ++ LF)) sign
  let sign := sign ++ ("/" ++ bucket ++ "/" ++ object)
  "OSS " ++ c.accessKeyId ++ ":" ++ base64 (hmac sign c.accessKeySecret)

/-! ## Set-up of the multipart operations (`multi.go`) -/

/-- The part loop of `CopyLargeFile` (`multi.go`, lines 202-237), from part
index `partNum` on: the indices handed to the worker tasks, in the order in
which the tasks are started. -/
def copyPartLoop (total : Int) : Nat → Int → Option (List Int)
  | 0, _ => none
  | fuel + 1, partNum =>
    if partNum ≥ total then some []
    else (copyPartLoop total fuel (partNum + 1)).map (fun rest => partNum :: rest)

/-- The array `make([]map[string]string, total)` of `UploadLargeFile` and
`CopyLargeFile`: `total` slots holding the `nil` map. -/
def makePartList (total : Int) : List StrMap :=
  List.replicate total.toNat []

/-- The handling of the option `partsize` in `UploadLargeFile` and
`CopyLargeFile` (`multi.go`, lines 41-46 and 149-154); `atoi` is
`strconv.Atoi`, `none` when it returns an error. -/
def partsizeOption (c : Client) (atoi : String → Option Int) (options : StrMap) : Client :=
  if options.get "partsize" ≠ "" then
    match atoi (options.get "partsize") with
    | some partSize =>
      if partSize ≤ c.partMaxSize ∧ partSize ≥ c.partMinSize then
        { c with partMaxSize := partSize }
      else c
    | none => c
  else c

/-- The handling of the option `thread_num` in `UploadLargeFile`,
`CopyLargeFile`, `UploadFromDir`, `CopyAllObject` and `DeleteAllObject`
(`multi.go`, lines 47-52 and 155-160; `object.go`, lines 278-283, 427-432 and
550-555). -/
def threadNumOption (c : Client) (atoi : String → Option Int) (options : StrMap) : Client :=
  if options.get "thread_num" ≠ "" then
    match atoi (options.get "thread_num") with
    | some threadNum =>
      if threadNum ≤ c.threadMaxNum ∧ threadNum ≥ c.threadMinNum then
        { c with threadMaxNum := threadNum }
      else c
    | none => c
  else c

/-- The statement `if total < this.threadMaxNum { this.threadMaxNum = total }`
(`multi.go`, lines 63-65 and 174-176; `object.go`, lines 169-171, 284-286 and
557-559). -/
def threadsForTotal (c : Client) (total : Int) : Client :=
  if total < c.threadMaxNum then { c with threadMaxNum := total } else c

/-- The client after the set-up of `UploadLargeFile` (`multi.go`, lines 41-65)
for a file of `fileSize` bytes: its `partMaxSize` is the part size of the
plan, `partTotal fileSize partMaxSize` the number of parts and its
`threadMaxNum` the capacity of the channel `queueMaxSize`. -/
def uploadLargeFileSetup (c : Client) (atoi : String → Option Int) (options : StrMap)
    (fileSize : Int) : Client :=
  let c := partsizeOption c atoi options
  let c := threadNumOption c atoi options
  let total := partTotal fileSize c.partMaxSize
  threadsForTotal c total

/-- The client after the set-up of `CopyLargeFile` (`multi.go`, lines 149-176)
for a source object of `objectSize` bytes. -/
def copyLargeFileSetup (c : Client) (atoi : String → Option Int) (options : StrMap)
    (objectSize : Int) : Client :=
  let c := partsizeOption c atoi options
  let c := threadNumOption c atoi options
  let total := partTotal objectSize c.partMaxSize
  threadsForTotal c total

/-- The client after the set-up of `UploadFromDir` (`object.go`, lines
278-286) for a file list of `total` names. -/
def uploadFromDirSetup (c : Client) (atoi : String → Option Int) (options : StrMap)
    (total : Int) : Client :=
  let c := threadNumOption c atoi options
  threadsForTotal c total

/-- The client after the set-up of the dispatch phase of `DeleteAllObject`
(`object.go`, lines 550-559) for `bodyNum` batches. -/
def deleteAllObjectSetup (c : Client) (atoi : String → Option Int) (options : StrMap)
    (bodyNum : Int) : Client :=
  let c := threadNumOption c atoi options
  threadsForTotal c bodyNum

/-- The value `x` clamped into the interval `[lo, hi]`: `x` itself when it
lies in the interval, `lo` when it is below it, `hi` when it is above it. -/
def clamp (x lo hi : Int) : Int :=
  if x < lo then lo else if hi < x then hi else x

/-! ## Whole-object upload (`object.go`) -/

/-- The function `path.Base` of the Go library: the last element of the path
once its trailing slashes are removed, "." for the empty path and "/" for a
path of slashes only. -/
def pathBase (path : String) : String :=
  if path = "" then "."
  else
    let last : String := ⟨((trimRightSlash path).data.reverse.takeWhile (· != '/')).reverse⟩
    if last = "" then "/" else last

/-- The object name used by `UploadFile`, `UploadLargeFile` (with the local
file path as `source`) and `CopyLargeFile` (with the source key as `source`)
(`object.go`, lines 54-59; `multi.go`, lines 53-58 and 162-167); `pathDir` is
`path.Dir` of the Go library. -/
def defaultObject (pathDir : String → String) (object source : String) : String :=
  let object := if object = "" then pathBase source else object
  if trimRightSlash object = pathDir object then trimRightSlash object ++ "/" ++ pathBase source
  else object

/-- The function `UploadFile` of `object.go`: `readable` tells whether `os.Open`
and `ioutil.ReadAll` succeed (otherwise the function panics, recovers and
calls `os.Exit(2)`, which is the answer `none`); `curl` is what the transport
returns to the request of `Put`. -/
def UploadFile (c : Client) (pathDir : String → String) (readable : Bool) (curl : Outcome)
    (filePath bucket object : String) : Option Outcome :=
  if readable then some (Put c curl bucket (defaultObject pathDir object filePath))
  else none

/-! ## Requests and their answers (`common.go`, `multi.go`, `object.go`) -/

/-- The assignment `m[k] = v` on a map. -/
def StrMap.set (m : StrMap) (k v : String) : StrMap :=
  (k, v) :: m.filter (fun e => e.1 != k)

/-- The result map built by `curl2Reader` (`common.go`, lines 75-82) from the
status code, the body and the first value of every header of the response. -/
def curlResult (statusCode : Int) (body : String) (header : StrMap) : StrMap :=
  let result : StrMap := [("StatusCode", toString statusCode), ("Body", body)]
  header.foldl (fun result e => result.set e.1 e.2) result

/-- A request as handed to `curl`: address, method, headers and body. -/
structure HttpRequest where
  addr : String
  method : String
  headers : StrMap
  body : String
  deriving Repr, DecidableEq

/-- The struct `CompleteUploadResult` of `multi.go`. -/
structure CompleteUploadResult where
  Location : String
  Bucket : String
  Key : String
  ETag : String
  deriving Repr, DecidableEq

/-- The request built by `completeUpload` (`multi.go`, lines 320-334).
`md5Byte` is `this.md5Byte`, `contentType` the value of
`mime.TypeByExtension(path.Ext(object))` and `date` the formatted date. -/
def completeUploadRequest (c : Client) (hmac : String → String → List Nat)
    (base64 : List Nat → String) (md5Byte : String → List Nat) (contentType date : String)
    (body bucket object uploadId : String) : HttpRequest :=
  let addr := "http://" ++ bucket ++ c.host ++ "/" ++ object ++ "?uploadId=" ++ uploadId
  let method := "POST"
  let contentLength := toString body.utf8ByteSize
  let contentMd5 := base64 (md5Byte body)
  let headers : StrMap :=
    [("Content-Md5", contentMd5), ("Content-Type", contentType), ("Date", date)]
  let headers := headers.set "Authorization"
    (sign c hmac base64 method headers bucket (object ++ "?uploadId=" ++ uploadId))
  let headers := headers.set "Content-Length" contentLength
  { addr := addr, method := method, headers := headers, body := body }

/-- What `completeUpload` returns (`multi.go`, lines 334-350), given what
`curl` returned; `unmarshal` is `xml.Unmarshal` into a `CompleteUploadResult`. -/
def completeUpload (unmarshal : String → Except String CompleteUploadResult) (curl : Outcome) :
    Outcome :=
  match curl with
  | .error err => .error err
  | .ok res =>
    if res.get "StatusCode" ≠ "200" then .error ("StatusCode:" ++ res.get "StatusCode")
    else
      match unmarshal (res.get "Body") with
      | .error err => .error err
      | .ok completeUpload =>
        .ok [("Location", completeUpload.Location),
             ("Bucket", completeUpload.Bucket),
             ("Key", completeUpload.Key),
             ("ETag", completeUpload.ETag)]

/-! ## Command layer (`api.go`) -/

/-- The function `strings.Replace(s, old, new, 1)` on the characters of its
arguments: the first occurrence of `old` in `s` is replaced by `new` (an empty
`old` occurs at the very beginning). -/
def replaceFirst : List Char → List Char → List Char → List Char
  | [], old, new => if old.isEmpty then new else []
  | ch :: rest, old, new =>
    if old.isPrefixOf (ch :: rest) then new ++ (ch :: rest).drop old.length
    else ch :: replaceFirst rest old new

/-- The function `strings.Replace(s, old, new, 1)`. -/
def strReplaceFirst (s old new : String) : String :=
  ⟨replaceFirst s.data old.data new.data⟩

/-- The first element `strings.Split(s, "/")[0]`: the text before the first
`/` of `s`, the whole of `s` when it has none. -/
def beforeFirstSlash (s : String) : String :=
  ⟨s.data.takeWhile (· != '/')⟩

/-- The function `parse_bucket_object` of `api.go`; `none` is the branch that
prints "object name SHOULD NOT begin with /" and calls `os.Exit(0)`. -/
def parse_bucket_object (path : String) : Option (String × String) :=
  let path := strReplaceFirst path "oss://" ""
  let bucket := beforeFirstSlash path
  let object := strReplaceFirst path bucket ""
  if object ≠ "" ∧ ¬ strContains object "/" then none
  else some (bucket, trimLeftSlash object)

/-! ## Directory walk (`common.go`) -/

/-- The function `strings.Split(s, ",")` on the characters of `s`. -/
def splitComma : List Char → List (List Char)
  | [] => [[]]
  | ch :: rest =>
    if ch = ',' then [] :: splitComma rest
    else
      match splitComma rest with
      | [] => [[ch]]
      | first :: more => (ch :: first) :: more

/-- The function `strings.Split(s, ",")`. -/
def strSplitComma (s : String) : List String :=
  (splitComma s.data).map String.mk

/-- The function `strings.HasSuffix(s, suffix)`. -/
def hasSuffix (s suffix : String) : Bool :=
  suffix.data.isSuffixOf s.data

/-- The loop over `suffixList` in the callback of `walkdir` (`common.go`,
lines 150-158): the value of `allowed` after the loop; `toLower` is
`strings.ToLower`. -/
def suffixLoop (toLower : String → String) (fileName : String) : List String → Bool → Bool
  | [], allowed => allowed
  | tmpSuffix :: suffixList, allowed =>
    if tmpSuffix ≠ "" then
      if hasSuffix (toLower fileName) tmpSuffix then true
      else suffixLoop toLower fileName suffixList false
    else suffixLoop toLower fileName suffixList allowed

/-- Whether the callback of `walkdir` appends the relative file name
`fileName` to the list (`common.go`, lines 147-162). -/
def suffixAllowed (toLower : String → String) (fileName suffix : String) : Bool :=
  let allowed := true
  if suffix ≠ "" then suffixLoop toLower fileName (strSplitComma suffix) allowed
  else allowed

/-! ## The body of a part upload (`multi.go`) -/

/-- The state of an `io.SectionReader` over the local file: it reads the bytes
`[base, limit)` of the file and `off` is the position of the next byte it
hands out. -/
structure SectionReader where
  base : Int
  off : Int
  limit : Int
  deriving Repr, DecidableEq

/-- The function `io.NewSectionReader(fd, off, n)`. -/
def NewSectionReader (off n : Int) : SectionReader :=
  { base := off, off := off, limit := off + n }

/-- What the transport does in one call of `curl2Reader` with a reader as
body: the number of bytes it reads from the reader before the call ends, and
what the call returns. -/
structure Attempt where
  read : Int
  outcome : Outcome

/-- The reader after the transport has read `read` bytes from it (never more
than are left). -/
def SectionReader.advance (body : SectionReader) (read : Int) : SectionReader :=
  { body with off := min body.limit (body.off + max 0 read) }

/-- The retry loop of the worker of `UploadLargeFile` (`multi.go`, lines
105-113) seen from the reader `body`, which is created once, before the loop
(line 120), and handed to every call of `uploadPart`: the answer lists, for
every attempt made, the bytes `[start, end)` of the file that the reader still
has to hand out when the attempt begins, which is the body that the attempt
sends. -/
def uploadPartRetry (attempt : Nat → Attempt) : Nat → Nat → SectionReader → List (Int × Int)
  | 0, _, _ => []
  | remaining + 1, i, body =>
    let sent := (body.off, body.limit)
    match uploadPart (attempt i).outcome with
    | .error _ => sent :: uploadPartRetry attempt remaining (i + 1) (body.advance (attempt i).read)
    | .ok _ => [sent]

/-- The bodies sent by the attempts of the worker of `UploadLargeFile` for the
task `task` (`multi.go`, lines 102-120). -/
def uploadPartBodies (c : Client) (attempt : Nat → Attempt) (task : PartTask) : List (Int × Int) :=
  uploadPartRetry attempt c.maxRetryNum 0 (NewSectionReader task.off task.num)

/-! ## The signed text and the requests that are signed -/

/-- The text that `sign` hands to `this.hmac`: the value of its variable
`sign` at line 104 of `common.go`. -/
def canonicalString (method : String) (headers : StrMap) (bucket object : String) : String :=
  let LF := "\n"
  let sign := method ++ LF
  let keyList := headers.map Prod.fst
  let keyList := keyList.insertionSort strLe
  let sign := keyList.foldl (fun sign key =>
    if strContains key "x-oss-" then sign ++ (key ++ ":" ++ headers.get key ++ LF)
    else sign ++ (headers.get key ++ LF)) sign
  sign ++ ("/" ++ bucket ++ "/" ++ object)

/-- The canonical layout of the service as the specification states it: the
verb, `Content-MD5`, `Content-Type` and `Date`, each followed by a line feed,
then every `x-oss-` header in the order of the names as `name:value` and a
line feed, then the resource `/bucket/key` with its sub-resource. -/
def serviceCanonical (verb contentMd5 contentType date : String) (ossHeaders : StrMap)
    (resource : String) : String :=
  verb ++ "\n" ++ contentMd5 ++ "\n" ++ contentType ++ "\n" ++ date ++ "\n"
    ++ String.join ((ossHeaders.insertionSort (fun a b => strLe a.1 b.1)).map
        (fun h => h.1 ++ ":" ++ h.2 ++ "\n"))
    ++ resource

/-- The text `fmt.Sprintf("attachment; filename=\"%s\"", name)`. -/
def attachment (name : String) : String :=
  "attachment; filename=\"" ++ name ++ "\""

/-- The request built by `Put` (`object.go`, lines 64-80). -/
def PutRequest (c : Client) (hmac : String → String → List Nat) (base64 : List Nat → String)
    (md5Byte : String → List Nat) (contentType date : String)
    (body bucket object disposition : String) : HttpRequest :=
  let addr := "http://" ++ bucket ++ c.host ++ "/" ++ object
  let method := "PUT"
  let contentLength := toString body.utf8ByteSize
  let contentMd5 := base64 (md5Byte body)
  let headers : StrMap :=
    [("Content-Md5", contentMd5), ("Content-Type", contentType), ("Date", date)]
  let headers := headers.set "Authorization" (sign c hmac base64 method headers bucket object)
  let headers := headers.set "Content-Length" contentLength
  let headers :=
    if disposition ≠ "" then headers.set "Content-Disposition" (attachment disposition)
    else headers
  { addr := addr, method := method, headers := headers, body := body }

/-- The request built by `Copy` (`object.go`, lines 98-110). -/
def CopyRequest (c : Client) (hmac : String → String → List Nat) (base64 : List Nat → String)
    (date : String) (bucket object source disposition : String) : HttpRequest :=
  let addr := "http://" ++ bucket ++ c.host ++ "/" ++ object
  let method := "PUT"
  let headers : StrMap := [("Date", date), ("x-oss-copy-source", source)]
  let LF := "\n"
  let headers := headers.set "Authorization"
    (sign c hmac base64 (method ++ LF ++ LF) headers bucket object)
  let headers :=
    if disposition ≠ "" then headers.set "response-content-disposition" (attachment disposition)
    else headers
  { addr := addr, method := method, headers := headers, body := "" }

/-- The request built by `Delete` (`object.go`, lines 118-126). -/
def DeleteRequest (c : Client) (hmac : String → String → List Nat) (base64 : List Nat → String)
    (date : String) (bucket object : String) : HttpRequest :=
  let addr := "http://" ++ bucket ++ c.host ++ "/" ++ object
  let method := "DELETE"
  let headers : StrMap := [("Date", date)]
  let LF := "\n"
  let headers := headers.set "Authorization"
    (sign c hmac base64 (method ++ LF ++ LF) headers bucket object)
  { addr := addr, method := method, headers := headers, body := "" }

/-- The request built by `Head` (`object.go`, lines 134-142). -/
def HeadRequest (c : Client) (hmac : String → String → List Nat) (base64 : List Nat → String)
    (date : String) (bucket object : String) : HttpRequest :=
  let addr := "http://" ++ bucket ++ c.host ++ "/" ++ object
  let method := "HEAD"
  let headers : StrMap := [("Date", date)]
  let LF := "\n"
  let headers := headers.set "Authorization"
    (sign c hmac base64 (method ++ LF ++ LF) headers bucket object)
  { addr := addr, method := method, headers := headers, body := "" }

/-- The request built by `Cat` (`object.go`, lines 243-259); `partRange` is
the optional parameter, empty when it is absent. -/
def CatRequest (c : Client) (hmac : String → String → List Nat) (base64 : List Nat → String)
    (date : String) (bucket object partRange : String) : HttpRequest :=
  let addr := "http://" ++ bucket ++ c.host ++ "/" ++ object
  let method := "GET"
  let headers : StrMap := [("Date", date)]
  let LF := "\n"
  let headers := headers.set "Authorization"
    (sign c hmac base64 (method ++ LF ++ LF) headers bucket object)
  let headers := if partRange ≠ "" then headers.set "Range" partRange else headers
  { addr := addr, method := method, headers := headers, body := "" }

/-- The function `strings.TrimLeft(s, "&")`. -/
def trimLeftAmp (s : String) : String :=
  ⟨s.data.dropWhile (· == '&')⟩

/-- The request built by `ListObject` (`object.go`, lines 385-406). -/
def ListObjectRequest (c : Client) (hmac : String → String → List Nat)
    (base64 : List Nat → String) (date : String) (bucket : String) (options : StrMap) :
    HttpRequest :=
  let param := ""
  let param :=
    if options.get "delimiter" ≠ "" then param ++ "&delimiter=" ++ options.get "delimiter"
    else param
  let param :=
    if options.get "marker" ≠ "" then param ++ "&marker=" ++ options.get "marker" else param
  let param :=
    if options.get "max-keys" ≠ "" then param ++ "&max-keys=" ++ options.get "max-keys"
    else param
  let param :=
    if options.get "prefix" ≠ "" then param ++ "&prefix=" ++ options.get "prefix" else param
  let addr := "http://" ++ bucket ++ c.host ++ "/?" ++ trimLeftAmp param
  let method := "GET"
  let headers : StrMap := [("Date", date)]
  let LF := "\n"
  let headers := headers.set "Authorization"
    (sign c hmac base64 (method ++ LF ++ LF) headers bucket "")
  { addr := addr, method := method, headers := headers, body := "" }

/-- The request built by `initUpload` (`multi.go`, lines 251-264). -/
def initUploadRequest (c : Client) (hmac : String → String → List Nat)
    (base64 : List Nat → String) (contentType date : String)
    (bucket object disposition : String) : HttpRequest :=
  let addr := "http://" ++ bucket ++ c.host ++ "/" ++ object ++ "?uploads"
  let method := "POST"
  let headers : StrMap := [("Content-Type", contentType), ("Date", date)]
  let LF := "\n"
  let headers := headers.set "Authorization"
    (sign c hmac base64 (method ++ LF) headers bucket (object ++ "?uploads"))
  let headers :=
    if disposition ≠ "" then headers.set "Content-Disposition" (attachment disposition)
    else headers
  { addr := addr, method := method, headers := headers, body := "" }

/-- The request built by `uploadPart` (`multi.go`, lines 280-293); `size` is
`body.Size()` and `body` the bytes that the reader hands out. -/
def uploadPartRequest (c : Client) (hmac : String → String → List Nat)
    (base64 : List Nat → String) (contentType date : String) (size : Int)
    (body bucket object : String) (partNumber : Int) (uploadId : String) : HttpRequest :=
  let addr := "http://" ++ bucket ++ c.host ++ "/" ++ object ++ "?partNumber="
    ++ toString partNumber ++ "&uploadId=" ++ uploadId
  let method := "PUT"
  let contentLength := toString size
  let headers : StrMap := [("Content-Type", contentType), ("Date", date)]
  let LF := "\n"
  let object := object ++ ("?partNumber=" ++ toString partNumber ++ "&uploadId=" ++ uploadId)
  let headers := headers.set "Authorization"
    (sign c hmac base64 (method ++ LF) headers bucket object)
  let headers := headers.set "Content-Length" contentLength
  { addr := addr, method := method, headers := headers, body := body }

/-- The request built by `copyPart` (`multi.go`, lines 301-312). -/
def copyPartRequest (c : Client) (hmac : String → String → List Nat)
    (base64 : List Nat → String) (date : String)
    (partRange bucket object source : String) (partNumber : Int) (uploadId : String) :
    HttpRequest :=
  let addr := "http://" ++ bucket ++ c.host ++ "/" ++ object ++ "?partNumber="
    ++ toString partNumber ++ "&uploadId=" ++ uploadId
  let method := "PUT"
  let headers : StrMap :=
    [("Date", date), ("x-oss-copy-source", source), ("x-oss-copy-source-range", partRange)]
  let LF := "\n"
  let object := object ++ ("?partNumber=" ++ toString partNumber ++ "&uploadId=" ++ uploadId)
  let headers := headers.set "Authorization"
    (sign c hmac base64 (method ++ LF ++ LF) headers bucket object)
  { addr := addr, method := method, headers := headers, body := "" }

/-- The function `strings.TrimRight(s, "\n")`. -/
def trimRightLF (s : String) : String :=
  ⟨(s.data.reverse.dropWhile (· == '\n')).reverse⟩

/-- The multi-delete request built by the worker of `DeleteAllObject`
(`object.go`, lines 587-601). -/
def deleteBatchRequest (c : Client) (hmac : String → String → List Nat)
    (base64 : List Nat → String) (md5Byte : String → List Nat) (date : String)
    (bucket body : String) : HttpRequest :=
  let addr := "http://" ++ bucket ++ c.host ++ "/?delete"
  let method := "POST"
  let contentLength := toString body.utf8ByteSize
  let contentMd5 := base64 (md5Byte body)
  let headers : StrMap := [("Content-Md5", contentMd5 ++ "\n"), ("Date", date)]
  let headers := headers.set "Authorization"
    (sign c hmac base64 method headers bucket "?delete")
  let headers := headers.set "Content-Length" contentLength
  let headers := headers.set "Content-Md5" (trimRightLF (headers.get "Content-Md5"))
  { addr := addr, method := method, headers := headers, body := body }

/-- The token of the specification for a signed text: `"OSS " + accessId + ":" +
base64(HMAC-SHA1(text, accessSecret))`. -/
def ossToken (c : Client) (hmac : String → String → List Nat) (base64 : List Nat → String)
    (text : String) : String :=
  "OSS " ++ c.accessKeyId ++ ":" ++ base64 (hmac text c.accessKeySecret)

/-! ## The client after an operation -/

/-- The client left by `UploadLargeFile` (`multi.go`, lines 31-65); nothing
after line 65 assigns to a field.  `opened` tells whether `os.Open` succeeds
and `fileSize` is the size told by `fd.Stat()`, `none` when it fails (the use
of its result then panics).  A part size of zero makes the division of line 62
panic.  A panic leaves the client as the options set it. -/
def uploadLargeFileClient (c : Client) (atoi : String → Option Int) (options : StrMap)
    (opened : Bool) (fileSize : Option Int) : Client :=
  if opened then
    let c := partsizeOption c atoi options
    let c := threadNumOption c atoi options
    match fileSize with
    | none => c
    | some fileSize =>
      if c.partMaxSize = 0 then c
      else threadsForTotal c (partTotal fileSize c.partMaxSize)
  else c

/-- The client left by `CopyLargeFile` (`multi.go`, lines 135-176); nothing
after line 176 assigns to a field.  `head` is what `curl` returns to the `Head`
of the source object.  A source without `/` makes `tmpSourceInfo[1]` panic. -/
def copyLargeFileClient (c : Client) (atoi : String → Option Int) (options : StrMap)
    (source : String) (head : Outcome) : Client :=
  if strContains source "/" then
    match Head head with
    | .error _ => c
    | .ok sourceHead =>
      if sourceHead.get "StatusCode" ≠ "200" then c
      else
        let c := partsizeOption c atoi options
        let c := threadNumOption c atoi options
        match atoi (sourceHead.get "Content-Length") with
        | none => c
        | some objectSize =>
          if c.partMaxSize = 0 then c
          else threadsForTotal c (partTotal objectSize c.partMaxSize)
  else c

/-- The client left by `Get` (`object.go`, lines 149-171); nothing after line
171 assigns to a field.  `head` is what `curl` returns to the `Head` of the
object. -/
def getClient (c : Client) (atoi : String → Option Int) (head : Outcome) : Client :=
  match Head head with
  | .error _ => c
  | .ok objectHead =>
    if objectHead.get "StatusCode" ≠ "200" then c
    else
      match atoi (objectHead.get "Content-Length") with
      | none => c
      | some objectSize =>
        if c.RecvBufferSize = 0 then c
        else threadsForTotal c (partTotal objectSize c.RecvBufferSize)

/-- The client left by `UploadFromDir` (`object.go`, lines 266-286) for a file
list of `total` names. -/
def uploadFromDirClient (c : Client) (atoi : String → Option Int) (options : StrMap)
    (total : Int) : Client :=
  uploadFromDirSetup c atoi options total

/-- The client left by `CopyAllObject` (`object.go`, lines 417-432); nothing
after line 432 assigns to a field.  A source without `/` makes
`tmpSourceInfo[1]` panic. -/
def copyAllObjectClient (c : Client) (atoi : String → Option Int) (options : StrMap)
    (source : String) : Client :=
  if strContains source "/" then threadNumOption c atoi options else c

/-- The client left by `DeleteAllObject` (`object.go`, lines 520-559): the
options are read once the listing phase has fallen through to the dispatch of
the batches, and not when the function has returned before. -/
def deleteAllObjectClient (c : Client) (atoi : String → Option Int) (options : StrMap)
    (pages : List ListOutcome) : Client :=
  match (deleteAllObjectList pages "" 0 [] []).2 with
  | .returned (some l) => deleteAllObjectSetup c atoi options l.bodyList.length
  | _ => c

/-- A call of an operation of the client, with what the outside world answers
to the part of it that decides which assignments to the fields are reached. -/
inductive Operation where
  /-- A call of `UploadLargeFile`. -/
  | uploadLargeFile (options : StrMap) (opened : Bool) (fileSize : Option Int)
  /-- A call of `CopyLargeFile`. -/
  | copyLargeFile (options : StrMap) (source : String) (head : Outcome)
  /-- A call of `Get`. -/
  | get (head : Outcome)
  /-- A call of `UploadFromDir`. -/
  | uploadFromDir (options : StrMap) (total : Int)
  /-- A call of `CopyAllObject`. -/
  | copyAllObject (options : StrMap) (source : String)
  /-- A call of `DeleteAllObject`. -/
  | deleteAllObject (options : StrMap) (pages : List ListOutcome)
  /-- A call of `UploadFile`, `Put`, `Copy`, `Delete`, `Head`, `Cat` or
  `ListObject`: no statement of these functions, nor of `curl`, `sign`,
  `initUpload`, `uploadPart`, `copyPart` and `completeUpload`, assigns to a
  field of the client. -/
  | single

/-- The client after a call of an operation on the client `c`. -/
def clientAfter (atoi : String → Option Int) (c : Client) : Operation → Client
  | .uploadLargeFile options opened fileSize => uploadLargeFileClient c atoi options opened fileSize
  | .copyLargeFile options source head => copyLargeFileClient c atoi options source head
  | .get head => getClient c atoi head
  | .uploadFromDir options total => uploadFromDirClient c atoi options total
  | .copyAllObject options source => copyAllObjectClient c atoi options source
  | .deleteAllObject options pages => deleteAllObjectClient c atoi options pages
  | .single => c

/-- The client `c'` is the client `c` with its tunables narrowed: the fields
other than `partMaxSize` and `threadMaxNum` are the same, and these two are not
larger. -/
def Narrowed (c c' : Client) : Prop :=
  c'.host = c.host ∧ c'.accessKeyId = c.accessKeyId ∧ c'.accessKeySecret = c.accessKeySecret ∧
    c'.dateTimeGMT = c.dateTimeGMT ∧ c'.dateTimeCST = c.dateTimeCST ∧
    c'.partMinSize = c.partMinSize ∧ c'.threadMinNum = c.threadMinNum ∧
    c'.maxRetryNum = c.maxRetryNum ∧ c'.RecvBufferSize = c.RecvBufferSize ∧
    c'.partMaxSize ≤ c.partMaxSize ∧ c'.threadMaxNum ≤ c.threadMaxNum

/-! ## The names used by the worker of `CopyAllObject` (`object.go`) -/

/-- The destination key `object` computed by the worker of `CopyAllObject` for
the listed key `key` (`object.go`, line 466). -/
def copyAllObjectObject (pfx key : String) : String :=
  trimRightSlash pfx ++ "/" ++ pathBase key

/-- The source `sourceObject` computed by the worker of `CopyAllObject` for the
listed key `key` (`object.go`, line 467). -/
def copyAllObjectSource (sourceBucket key : String) : String :=
  "/" ++ sourceBucket ++ "/" ++ key

/-- The request of the call `this.Copy(bucket, object, sourceObject, ..)` made
by the worker of `CopyAllObject` for the listed key `key` (`object.go`, line
488). -/
def copyAllObjectRequest (c : Client) (hmac : String → String → List Nat)
    (base64 : List Nat → String) (date : String) (bucket pfx sourceBucket key disposition : String) :
    HttpRequest :=
  CopyRequest c hmac base64 date bucket (copyAllObjectObject pfx key)
    (copyAllObjectSource sourceBucket key) disposition

/-! ## The line of a header in the signed text (`common.go`) -/

/-- The text that one turn of the header loop of `sign` appends for the name
`key` (`common.go`, lines 98-102): the name is used as it is written. -/
def headerLine (headers : StrMap) (key : String) : String :=
  let LF := "\n"
  if strContains key "x-oss-" then key ++ ":" ++ headers.get key ++ LF
  else headers.get key ++ LF

/-! ## The listing calls of the bulk operations and of the command `list` -/

/-- The options of the call of `ListObject` in `CopyAllObject` (`object.go`,
line 451) when the marker is `marker`. -/
def copyAllObjectListOptions (sourcePrefix marker : String) : StrMap :=
  [("prefix", sourcePrefix), ("marker", marker), ("max-keys", "1000")]

/-- The options of the call of `ListObject` in `DeleteAllObject` (`object.go`,
line 529) when the marker is `marker`. -/
def deleteAllObjectListOptions (pfx marker : String) : StrMap :=
  [("prefix", pfx), ("marker", marker), ("max-keys", "1000")]

/-- The options of the call of `client.ListObject` in the command `list`
(`ListAllObject` of `api.go`, lines 231-237) when the marker is `marker`; the
text of `max-keys` is `strconv.Itoa(maxkeys)`. -/
def listAllObjectListOptions (pfx marker : String) : StrMap :=
  let maxkeys : Int := 1000
  [("marker", marker), ("prefix", pfx), ("max-keys", toString maxkeys)]

/-- The two numbers printed at the end of the command `list`. -/
structure ListAllTotals where
  totalNum : Int
  totalSize : Int
  deriving Repr, DecidableEq

/-- What the command `list` (`ListAllObject` of `api.go`) has done: the
markers of its calls of `client.ListObject`, the keys of the entries it
printed and the end of the run, which prints the totals. -/
structure ListAllRun where
  markers : List String
  printed : List String
  result : RunResult ListAllTotals
  deriving Repr, DecidableEq

/-- The loop `LIST: .. goto LIST` of the command `list` (`ListAllObject` of
`api.go`, lines 232-254); `atoi` is `strconv.Atoi` with its error dropped. -/
def cliListAllObjectLoop (atoi : String → Int) :
    List ListOutcome → String → Int → Int → ListAllRun
  | [], marker, _, _ => { markers := [marker], printed := [], result := .pending }
  | .error _ :: _, marker, _, _ => { markers := [marker], printed := [], result := .exited }
  | .ok list :: pages, marker, totalNum, totalSize =>
    let totalNum := totalNum + list.Contents.length
    let marker' := lastKeyOr marker list.Contents
    let totalSize := list.Contents.foldl (fun totalSize v => totalSize + atoi v.Size) totalSize
    let keys := list.Contents.map (fun v => v.Key)
    if list.IsTruncated = "true" then
      let rest := cliListAllObjectLoop atoi pages marker' totalNum totalSize
      { markers := marker :: rest.markers, printed := keys ++ rest.printed, result := rest.result }
    else
      { markers := [marker], printed := keys,
        result := .returned { totalNum := totalNum, totalSize := totalSize } }

/-- The command `list` (`ListAllObject` of `api.go`). -/
def cliListAllObject (atoi : String → Int) (pages : List ListOutcome) : ListAllRun :=
  let totalNum := 0
  let totalSize := 0
  let marker := ""
  cliListAllObjectLoop atoi pages marker totalNum totalSize

/-! ## The answer accepted for a retried request, in the words of the specification -/

/-- The answer accepted for a request that is attempted up to `maxRetryNum`
times, as the specification words it: the answer of the first of the attempts
`0, .., maxRetryNum - 1` that does not return a transport error, `none` when
every one of them does.  `curl i` is what the transport returns to attempt
`i`. -/
def firstAnswer (curl : Nat → Outcome) (maxRetryNum : Nat) : Option StrMap :=
  ((List.range maxRetryNum).filterMap (fun i =>
    match curl i with
    | .ok res => some res
    | .error _ => none)).head?

/-- What a batch of `num` keys counts for in `finish`, as the specification
words it: its key count when the batch is answered with status 200, nothing
when it is answered with another status or not answered at all. -/
def batchFinish (curl : Nat → Outcome) (maxRetryNum : Nat) (num : Int) : Int :=
  match firstAnswer curl maxRetryNum with
  | some res => if res.get "StatusCode" = "200" then num else 0
  | none => 0

/-! ## Examples -/

/-- Example stand-in for HMAC-SHA1 that keeps the text it is given readable:
the code points of the key, a zero, and the code points of the text. -/
def exampleHmac (text key : String) : List Nat :=
  key.data.map Char.toNat ++ [0] ++ text.data.map Char.toNat

/-- Example stand-in for the base64 encoding: the text with these code
points, a zero being written as `|`. -/
def exampleBase64 (bytes : List Nat) : String :=
  ⟨bytes.map (fun n => if n = 0 then '|' else Char.ofNat n)⟩

/-- Example page of a listing: the `count` objects `key<start>`,
`key<start+1>`, .. -/
def examplePage (start count : Nat) (truncated : String) : ListObjectResult :=
  { Name := "bucket", KeyPrefix := "", Marker := "", MaxKeys := "1000", Delimiter := "",
    IsTruncated := truncated,
    Contents := (List.range' start count).map (fun i =>
      { Key := "key" ++ toString i, LastModified := "", ETag := "", ObjType := "",
        Size := "0", StorageClass := "Standard" }) }

/-- Example answers for one object of `CopyAllObject`: the destination does
not exist and the copy succeeds. -/
def exampleCopy : CopyInput :=
  { objectHead := .ok [("StatusCode", "404")]
    sourceHead := .ok [("StatusCode", "200")]
    curl := fun _ => .ok [("StatusCode", "200")] }

/-- Example answers for one file of `UploadFromDir`: a `HEAD` answer with status 200,
`Content-Length` 5 and the given `Last-Modified`, and a `PUT` that succeeds. -/
def exampleUpload (lastModified : String) : UploadInput :=
  { stat := some { size := 5, modTime := 1700000000 }
    head := .ok [("StatusCode", "200"), ("Content-Length", "5"), ("Last-Modified", lastModified)]
    readable := true
    curl := fun _ => .ok [("StatusCode", "200")] }

/-- Example machine: the zone offset is given, and the two
date texts of the examples are parsed to their Unix times. -/
def exampleEnv (zoneOffset : Int) : Env :=
  { zoneOffset := zoneOffset
    parseInt := fun s => if s = "5" then 5 else 0
    parseTime := fun s =>
      if s = "Tue, 14 Nov 2023 21:13:20 GMT" then some 1699996400
      else if s = "Tue, 14 Nov 2023 22:13:20 GMT" then some 1700000000
      else none }

/-- The number written by a text of decimal digits, `none` when a character
is not a digit. -/
def exampleDigits : List Char → Nat → Option Nat
  | [], acc => some acc
  | ch :: rest, acc =>
    if ch.isDigit then exampleDigits rest (acc * 10 + (ch.toNat - '0'.toNat)) else none

/-- Example reading of `strconv.Atoi` on texts of decimal digits with an
optional sign. -/
def exampleAtoi (s : String) : Option Int :=
  match s.data with
  | [] => none
  | '-' :: d :: ds => (exampleDigits (d :: ds) 0).map (fun n => -(n : Int))
  | '+' :: d :: ds => (exampleDigits (d :: ds) 0).map (fun n => (n : Int))
  | ds => (exampleDigits ds 0).map (fun n => (n : Int))

/-- Example reading of `strings.ToLower` on texts of ASCII characters. -/
def exampleToLower (s : String) : String :=
  ⟨s.data.map Char.toLower⟩

/-- Example stand-in for HMAC-SHA1 that is free of collisions: the length of
the key, then the code points of the key and of the text. -/
def collisionFreeHmac (text key : String) : List Nat :=
  key.data.length :: (key.data ++ text.data).map Char.toNat

/-- Example stand-in for the base64 encoding that is injective: every number
`n` is written as `n` letters `a` followed by the letter `b`. -/
def unaryBase64 (bytes : List Nat) : String :=
  ⟨bytes.flatMap (fun n => List.replicate n 'a' ++ ['b'])⟩

/-- Example answers of the transport to the batches of `DeleteAllObject`: the
first batch meets a transport error and is then answered with status 200,
every other batch is answered with status 500. -/
def exampleBatchAnswers (n i : Nat) : Outcome :=
  if n = 0 then
    if i = 0 then .error "timeout" else .ok [("StatusCode", "200")]
  else .ok [("StatusCode", "500")]

/-! ## Theorems -/

/-- A natural number `k` is below the part count exactly when part `k` starts
inside the object. -/
theorem lt_partTotal_iff (S P : Int) (hS : 0 ≤ S) (hP : 1 ≤ P) (k : Nat) :
    (k : Int) < partTotal S P ↔ (k : Int) * P < S := by
  unfold partTotal
  rw [Int.tdiv_eq_ediv (by omega) (by omega)]
  have hP0 : (0 : Int) < P := by omega
  constructor
  · intro h
    have h1 : (k : Int) + 1 ≤ (S + P - 1) / P := by omega
    rw [Int.le_ediv_iff_mul_le hP0] at h1
    have : ((k : Int) + 1) * P = k * P + P := by ring
    omega
  · intro h
    have h1 : (k : Int) + 1 ≤ (S + P - 1) / P := by
      rw [Int.le_ediv_iff_mul_le hP0]
      have : ((k : Int) + 1) * P = k * P + P := by ring
      omega
    omega

/-- The part count is not negative. -/
theorem partTotal_nonneg (S P : Int) (hS : 0 ≤ S) (hP : 1 ≤ P) : 0 ≤ partTotal S P := by
  unfold partTotal
  rw [Int.tdiv_eq_ediv (by omega) (by omega)]
  exact Int.ediv_nonneg (by omega) (by omega)

/-- From part `k` on, with enough fuel, the loop dispatches the planned parts
`k, k+1, .., k+d-1`, where `k + d` is the part count. -/
theorem uploadPartLoop_from (S P : Int) (hS : 0 ≤ S) (hP : 1 ≤ P) :
    ∀ (d k fuel : Nat), ((k + d : Nat) : Int) = partTotal S P → d < fuel →
      uploadPartLoop S P fuel k = some ((List.range' k d).map (plannedPart S P)) := by
  intro d
  induction d with
  | zero =>
    intro k fuel hk hf
    obtain ⟨f, rfl⟩ : ∃ f, fuel = f + 1 := ⟨fuel - 1, by omega⟩
    have hge : ¬ ((k : Int) * P < S) := by
      rw [← lt_partTotal_iff S P hS hP k]
      simp at hk
      omega
    simp only [uploadPartLoop, List.range'_zero, List.map_nil]
    rw [if_pos (by omega)]
  | succ d ih =>
    intro k fuel hk hf
    obtain ⟨f, rfl⟩ : ∃ f, fuel = f + 1 := ⟨fuel - 1, by omega⟩
    have hlt : (k : Int) * P < S := by
      rw [← lt_partTotal_iff S P hS hP k]
      push_cast at hk
      omega
    have hnext := ih (k + 1) f (by rw [← hk]; push_cast; ring) (by omega)
    simp only [uploadPartLoop]
    rw [if_neg (by omega)]
    have hcast : ((k : Int) + 1) = ((k + 1 : Nat) : Int) := by push_cast; rfl
    rw [hcast, hnext]
    simp only [Option.map_some', List.range'_succ, List.map_cons, plannedPart]
    congr 2
    by_cases h : S - (k : Int) * P < P
    · rw [if_pos h, min_eq_right (by omega)]
    · rw [if_neg h, min_eq_left (by omega)]

/-- The lengths of the first `k` planned parts add up to `min (k * P) S`. -/
theorem plannedPart_sum (S P : Int) (hS : 0 ≤ S) (hP : 1 ≤ P) :
    ∀ k : Nat, (k : Int) ≤ partTotal S P →
      (((List.range k).map (plannedPart S P)).map PartTask.num).sum
        = min ((k : Int) * P) S := by
  intro k
  induction k with
  | zero => intro _; simp; omega
  | succ k ih =>
    intro hk1
    have hlt : (k : Int) * P < S := by
      rw [← lt_partTotal_iff S P hS hP k]
      push_cast at hk1
      omega
    rw [List.range_succ, List.map_append, List.map_append, List.sum_append,
      ih (by push_cast at hk1; omega)]
    simp only [List.map_cons, List.map_nil, List.sum_cons, List.sum_nil, plannedPart]
    have e : ((k + 1 : Nat) : Int) * P = (k : Int) * P + P := by push_cast; ring
    rw [e]
    clear ih e
    simp only [min_def]
    split_ifs <;> omega

/-- C1: for a file of `S ≥ 1` bytes and a part size `P ≥ 1`, the part loop of
`UploadLargeFile` returns (with fuel above the part count) and dispatches
exactly the parts `0, 1, .., n-1` in ascending order, where `n` is the part
count `ceil(S/P)` (the one number with `(n-1)*P < S ≤ n*P`); part `i` reads
`min P (S - i*P) ≥ 1` bytes from offset `i*P`; the first part starts at byte 0,
each part ends where the next one starts, the lengths add up to `S` and the
last part ends at byte `S - 1`. -/
theorem C1_upload_part_plan (S P : Int) (hS : 1 ≤ S) (hP : 1 ≤ P) (fuel : Nat)
    (hfuel : (partTotal S P).toNat < fuel) :
    uploadPartLoop S P fuel 0
        = some ((List.range (partTotal S P).toNat).map (plannedPart S P)) ∧
      ((List.range (partTotal S P).toNat).map (plannedPart S P)).length
        = (partTotal S P).toNat ∧
      (partTotal S P - 1) * P < S ∧ S ≤ partTotal S P * P ∧
      (∀ i : Nat, (i : Int) < partTotal S P →
        (plannedPart S P i).partNum = i ∧ (plannedPart S P i).off = i * P ∧
        (plannedPart S P i).num = min P (S - i * P) ∧ 1 ≤ (plannedPart S P i).num) ∧
      (plannedPart S P 0).off = 0 ∧
      (∀ i : Nat, (i : Int) + 1 < partTotal S P →
        (plannedPart S P i).off + (plannedPart S P i).num = (plannedPart S P (i + 1)).off) ∧
      (((List.range (partTotal S P).toNat).map (plannedPart S P)).map PartTask.num).sum = S ∧
      (∀ i : Nat, (i : Int) + 1 = partTotal S P →
        (plannedPart S P i).off + (plannedPart S P i).num - 1 = S - 1) := by
  have hS0 : 0 ≤ S := by omega
  have hn := partTotal_nonneg S P hS0 hP
  have hcast : (((partTotal S P).toNat : Nat) : Int) = partTotal S P := Int.toNat_of_nonneg hn
  have hlast : ¬ ((((partTotal S P).toNat : Nat) : Int) * P < S) := by
    rw [← lt_partTotal_iff S P hS0 hP]
    omega
  rw [hcast] at hlast
  have hpos : 0 < partTotal S P := by
    have := (lt_partTotal_iff S P hS0 hP 0).2 (by simp; omega)
    simpa using this
  refine ⟨?_, by simp, ?_, by omega, ?_, by simp [plannedPart], ?_, ?_, ?_⟩
  · have h := uploadPartLoop_from S P hS0 hP (partTotal S P).toNat 0 fuel
      (by rw [Nat.zero_add]; exact hcast) hfuel
    rw [List.range_eq_range']
    simpa using h
  · have h := (lt_partTotal_iff S P hS0 hP ((partTotal S P).toNat - 1)).1 (by omega)
    have e : (((partTotal S P).toNat - 1 : Nat) : Int) = partTotal S P - 1 := by omega
    rwa [e] at h
  · intro i hi
    have h := (lt_partTotal_iff S P hS0 hP i).1 hi
    refine ⟨rfl, rfl, rfl, ?_⟩
    simp only [plannedPart, min_def]
    split_ifs <;> omega
  · intro i hi
    have h := (lt_partTotal_iff S P hS0 hP (i + 1)).1 (by push_cast; omega)
    have e : ((i + 1 : Nat) : Int) * P = (i : Int) * P + P := by push_cast; ring
    simp only [plannedPart, min_def, e]
    rw [e] at h
    split_ifs <;> omega
  · rw [plannedPart_sum S P hS0 hP _ (by omega), hcast]
    exact min_eq_right (by omega)
  · intro i hi
    have h := (lt_partTotal_iff S P hS0 hP i).1 (by omega)
    have e : (i : Int) * P + P = partTotal S P * P := by rw [← hi]; ring
    simp only [plannedPart, min_def]
    split_ifs <;> omega

/-- C1, witness: a file of 25 MiB with 10 MiB parts is dispatched as exactly
three parts of 10, 10 and 5 MiB at offsets 0, 10 MiB and 20 MiB. -/
theorem C1_upload_part_plan_witness :
    (1 : Int) ≤ 26214400 ∧ (1 : Int) ≤ 10485760 ∧
      (partTotal 26214400 10485760).toNat < 4 ∧
      uploadPartLoop 26214400 10485760 4 0
        = some [⟨0, 0, 10485760⟩, ⟨1, 10485760, 10485760⟩, ⟨2, 20971520, 5242880⟩] :=
  ⟨by decide, by decide, by decide,
    (C1_upload_part_plan 26214400 10485760 (by decide) (by decide) 4 (by decide)).1.trans
      (by decide)⟩

/-- The range computed for a part `i` below the part count: it starts at
`i * P`; it ends at `min ((i+1)*P - 1) (S - 1)` except when `(i+1)*P - 1 = S`,
where the test `tmpEnd > objectSize` does not fire and the end is `S`. -/
theorem partRange_eq (S P : Int) (hS : 1 ≤ S) (hP : 1 ≤ P) (i : Nat)
    (hi : (i : Int) < partTotal S P) :
    partRange i P S
      = (i * P, if ((i : Int) + 1) * P - 1 = S then S else min (((i : Int) + 1) * P - 1) (S - 1)) := by
  have hlt := (lt_partTotal_iff S P (by omega) hP i).1 hi
  have e : ((i : Int) + 1) * P = (i : Int) * P + P := by ring
  have hk : 0 ≤ (i : Int) * P := by positivity
  simp only [partRange, e, gt_iff_lt]
  congr 1
  by_cases h : S < (i : Int) * P + P - 1
  · rw [if_pos h, if_neg (by omega), min_eq_right (by omega),
      Int.tmod_eq_emod (by omega) (by omega)]
    have hr : S % P = S - (i : Int) * P := by
      have : S = (S - (i : Int) * P) + (i : Int) * P := by ring
      rw [this, Int.add_mul_emod_self, ← this]
      exact Int.emod_eq_of_lt (by omega) (by omega)
    omega
  · rw [if_neg h]
    simp only [min_def]
    split_ifs <;> omega

/-- C2: on an object of `S = 10239` bytes the single part of `Get` and of the
`cat` command (receive buffer 10240) gets the range `0-10239`, and on an
object of `2 * 1048576 - 1` bytes copied with 1 MiB parts the last part of
`CopyLargeFile` gets the range `1048576-2097151`: the end is byte `S`, one
past the last byte `S - 1 = min ((i+1)*P - 1) (S - 1)` of the object. -/
theorem C2_part_range_reaches_byte_S :
    partTotal 10239 (New "h" "id" "key").RecvBufferSize = 1 ∧
      getPartRange (New "h" "id" "key") 0 10239 = (0, 10239) ∧
      catPartRange (New "h" "id" "key") 0 10239 = (0, 10239) ∧
      min (((0 : Int) + 1) * 10240 - 1) (10239 - 1) = 10238 ∧
      partTotal 2097151 1048576 = 2 ∧
      copyPartRange { New "h" "id" "key" with partMaxSize := 1048576 } 1 2097151
        = (1048576, 2097151) ∧
      min (((1 : Int) + 1) * 1048576 - 1) (2097151 - 1) = 2097150 := by
  decide

/-- Appending the elements of a list one by one is appending their join. -/
theorem foldl_append_eq_join (l : List String) :
    ∀ init : String, l.foldl (fun acc x => acc ++ x) init = init ++ String.join l := by
  induction l with
  | nil => intro init; simp [String.join]
  | cons a l ih =>
    intro init
    have hj : String.join (a :: l) = a ++ String.join l := by
      simp only [String.join, List.foldl_cons, String.empty_append]
      exact ih a
    rw [List.foldl_cons, ih, hj, String.append_assoc]

/-- The join of a list with a first element. -/
theorem join_cons (a : String) (l : List String) :
    String.join (a :: l) = a ++ String.join l := by
  have h := foldl_append_eq_join l a
  simp only [String.join, List.foldl_cons, String.empty_append]
  exact h

/-- The join of a concatenation. -/
theorem join_append (l₁ l₂ : List String) :
    String.join (l₁ ++ l₂) = String.join l₁ ++ String.join l₂ := by
  induction l₁ with
  | nil => simp [String.join]
  | cons a l ih => rw [List.cons_append, join_cons, join_cons, ih, String.append_assoc]

/-- The loop over the enumerated part array appends one element per slot,
numbered from `n + 1` on. -/
theorem foldl_partElement (l : List StrMap) :
    ∀ (n : Nat) (init : String),
      (l.enumFrom n).foldl (fun acc p => acc ++ partElement (p.1 + 1) (p.2.get "Etag")) init
        = init ++ String.join ((List.range l.length).map
            (fun i => partElement (n + i + 1) ((l.getD i []).get "Etag"))) := by
  induction l with
  | nil => intro n init; simp [String.join]
  | cons a l ih =>
    intro n init
    rw [List.enumFrom_cons, List.foldl_cons, ih, List.length_cons, List.range_succ_eq_map,
      List.map_cons, List.map_map, String.append_assoc, join_cons]
    congr 2
    congr 1
    apply List.map_congr_left
    intro i _
    simp only [Function.comp, List.getD_cons_succ, Nat.succ_eq_add_one]
    congr 2
    omega

/-- Writing results into the part array leaves its length unchanged and puts
each written index at its result, if every index is written with the result
`results i` that belongs to it. -/
theorem foldl_set_getElem? (results : Nat → StrMap) (order : List Nat) :
    ∀ arr : List StrMap,
      ((order.map (fun i => (i, results i))).foldl (fun arr p => arr.set p.1 p.2) arr).length
        = arr.length ∧
      ∀ i : Nat, i < arr.length →
        ((order.map (fun i => (i, results i))).foldl (fun arr p => arr.set p.1 p.2) arr)[i]?
          = if i ∈ order then some (results i) else arr[i]? := by
  induction order with
  | nil => intro arr; simp
  | cons a order ih =>
    intro arr
    obtain ⟨hl, hg⟩ := ih (arr.set a (results a))
    simp only [List.map_cons, List.foldl_cons]
    refine ⟨by rw [hl, List.length_set], ?_⟩
    intro i hi
    rw [hg i (by rw [List.length_set]; exact hi)]
    by_cases hmem : i ∈ order
    · simp [hmem]
    · by_cases hia : i = a
      · subst hia
        simp [hi]
      · have hai : ¬ a = i := fun h => hia h.symm
        simp [hmem, hia, List.getElem?_set, hai]

/-- Whatever the order in which all parts complete, the part array ends up
holding the result of part `i` in slot `i`. -/
theorem recordParts_perm (results : List StrMap) (order : List Nat)
    (hperm : order.Perm (List.range results.length)) :
    recordParts results.length (order.map (fun i => (i, results.getD i []))) = results := by
  obtain ⟨hl, hg⟩ := foldl_set_getElem? (fun i => results.getD i []) order
    (List.replicate results.length [])
  apply List.ext_getElem?
  intro i
  by_cases hi : i < results.length
  · have := hg i (by simpa using hi)
    rw [recordParts, this, if_pos (hperm.mem_iff.2 (List.mem_range.2 hi))]
    simp [List.getD_eq_getElem?_getD, List.getElem?_eq_getElem hi]
  · have h1 : results.length ≤ i := by omega
    rw [List.getElem?_eq_none h1, List.getElem?_eq_none]
    rw [recordParts, hl]
    simpa using h1

/-- C3: for every list of `N` part results and every order in which the `N`
parts complete (a permutation of `0..N-1`), the manifest built by
`UploadLargeFile` and by `CopyLargeFile` from the part array is
`<CompleteMultipartUpload>`, then for `i = 0..N-1` in ascending order the
element with part number `i + 1` and the ETag recorded for part `i`, then
`</CompleteMultipartUpload>`. -/
theorem C3_manifest_ordered (results : List StrMap) (order : List Nat)
    (hperm : order.Perm (List.range results.length)) :
    completeUploadInfo (recordParts results.length (order.map (fun i => (i, results.getD i []))))
        = "<CompleteMultipartUpload>"
          ++ String.join ((List.range results.length).map (fun i =>
              "<Part><PartNumber>" ++ toString (i + 1) ++ "</PartNumber><ETag>"
                ++ (results.getD i []).get "Etag" ++ "</ETag></Part>"))
          ++ "</CompleteMultipartUpload>" ∧
      completeCopyInfo (recordParts results.length (order.map (fun i => (i, results.getD i []))))
        = "<CompleteMultipartUpload>"
          ++ String.join ((List.range results.length).map (fun i =>
              "<Part><PartNumber>" ++ toString (i + 1) ++ "</PartNumber><ETag>"
                ++ (results.getD i []).get "Etag" ++ "</ETag></Part>"))
          ++ "</CompleteMultipartUpload>" := by
  rw [recordParts_perm results order hperm]
  have h := foldl_partElement results 0 "<CompleteMultipartUpload>"
  simp only [Nat.zero_add, partElement] at h
  constructor
  · simp only [completeUploadInfo, List.enum, partElement, h]
  · simp only [completeCopyInfo, List.enum, partElement, h]

/-- C3, witness: three parts completing in the order 2, 0, 1. -/
theorem C3_manifest_ordered_witness :
    [2, 0, 1].Perm (List.range 3) ∧
      completeUploadInfo (recordParts 3
          [(2, [("Etag", "c")]), (0, [("Etag", "a")]), (1, [("Etag", "b")])])
        = "<CompleteMultipartUpload>"
          ++ "<Part><PartNumber>1</PartNumber><ETag>a</ETag></Part>"
          ++ "<Part><PartNumber>2</PartNumber><ETag>b</ETag></Part>"
          ++ "<Part><PartNumber>3</PartNumber><ETag>c</ETag></Part>"
          ++ "</CompleteMultipartUpload>" :=
  ⟨by decide,
    (C3_manifest_ordered [[("Etag", "a")], [("Etag", "b")], [("Etag", "c")]] [2, 0, 1]
      (by decide)).1.trans (by rfl)⟩

/-- The retry loop from iteration `i` on: it makes no call beyond iteration
`i + remaining - 1`, it stops at the first iteration whose call returns no
error and accepts that result, and it accepts nothing exactly when all the
remaining iterations return an error. -/
theorem retryLoop_spec (op : Nat → Outcome) :
    ∀ remaining i : Nat,
      (retryLoop op remaining i).1 ≤ i + remaining ∧
      (∀ (k : Nat) (res : StrMap), i ≤ k → k < i + remaining →
        (∀ j, i ≤ j → j < k → isError (op j) = true) → op k = .ok res →
        retryLoop op remaining i = (k + 1, some res)) ∧
      ((retryLoop op remaining i).2 = none ↔
        ∀ j, i ≤ j → j < i + remaining → isError (op j) = true) := by
  intro remaining
  induction remaining with
  | zero =>
    intro i
    refine ⟨by simp [retryLoop], ?_, ?_⟩
    · intro k res h1 h2; omega
    · simp only [retryLoop, true_iff]
      intro j h1 h2; omega
  | succ n ih =>
    intro i
    obtain ⟨ih1, ih2, ih3⟩ := ih (i + 1)
    cases hop : op i with
    | error e =>
      have hloop : retryLoop op (n + 1) i = retryLoop op n (i + 1) := by
        simp only [retryLoop, hop]
      rw [hloop]
      refine ⟨by omega, ?_, ?_⟩
      · intro k res h1 h2 h3 h4
        have hne : k ≠ i := by
          intro h; subst h; rw [hop] at h4; cases h4
        exact ih2 k res (by omega) (by omega) (fun j hj1 hj2 => h3 j (by omega) hj2) h4
      · rw [ih3]
        constructor
        · intro h j hj1 hj2
          by_cases hji : j = i
          · subst hji; simp [hop, isError]
          · exact h j (by omega) (by omega)
        · intro h j hj1 hj2
          exact h j (by omega) (by omega)
    | ok r =>
      have hloop : retryLoop op (n + 1) i = (i + 1, some r) := by
        simp only [retryLoop, hop]
      rw [hloop]
      refine ⟨by simp, ?_, ?_⟩
      · intro k res h1 h2 h3 h4
        by_cases hki : k = i
        · subst hki
          rw [hop] at h4
          cases h4
          rfl
        · have := h3 i (le_refl i) (by omega)
          simp [hop, isError] at this
      · simp only [false_iff, not_forall, reduceCtorEq]
        exact ⟨i, le_refl i, by omega, by simp [hop, isError]⟩

/-- Every work item built from the retry loop in the way of the five pooled
operations meets the retry contract, when its request fails exactly when the
transport fails. -/
theorem retryContract_of_loop (maxRetryNum : Nat) (curl op : Nat → Outcome)
    (herr : ∀ i, isError (op i) = isError (curl i)) (fin : StrMap → Int) :
    RetryContract maxRetryNum curl op
      (match retryLoop op maxRetryNum 0 with
        | (calls, none) =>
          { calls := calls, exited := true, response := [], skip := 0, finish := 0 }
        | (calls, some res) =>
          { calls := calls, exited := false, response := res, skip := 0, finish := fin res }) := by
  obtain ⟨h1, h2, h3⟩ := retryLoop_spec op maxRetryNum 0
  simp only [Nat.zero_add] at h1 h2 h3
  refine ⟨?_, ?_, ?_⟩
  · rcases hr : retryLoop op maxRetryNum 0 with ⟨calls, _ | res⟩ <;> (rw [hr] at h1; exact h1)
  · intro k res hk hj hres
    rw [h2 k res (Nat.zero_le k) hk (fun j _ hjk => by rw [herr]; exact hj j hjk) hres]
    exact ⟨rfl, rfl, rfl⟩
  · have h3' : (retryLoop op maxRetryNum 0).2 = none ↔
        ∀ j, j < maxRetryNum → isError (curl j) = true := by
      rw [h3]
      constructor
      · intro h j hj; rw [← herr]; exact h j (Nat.zero_le j) hj
      · intro h j _ hj; rw [herr]; exact h j hj
    rw [← h3']
    rcases hr : retryLoop op maxRetryNum 0 with ⟨calls, _ | res⟩ <;> simp

/-- C4: on a freshly constructed client `maxRetryNum` is 3, and for every
client and every sequence of transport outcomes each of the five pooled work
items (part upload, part copy, directory upload, bucket copy, delete batch)
makes at most `maxRetryNum` attempts, stops at the first attempt without a
transport error and accepts the result of that attempt whatever its status
code, and reaches `os.Exit(2)` exactly when the first `maxRetryNum` attempts
all fail.  A part response with status 500 and no `Etag` header accepted at the
second attempt is stored in the part array and gives an empty `<ETag>` in the
manifest. -/
theorem C4_retry_contract (c : Client) (curl : Nat → Outcome) (bucket object : String)
    (num : Int) :
    (New "host" "id" "secret").maxRetryNum = 3 ∧
      RetryContract c.maxRetryNum curl (fun i => uploadPart (curl i)) (uploadPartWorker c curl) ∧
      RetryContract c.maxRetryNum curl (fun i => copyPart (curl i)) (copyPartWorker c curl) ∧
      RetryContract c.maxRetryNum curl (fun i => Put c (curl i) bucket object)
        (uploadFromDirPut c curl bucket object) ∧
      RetryContract c.maxRetryNum curl (fun i => Copy (curl i)) (copyAllObjectCopy c curl) ∧
      RetryContract c.maxRetryNum curl curl (deleteBatch c curl num) ∧
      (∀ res : StrMap, uploadPart (.ok res) = .ok res ∧ copyPart (.ok res) = .ok res ∧
        Copy (.ok res) = .ok res) ∧
      uploadPartWorker (New "host" "id" "secret")
          (fun i => if i = 0 then .error "timeout" else .ok [("StatusCode", "500"), ("Body", "")])
        = { calls := 2, exited := false, response := [("StatusCode", "500"), ("Body", "")],
            skip := 0, finish := 0 } ∧
      completeUploadInfo (recordParts 1 [(0, [("StatusCode", "500"), ("Body", "")])])
        = "<CompleteMultipartUpload><Part><PartNumber>1</PartNumber><ETag></ETag></Part>"
          ++ "</CompleteMultipartUpload>" := by
  refine ⟨rfl, ?_, ?_, ?_, ?_, ?_, fun res => ⟨rfl, rfl, rfl⟩, by rfl, by rfl⟩
  · exact retryContract_of_loop c.maxRetryNum curl _
      (fun i => by cases curl i <;> rfl) (fun _ => 0)
  · exact retryContract_of_loop c.maxRetryNum curl _
      (fun i => by cases curl i <;> rfl) (fun _ => 0)
  · exact retryContract_of_loop c.maxRetryNum curl _
      (fun i => by
        cases h : curl i with
        | error e => rfl
        | ok res => simp only [Put]; split <;> rfl)
      (fun res => if res.get "StatusCode" = "200" then 1 else 0)
  · exact retryContract_of_loop c.maxRetryNum curl _
      (fun i => by cases curl i <;> rfl)
      (fun res => if res.get "StatusCode" = "200" then 1 else 0)
  · exact retryContract_of_loop c.maxRetryNum curl _ (fun _ => rfl)
      (fun res => if res.get "StatusCode" = "200" then num else 0)

/-- The retry loop never answers with fewer calls than the iteration it
starts from, and with at least one more when an iteration is left. -/
theorem retryLoop_calls (op : Nat → Outcome) :
    ∀ remaining i : Nat, i ≤ (retryLoop op remaining i).1 ∧
      (0 < remaining → i + 1 ≤ (retryLoop op remaining i).1) := by
  intro remaining
  induction remaining with
  | zero => intro i; simp [retryLoop]
  | succ n ih =>
    intro i
    cases hop : op i with
    | error e =>
      have hloop : retryLoop op (n + 1) i = retryLoop op n (i + 1) := by
        simp only [retryLoop, hop]
      rw [hloop]
      have := (ih (i + 1)).1
      exact ⟨by omega, fun _ => this⟩
    | ok r =>
      have hloop : retryLoop op (n + 1) i = (i + 1, some r) := by
        simp only [retryLoop, hop]
      rw [hloop]
      simp

/-- The upload of a file never touches `tmpSkip`, adds 0 or 1 to `tmpFinish`,
adds nothing when the worker exits, and sends at least one `PUT` when
`maxRetryNum` is positive. -/
theorem uploadFromDirPut_counts (c : Client) (curl : Nat → Outcome) (bucket object : String) :
    (uploadFromDirPut c curl bucket object).skip = 0 ∧
      0 ≤ (uploadFromDirPut c curl bucket object).finish ∧
      (uploadFromDirPut c curl bucket object).finish ≤ 1 ∧
      (0 < c.maxRetryNum → 1 ≤ (uploadFromDirPut c curl bucket object).calls) := by
  have hc := (retryLoop_calls (fun i => Put c (curl i) bucket object) c.maxRetryNum 0).2
  unfold uploadFromDirPut
  rcases hr : retryLoop (fun i => Put c (curl i) bucket object) c.maxRetryNum 0
    with ⟨calls, _ | res⟩
  · rw [hr] at hc
    simpa using hc
  · rw [hr] at hc
    refine ⟨rfl, ?_, ?_, by simpa using hc⟩
    · simp only; split_ifs <;> decide
    · simp only; split_ifs <;> decide

/-- C5 (amended): when `replace` is not "true" and the local file can be
inspected, with size `S` and modification time `T`, the worker of
`UploadFromDir` skips the file (skip plus one, no `PUT`, no finish) exactly
when the `HEAD` answer has status 200, a `Content-Length` equal to `S` and a
`Last-Modified` not before `T - 8 h + zone offset`; otherwise skip is not
incremented and, the file being readable, it is uploaded through the retry
loop.  On a machine whose zone is UTC+8 the time test is `Last-Modified ≥ T`. -/
theorem C5_skip_rule (c : Client) (env : Env) (replace bucket object : String)
    (x : UploadInput) (st : FileStat) (hrep : replace ≠ "true") (hstat : x.stat = some st) :
    let fresh : Prop := (headMap x.head).get "StatusCode" = "200" ∧
      env.parseInt ((headMap x.head).get "Content-Length") = st.size ∧
      parsedUnix env ((headMap x.head).get "Last-Modified")
        ≥ st.modTime - 8 * 3600 + env.zoneOffset
    (fresh → uploadFromDirItem c env replace bucket object x
        = { calls := 0, exited := false, response := [], skip := 1, finish := 0 }) ∧
      (¬ fresh → (uploadFromDirItem c env replace bucket object x).skip = 0 ∧
        (x.readable = true →
          uploadFromDirItem c env replace bucket object x
            = uploadFromDirPut c x.curl bucket object ∧
          (0 < c.maxRetryNum → 1 ≤ (uploadFromDirItem c env replace bucket object x).calls))) ∧
      (env.zoneOffset = 8 * 3600 →
        (fresh ↔ ((headMap x.head).get "StatusCode" = "200" ∧
          env.parseInt ((headMap x.head).get "Content-Length") = st.size ∧
          parsedUnix env ((headMap x.head).get "Last-Modified") ≥ st.modTime))) := by
  intro fresh
  have hput := uploadFromDirPut_counts c x.curl bucket object
  refine ⟨?_, ?_, ?_⟩
  · rintro ⟨h1, h2, h3⟩
    simp only [uploadFromDirItem, hstat, localTimeUnix]
    rw [if_pos hrep, if_pos ⟨h1, h2.symm⟩, if_pos h3]
  · intro hn
    have hitem : uploadFromDirItem c env replace bucket object x
        = if x.readable then uploadFromDirPut c x.curl bucket object
          else { calls := 0, exited := true, response := [], skip := 0, finish := 0 } := by
      simp only [uploadFromDirItem, hstat, localTimeUnix]
      rw [if_pos hrep]
      by_cases h12 : (headMap x.head).get "StatusCode" = "200" ∧
          st.size = env.parseInt ((headMap x.head).get "Content-Length")
      · rw [if_pos h12, if_neg (fun h3 => hn ⟨h12.1, h12.2.symm, h3⟩)]
      · rw [if_neg h12]
    rw [hitem]
    constructor
    · split_ifs
      · exact hput.1
      · rfl
    · intro hr
      rw [if_pos hr]
      exact ⟨rfl, hput.2.2.2⟩
  · intro hz
    simp only [fresh, hz]
    constructor
    · rintro ⟨h1, h2, h3⟩; exact ⟨h1, h2, by omega⟩
    · rintro ⟨h1, h2, h3⟩; exact ⟨h1, h2, by omega⟩

/-- C5, counterexample: on a machine in the zone UTC a local file of 5 bytes
modified at 22:13:20 GMT (Unix time 1700000000) whose remote copy has the same
size but is one hour older (21:13:20 GMT) is skipped, with no `PUT`, although
the remote object is older than the local file. -/
theorem C5_skips_older_remote_in_utc :
    parsedUnix (exampleEnv 0) "Tue, 14 Nov 2023 21:13:20 GMT" < 1700000000 ∧
      uploadFromDirItem (New "host" "id" "secret") (exampleEnv 0) "FALSE" "bucket" "a.txt"
          (exampleUpload "Tue, 14 Nov 2023 21:13:20 GMT")
        = { calls := 0, exited := false, response := [], skip := 1, finish := 0 } := by
  decide

/-- C5, witness: on a machine in the zone UTC+8 the same file is uploaded
(one `PUT`, finish plus one, skip unchanged) when the remote copy is one hour
older. -/
theorem C5_skip_rule_witness :
    "FALSE" ≠ "true" ∧
      (exampleUpload "Tue, 14 Nov 2023 21:13:20 GMT").stat
        = some { size := 5, modTime := 1700000000 } ∧
      (uploadFromDirItem (New "host" "id" "secret") (exampleEnv (8 * 3600)) "FALSE" "bucket"
          "a.txt" (exampleUpload "Tue, 14 Nov 2023 21:13:20 GMT")).skip = 0 :=
  ⟨by decide, rfl,
    ((C5_skip_rule (New "host" "id" "secret") (exampleEnv (8 * 3600)) "FALSE" "bucket" "a.txt"
      (exampleUpload "Tue, 14 Nov 2023 21:13:20 GMT") { size := 5, modTime := 1700000000 }
      (by decide) rfl).2.1 (by decide)).1⟩

/-- The counters after a list of work items: the sums of their amounts. -/
theorem addCounters_eq (l : List ItemResult) :
    addCounters l = ((l.map ItemResult.skip).sum, (l.map ItemResult.finish).sum) := by
  have h : ∀ (l : List ItemResult) (a b : Int),
      l.foldl (fun acc r => (acc.1 + r.skip, acc.2 + r.finish)) (a, b)
        = (a + (l.map ItemResult.skip).sum, b + (l.map ItemResult.finish).sum) := by
    intro l
    induction l with
    | nil => intro a b; simp
    | cons r l ih =>
      intro a b
      rw [List.foldl_cons, ih]
      simp only [List.map_cons, List.sum_cons]
      congr 1 <;> ring
  rw [addCounters, h]
  simp

/-- The counters do not depend on the order in which the items complete. -/
theorem addCounters_perm (l₁ l₂ : List ItemResult) (h : l₁.Perm l₂) :
    addCounters l₁ = addCounters l₂ := by
  rw [addCounters_eq, addCounters_eq, (h.map _).sum_eq, (h.map _).sum_eq]

/-- When every item adds at most one unit to one of the two counters, both
counters are non-negative and together at most the number of items. -/
theorem addCounters_bound (l : List ItemResult)
    (h : ∀ r ∈ l, 0 ≤ r.skip ∧ 0 ≤ r.finish ∧ r.skip + r.finish ≤ 1) :
    0 ≤ (addCounters l).1 ∧ 0 ≤ (addCounters l).2 ∧
      (addCounters l).1 + (addCounters l).2 ≤ (l.length : Int) := by
  rw [addCounters_eq]
  induction l with
  | nil => simp
  | cons r l ih =>
    obtain ⟨h1, h2, h3⟩ := h r (List.mem_cons_self r l)
    obtain ⟨i1, i2, i3⟩ := ih (fun r hr => h r (List.mem_cons_of_mem _ hr))
    simp only [List.map_cons, List.sum_cons, List.length_cons] at *
    push_cast
    refine ⟨by omega, by omega, by omega⟩

/-- A retried request that counts at most one adds 0 or 1 to `tmpFinish`. -/
theorem copyAllObjectCopy_counts (c : Client) (curl : Nat → Outcome) :
    (copyAllObjectCopy c curl).skip = 0 ∧ 0 ≤ (copyAllObjectCopy c curl).finish ∧
      (copyAllObjectCopy c curl).finish ≤ 1 := by
  unfold copyAllObjectCopy
  rcases retryLoop (fun i => Copy (curl i)) c.maxRetryNum 0 with ⟨calls, _ | res⟩
  · simp
  · refine ⟨rfl, ?_, ?_⟩
    · simp only; split_ifs <;> decide
    · simp only; split_ifs <;> decide

/-- A work item of `UploadFromDir` increments at most one of the counters. -/
theorem uploadFromDirItem_counts (c : Client) (env : Env) (replace bucket object : String)
    (x : UploadInput) :
    ((uploadFromDirItem c env replace bucket object x).skip = 1 ∧
        (uploadFromDirItem c env replace bucket object x).finish = 0) ∨
      ((uploadFromDirItem c env replace bucket object x).skip = 0 ∧
        (uploadFromDirItem c env replace bucket object x).finish = 1) ∨
      ((uploadFromDirItem c env replace bucket object x).skip = 0 ∧
        (uploadFromDirItem c env replace bucket object x).finish = 0) := by
  have hput := uploadFromDirPut_counts c x.curl bucket object
  have hup : ∀ r : ItemResult,
      r = (if x.readable then uploadFromDirPut c x.curl bucket object
        else { calls := 0, exited := true, response := [], skip := 0, finish := 0 }) →
      (r.skip = 1 ∧ r.finish = 0) ∨ (r.skip = 0 ∧ r.finish = 1) ∨ (r.skip = 0 ∧ r.finish = 0) := by
    intro r hr
    subst hr
    split_ifs
    · obtain ⟨h1, h2, h3, _⟩ := hput
      omega
    · simp
  have hupP := hup _ rfl
  unfold uploadFromDirItem
  simp only
  generalize (if x.readable = true then uploadFromDirPut c x.curl bucket object
    else { calls := 0, exited := true, response := [], skip := 0, finish := 0 }) = up at hupP ⊢
  split_ifs
  · cases x.stat with
    | none => simp
    | some st =>
      simp only
      split_ifs
      · simp
      · exact hupP
      · exact hupP
  · exact hupP

/-- A work item of `CopyAllObject` increments at most one of the counters. -/
theorem copyAllObjectItem_counts (c : Client) (env : Env) (replace : String) (x : CopyInput) :
    ((copyAllObjectItem c env replace x).skip = 1 ∧
        (copyAllObjectItem c env replace x).finish = 0) ∨
      ((copyAllObjectItem c env replace x).skip = 0 ∧
        (copyAllObjectItem c env replace x).finish = 1) ∨
      ((copyAllObjectItem c env replace x).skip = 0 ∧
        (copyAllObjectItem c env replace x).finish = 0) := by
  have hcopy : (copyAllObjectCopy c x.curl).skip = 1 ∧ (copyAllObjectCopy c x.curl).finish = 0 ∨
      (copyAllObjectCopy c x.curl).skip = 0 ∧ (copyAllObjectCopy c x.curl).finish = 1 ∨
      (copyAllObjectCopy c x.curl).skip = 0 ∧ (copyAllObjectCopy c x.curl).finish = 0 := by
    obtain ⟨h1, h2, h3⟩ := copyAllObjectCopy_counts c x.curl
    omega
  unfold copyAllObjectItem
  simp only
  split_ifs
  · simp
  all_goals exact hcopy

/-- The counters of any list of work items of `CopyAllObject`. -/
theorem copyItems_bound (c : Client) (env : Env) (replace : String) (inputs : Nat → CopyInput)
    (contents : List ListObjectContents) (done : Nat) :
    0 ≤ (addCounters ((contents.enumFrom done).map
        (fun p => copyAllObjectItem c env replace (inputs p.1)))).1 ∧
      0 ≤ (addCounters ((contents.enumFrom done).map
        (fun p => copyAllObjectItem c env replace (inputs p.1)))).2 ∧
      (addCounters ((contents.enumFrom done).map
        (fun p => copyAllObjectItem c env replace (inputs p.1)))).1 +
        (addCounters ((contents.enumFrom done).map
          (fun p => copyAllObjectItem c env replace (inputs p.1)))).2 ≤ (contents.length : Int) := by
  have h := addCounters_bound ((contents.enumFrom done).map
      (fun p => copyAllObjectItem c env replace (inputs p.1))) (by
    intro r hr
    obtain ⟨p, _, rfl⟩ := List.mem_map.1 hr
    have := copyAllObjectItem_counts c env replace (inputs p.1)
    omega)
  simpa using h

/-- The loop of `CopyAllObject` keeps `0 ≤ skip`, `0 ≤ finish` and
`skip + finish ≤ total`. -/
theorem copyAllObjectLoop_returned (c : Client) (env : Env) (replace : String)
    (inputs : Nat → CopyInput) :
    ∀ (pages : List ListOutcome) (marker : String) (done : Nat) (total skip finish : Int)
      (ms : List String) (r : Counts),
      0 ≤ skip → 0 ≤ finish → skip + finish ≤ total →
      copyAllObjectLoop c env replace inputs pages marker done total skip finish
        = (ms, .returned r) →
      0 ≤ r.skip ∧ 0 ≤ r.finish ∧ r.skip + r.finish ≤ r.total := by
  intro pages
  induction pages with
  | nil =>
    intro marker done total skip finish ms r _ _ _ h
    simp [copyAllObjectLoop] at h
  | cons page pages ih =>
    intro marker done total skip finish ms r h1 h2 h3 h
    cases page with
    | error e => simp [copyAllObjectLoop] at h
    | ok sourceList =>
      obtain ⟨b1, b2, b3⟩ := copyItems_bound c env replace inputs sourceList.Contents done
      simp only [copyAllObjectLoop] at h
      split at h
      · simp at h
      · split at h
        · split at h
          · simp at h
          · simp only [Prod.mk.injEq] at h
            exact ih _ _ _ _ _ _ r (by omega) (by omega) (by omega) (Prod.ext rfl h.2)
        · simp only [Prod.mk.injEq, RunResult.returned.injEq] at h
          obtain ⟨_, rfl⟩ := h
          exact ⟨by simp only; omega, by simp only; omega, by simp only; omega⟩

/-- What the listing phase of `DeleteAllObject` hands to the dispatch phase:
one count per body, no count negative, and the counts add up to the total. -/
theorem deleteAllObjectList_inv :
    ∀ (pages : List ListOutcome) (marker : String) (total : Int) (bodyList : List String)
      (bodyListNum : List Int) (ms : List String) (l : DeleteListing),
      bodyListNum.sum = total → bodyList.length = bodyListNum.length →
      (∀ n ∈ bodyListNum, 0 ≤ n) →
      deleteAllObjectList pages marker total bodyList bodyListNum = (ms, .returned (some l)) →
      l.bodyListNum.sum = l.total ∧ l.bodyList.length = l.bodyListNum.length ∧
        (∀ n ∈ l.bodyListNum, 0 ≤ n) := by
  intro pages
  induction pages with
  | nil =>
    intro marker total bodyList bodyListNum ms l _ _ _ h
    simp [deleteAllObjectList] at h
  | cons page pages ih =>
    intro marker total bodyList bodyListNum ms l h1 h2 h3 h
    cases page with
    | error e => simp [deleteAllObjectList] at h
    | ok list =>
      have hsum : (bodyListNum ++ [(list.Contents.length : Int)]).sum
          = total + list.Contents.length := by simp [h1]
      have hlen : (bodyList ++ [deleteBody list.Contents]).length
          = (bodyListNum ++ [(list.Contents.length : Int)]).length := by simp [h2]
      have hnn : ∀ n ∈ bodyListNum ++ [(list.Contents.length : Int)], 0 ≤ n := by
        intro n hn
        rcases List.mem_append.1 hn with hn | hn
        · exact h3 n hn
        · simp at hn; omega
      simp only [deleteAllObjectList] at h
      split at h
      · simp at h
      · split at h
        · simp only [Prod.mk.injEq] at h
          exact ih _ _ _ _ _ l hsum hlen hnn (Prod.ext rfl h.2)
        · simp only [Prod.mk.injEq, RunResult.returned.injEq, Option.some.injEq] at h
          obtain ⟨_, rfl⟩ := h
          exact ⟨hsum, hlen, hnn⟩

/-- A batch adds its key count to `tmpFinish` when the accepted answer has
status 200, and nothing otherwise. -/
theorem deleteBatch_finish (c : Client) (curl : Nat → Outcome) (num : Int) :
    (deleteBatch c curl num).finish
      = if (deleteBatch c curl num).response.get "StatusCode" = "200" then num else 0 := by
  unfold deleteBatch
  rcases retryLoop curl c.maxRetryNum 0 with ⟨calls, _ | res⟩
  · simp only
    rw [if_neg (by decide)]
  · simp only

/-- The list of the values read at the indices of a list is the list. -/
theorem map_getD_range (l : List Int) : (List.range l.length).map (fun n => l.getD n 0) = l := by
  apply List.ext_getElem (by simp)
  intro n h1 h2
  simp [List.getD_eq_getElem?_getD, List.getElem?_eq_getElem h2]

/-- The amount added to `tmpFinish` by the batches of a listing. -/
theorem deleteItems_finish (c : Client) (l : DeleteListing) (curl : Nat → Nat → Outcome) :
    (addCounters (deleteItems c l curl)).2
      = ((List.range l.bodyList.length).map (fun n =>
          if (deleteBatch c (curl n) (l.bodyListNum.getD n 0)).response.get "StatusCode" = "200"
          then l.bodyListNum.getD n 0 else 0)).sum := by
  rw [addCounters_eq]
  simp only [deleteItems, List.map_map]
  have h : (fun p : Nat × String => deleteBatch c (curl p.1) (l.bodyListNum.getD p.1 0))
      = (fun n => deleteBatch c (curl n) (l.bodyListNum.getD n 0)) ∘ Prod.fst := rfl
  rw [← List.map_map, h, ← List.map_map _ Prod.fst, List.enum_map_fst, List.map_map]
  congr 1
  apply List.map_congr_left
  intro n _
  simp only [Function.comp]
  exact deleteBatch_finish c (curl n) _

/-- The retry loop accepts the answer of the first attempt that is not a
transport error. -/
theorem retryLoop_snd (op : Nat → Outcome) :
    ∀ remaining i : Nat,
      (retryLoop op remaining i).2
        = ((List.range' i remaining).filterMap (fun j =>
            match op j with
            | .ok res => some res
            | .error _ => none)).head? := by
  intro remaining
  induction remaining with
  | zero => intro i; rfl
  | succ r ih =>
    intro i
    rw [retryLoop, List.range'_succ]
    cases h : op i with
    | error e => simp only [List.filterMap_cons, h]; exact ih (i + 1)
    | ok res => simp only [List.filterMap_cons, h, List.head?_cons]

/-- The answer accepted by the retry loop is the first answer of the
transport that is not an error. -/
theorem retryLoop_firstAnswer (curl : Nat → Outcome) (maxRetryNum : Nat) :
    (retryLoop curl maxRetryNum 0).2 = firstAnswer curl maxRetryNum := by
  rw [retryLoop_snd, firstAnswer, List.range_eq_range']

/-- The worker of a batch leaves the process exactly when no attempt is
answered, and adds to `tmpFinish` the key count of the batch exactly when the
first answer has status 200. -/
theorem deleteBatch_eq (c : Client) (curl : Nat → Outcome) (num : Int) :
    (deleteBatch c curl num).exited = (firstAnswer curl c.maxRetryNum).isNone ∧
      (deleteBatch c curl num).finish = batchFinish curl c.maxRetryNum num := by
  have h := retryLoop_firstAnswer curl c.maxRetryNum
  unfold deleteBatch batchFinish
  rcases hr : retryLoop curl c.maxRetryNum 0 with ⟨calls, _ | res⟩
  · rw [hr] at h
    simp only at h
    rw [← h]
    exact ⟨rfl, rfl⟩
  · rw [hr] at h
    simp only at h
    rw [← h]
    exact ⟨rfl, rfl⟩

/-- The work items of the dispatch phase, batch by batch. -/
theorem deleteItems_eq_range (c : Client) (l : DeleteListing) (curl : Nat → Nat → Outcome) :
    deleteItems c l curl
      = (List.range l.bodyList.length).map
          (fun n => deleteBatch c (curl n) (l.bodyListNum.getD n 0)) := by
  simp only [deleteItems]
  have h : (fun p : Nat × String => deleteBatch c (curl p.1) (l.bodyListNum.getD p.1 0))
      = (fun n => deleteBatch c (curl n) (l.bodyListNum.getD n 0)) ∘ Prod.fst := rfl
  rw [h, ← List.map_map, List.enum_map_fst]

/-- The amount added to `tmpFinish` by the batches of a listing, in terms of
what the transport answers: the key counts of the batches whose first answer
has status 200. -/
theorem deleteItems_finish_curl (c : Client) (l : DeleteListing) (curl : Nat → Nat → Outcome) :
    (addCounters (deleteItems c l curl)).2
      = ((List.range l.bodyList.length).map (fun n =>
          batchFinish (curl n) c.maxRetryNum (l.bodyListNum.getD n 0))).sum := by
  rw [addCounters_eq, deleteItems_eq_range]
  simp only [List.map_map]
  congr 1
  apply List.map_congr_left
  intro n _
  exact (deleteBatch_eq c (curl n) _).2

/-- Some batch leaves the process exactly when none of the attempts of some
batch is answered. -/
theorem deleteItems_any_exited (c : Client) (l : DeleteListing) (curl : Nat → Nat → Outcome) :
    (deleteItems c l curl).any (fun r => r.exited) = true ↔
      ∃ n, n < l.bodyList.length ∧ firstAnswer (curl n) c.maxRetryNum = none := by
  rw [deleteItems_eq_range, List.any_eq_true]
  constructor
  · rintro ⟨r, hr, hex⟩
    obtain ⟨n, hn, rfl⟩ := List.mem_map.1 hr
    rw [(deleteBatch_eq c (curl n) _).1] at hex
    exact ⟨n, List.mem_range.1 hn, Option.isNone_iff_eq_none.1 hex⟩
  · rintro ⟨n, hn, hnone⟩
    refine ⟨_, List.mem_map.2 ⟨n, List.mem_range.2 hn, rfl⟩, ?_⟩
    rw [(deleteBatch_eq c (curl n) _).1, hnone]
    rfl

/-- C6: every work item of `UploadFromDir` and of `CopyAllObject` increments
at most one of the counters skip and finish, the counters do not depend on the
order in which the items complete, and every run of the two operations that
returns has `0 ≤ skip`, `0 ≤ finish`, `finish + skip ≤ total`, hence
`fail = total - finish - skip ≥ 0` and `finish + skip + fail = total`; every
run of `DeleteAllObject` that returns has `0 ≤ finish ≤ total` and
`finish + fail = total` with `fail = total - finish ≥ 0`, every one of its
batches has been answered by the transport at one of the `maxRetryNum`
attempts, and its finish is the sum of the key counts of the batches whose
first answer of the transport has status 200; and the run returns whenever
every batch is answered. -/
theorem C6_counters (c : Client) (env : Env) (replace bucket pfx : String)
    (fileList : List String) (uploads : Nat → UploadInput) (pages : List ListOutcome)
    (copies : Nat → CopyInput) (curl : Nat → Nat → Outcome) :
    (∀ (object : String) (x : UploadInput),
      ((uploadFromDirItem c env replace bucket object x).skip = 1 ∧
          (uploadFromDirItem c env replace bucket object x).finish = 0) ∨
        ((uploadFromDirItem c env replace bucket object x).skip = 0 ∧
          (uploadFromDirItem c env replace bucket object x).finish = 1) ∨
        ((uploadFromDirItem c env replace bucket object x).skip = 0 ∧
          (uploadFromDirItem c env replace bucket object x).finish = 0)) ∧
      (∀ x : CopyInput,
        ((copyAllObjectItem c env replace x).skip = 1 ∧
            (copyAllObjectItem c env replace x).finish = 0) ∨
          ((copyAllObjectItem c env replace x).skip = 0 ∧
            (copyAllObjectItem c env replace x).finish = 1) ∨
          ((copyAllObjectItem c env replace x).skip = 0 ∧
            (copyAllObjectItem c env replace x).finish = 0)) ∧
      (∀ done done' : List ItemResult, done.Perm done' → addCounters done = addCounters done') ∧
      (∀ r : Counts, UploadFromDir c env replace bucket pfx fileList uploads = .returned r →
        r.total = fileList.length ∧ 0 ≤ r.skip ∧ 0 ≤ r.finish ∧ r.finish + r.skip ≤ r.total ∧
          0 ≤ failOf r ∧ r.finish + r.skip + failOf r = r.total) ∧
      (∀ r : Counts, (CopyAllObject c env replace pages copies).2 = .returned r →
        0 ≤ r.skip ∧ 0 ≤ r.finish ∧ r.finish + r.skip ≤ r.total ∧
          0 ≤ failOf r ∧ r.finish + r.skip + failOf r = r.total) ∧
      (∀ r : DeleteCounts, (DeleteAllObject c pages curl).2 = .returned r →
        0 ≤ r.finish ∧ r.finish ≤ r.total ∧ 0 ≤ deleteFailOf r ∧
          r.finish + deleteFailOf r = r.total ∧
          (∀ l : DeleteListing,
            (deleteAllObjectList pages "" 0 [] []).2 = .returned (some l) →
            r.total = l.bodyListNum.sum ∧
            r.finish = ((List.range l.bodyList.length).map (fun n =>
              batchFinish (curl n) c.maxRetryNum (l.bodyListNum.getD n 0))).sum ∧
            (∀ n, n < l.bodyList.length → firstAnswer (curl n) c.maxRetryNum ≠ none))) ∧
      (∀ l : DeleteListing,
        (deleteAllObjectList pages "" 0 [] []).2 = .returned (some l) →
        (∀ n, n < l.bodyList.length → firstAnswer (curl n) c.maxRetryNum ≠ none) →
        (DeleteAllObject c pages curl).2
          = .returned
              { total := l.total
                finish := ((List.range l.bodyList.length).map (fun n =>
                  batchFinish (curl n) c.maxRetryNum (l.bodyListNum.getD n 0))).sum }) := by
  refine ⟨fun object x => uploadFromDirItem_counts c env replace bucket object x,
    fun x => copyAllObjectItem_counts c env replace x,
    fun d d' h => addCounters_perm d d' h, ?_, ?_, ?_, ?_⟩
  · intro r h
    have hb := addCounters_bound (uploadFromDirItems c env replace bucket pfx fileList uploads) (by
      intro it hit
      unfold uploadFromDirItems at hit
      obtain ⟨q, _, rfl⟩ := List.mem_map.1 hit
      have := uploadFromDirItem_counts c env replace bucket (uploadObjectName pfx q.2)
        (uploads q.1)
      omega)
    have hlen : (uploadFromDirItems c env replace bucket pfx fileList uploads).length
        = fileList.length := by simp [uploadFromDirItems]
    rw [hlen] at hb
    unfold UploadFromDir at h
    simp only at h
    split at h
    · cases h
    · simp only [RunResult.returned.injEq] at h
      subst h
      simp only [failOf]
      refine ⟨trivial, ?_⟩
      omega
  · intro r h
    rcases hrun : CopyAllObject c env replace pages copies with ⟨ms, res⟩
    rw [hrun] at h
    simp only at h
    subst h
    have := copyAllObjectLoop_returned c env replace copies pages "" 0 0 0 0 ms r
      (le_refl 0) (le_refl 0) (le_refl 0) hrun
    simp only [failOf]
    omega
  · intro r h
    unfold DeleteAllObject at h
    rcases hlist : deleteAllObjectList pages "" 0 [] [] with ⟨ms, res⟩
    rw [hlist] at h
    rcases res with (_ | l) | _ | _ | _ | _
    · simp only [RunResult.returned.injEq] at h
      subst h
      simp [deleteFailOf]
    · obtain ⟨i1, i2, i3⟩ := deleteAllObjectList_inv pages "" 0 [] [] ms l rfl rfl
        (by simp) hlist
      simp only at h
      split at h
      · cases h
      · rename_i hany
        simp only [RunResult.returned.injEq] at h
        subst h
        have hfin := deleteItems_finish c l curl
        have hle : ((List.range l.bodyList.length).map (fun n =>
            if (deleteBatch c (curl n) (l.bodyListNum.getD n 0)).response.get "StatusCode"
                = "200"
            then l.bodyListNum.getD n 0 else 0)).sum
            ≤ ((List.range l.bodyList.length).map (fun n => l.bodyListNum.getD n 0)).sum := by
          apply List.sum_le_sum
          intro n hn
          have hmem : 0 ≤ l.bodyListNum.getD n 0 := by
            rw [List.getD_eq_getElem?_getD]
            have hn' : n < l.bodyListNum.length := by
              rw [← i2]; exact List.mem_range.1 hn
            rw [List.getElem?_eq_getElem hn']
            exact i3 _ (List.getElem_mem hn')
          split_ifs
          · exact le_refl _
          · exact hmem
        have hnn : 0 ≤ ((List.range l.bodyList.length).map (fun n =>
            if (deleteBatch c (curl n) (l.bodyListNum.getD n 0)).response.get "StatusCode"
                = "200"
            then l.bodyListNum.getD n 0 else 0)).sum := by
          apply List.sum_nonneg
          intro v hv
          obtain ⟨n, hn, rfl⟩ := List.mem_map.1 hv
          have hn' : n < l.bodyListNum.length := by
            rw [← i2]; exact List.mem_range.1 hn
          split_ifs
          · rw [List.getD_eq_getElem?_getD, List.getElem?_eq_getElem hn']
            exact i3 _ (List.getElem_mem hn')
          · exact le_refl _
        have hrhs : ((List.range l.bodyList.length).map (fun n => l.bodyListNum.getD n 0)).sum
            = l.total := by rw [i2, map_getD_range, i1]
        rw [hrhs] at hle
        simp only [deleteFailOf]
        rw [hfin]
        refine ⟨hnn, hle, by omega, by omega, ?_⟩
        intro l' hl'
        simp only [RunResult.returned.injEq, Option.some.injEq] at hl'
        subst hl'
        exact ⟨i1.symm, hfin.symm.trans (deleteItems_finish_curl c l curl),
          fun n hn hnone => hany ((deleteItems_any_exited c l curl).2 ⟨n, hn, hnone⟩)⟩
    all_goals simp at h
  · intro l hl hans
    unfold DeleteAllObject
    rcases hlist : deleteAllObjectList pages "" 0 [] [] with ⟨ms, res⟩
    rw [hlist] at hl
    simp only at hl
    subst hl
    have hany : ¬ (deleteItems c l curl).any (fun r => r.exited) = true := by
      rw [deleteItems_any_exited]
      rintro ⟨n, hn, hnone⟩
      exact hans n hn hnone
    simp only [if_neg hany, deleteItems_finish_curl]

/-- C6, witness: a run of `UploadFromDir` over two files, one fresh on the
service and one not, returns total 2, skip 1, finish 1; a run of
`CopyAllObject` over a page of two objects and a page of one object returns
total 3, skip 0, finish 3; a run of `DeleteAllObject` over the same pages, whose
first batch is answered with status 200 at its second attempt and whose second
batch is answered with status 500, returns total 3, finish 2 and so fail 1. -/
theorem C6_counters_witness :
    UploadFromDir (New "host" "id" "secret") (exampleEnv (8 * 3600)) "FALSE" "bucket" "dir/"
        ["a.txt", "b.txt"]
        (fun n => if n = 0 then exampleUpload "Tue, 14 Nov 2023 22:13:20 GMT"
          else exampleUpload "Tue, 14 Nov 2023 21:13:20 GMT")
      = .returned { total := 2, skip := 1, finish := 1 } ∧
    (CopyAllObject (New "host" "id" "secret") (exampleEnv (8 * 3600)) "FALSE"
        [.ok (examplePage 0 2 "true"), .ok (examplePage 2 1 "false")] (fun _ => exampleCopy)).2
      = .returned { total := 3, skip := 0, finish := 3 } ∧
    (DeleteAllObject (New "host" "id" "secret")
        [.ok (examplePage 0 2 "true"), .ok (examplePage 2 1 "false")] exampleBatchAnswers).2
      = .returned { total := 3, finish := 2 } ∧
    batchFinish (exampleBatchAnswers 0) 3 2 = 2 ∧
    batchFinish (exampleBatchAnswers 1) 3 1 = 0 ∧
    (0 : Int) ≤ failOf { total := 2, skip := 1, finish := 1 } ∧
    (0 : Int) ≤ failOf { total := 3, skip := 0, finish := 3 } ∧
    (2 : Int) + deleteFailOf { total := 3, finish := 2 } = 3 ∧
    deleteFailOf { total := 3, finish := 2 } = 1 :=
  have h := C6_counters (New "host" "id" "secret") (exampleEnv (8 * 3600)) "FALSE" "bucket" "dir/"
    ["a.txt", "b.txt"]
    (fun n => if n = 0 then exampleUpload "Tue, 14 Nov 2023 22:13:20 GMT"
      else exampleUpload "Tue, 14 Nov 2023 21:13:20 GMT")
    [.ok (examplePage 0 2 "true"), .ok (examplePage 2 1 "false")] (fun _ => exampleCopy)
    exampleBatchAnswers
  ⟨by decide, by decide, by decide, by decide, by decide,
    (h.2.2.2.1 { total := 2, skip := 1, finish := 1 } (by decide)).2.2.2.2.1,
    (h.2.2.2.2.1 { total := 3, skip := 0, finish := 3 } (by decide)).2.2.2.1,
    (h.2.2.2.2.2.1 { total := 3, finish := 2 } (by decide)).2.2.2.1,
    by decide⟩

/-- The body of a multi-delete request, written out. -/
theorem deleteBody_eq (contents : List ListObjectContents) :
    deleteBody contents
      = "<Delete><Quiet>true</Quiet>"
        ++ String.join (contents.map (fun v => "<Object><Key>" ++ v.Key ++ "</Key></Object>"))
        ++ "</Delete>" := by
  have h : ∀ (l : List ListObjectContents) (init : String),
      l.foldl (fun body v => body ++ "<Object><Key>" ++ v.Key ++ "</Key></Object>") init
        = init ++ String.join (l.map (fun v => "<Object><Key>" ++ v.Key ++ "</Key></Object>")) := by
    intro l
    induction l with
    | nil => intro init; simp [String.join]
    | cons a l ih =>
      intro init
      rw [List.foldl_cons, ih, List.map_cons, join_cons]
      simp only [String.append_assoc]
  simp only [deleteBody, h]
  rfl

/-- The marker left by a page: its last key, the old marker on an empty page. -/
theorem lastKeyOr_eq (marker : String) (contents : List ListObjectContents) :
    lastKeyOr marker contents = (contents.getLast?.map (fun v => v.Key)).getD marker := by
  unfold lastKeyOr
  induction contents generalizing marker with
  | nil => rfl
  | cons a l ih =>
    rw [List.foldl_cons, ih]
    cases l with
    | nil => rfl
    | cons b l =>
      rw [List.getLast?_cons_cons, List.getLast?_eq_getLast _ (List.cons_ne_nil b l)]
      rfl

/-- One turn of the listing loop of `DeleteAllObject` on a page that makes the
total positive. -/
theorem deleteAllObjectList_step (list : ListObjectResult) (pages : List ListOutcome)
    (marker : String) (total : Int) (bodyList : List String) (bodyListNum : List Int)
    (hpos : ¬ (total + (list.Contents.length : Int) ≤ 0)) :
    deleteAllObjectList (.ok list :: pages) marker total bodyList bodyListNum
      = if list.IsTruncated = "true" then
          (marker :: (deleteAllObjectList pages (lastKeyOr marker list.Contents)
              (total + list.Contents.length) (bodyList ++ [deleteBody list.Contents])
              (bodyListNum ++ [(list.Contents.length : Int)])).1,
            (deleteAllObjectList pages (lastKeyOr marker list.Contents)
              (total + list.Contents.length) (bodyList ++ [deleteBody list.Contents])
              (bodyListNum ++ [(list.Contents.length : Int)])).2)
        else
          ([marker], .returned (some
            { bodyList := bodyList ++ [deleteBody list.Contents]
              bodyListNum := bodyListNum ++ [(list.Contents.length : Int)]
              total := total + list.Contents.length })) := by
  simp only [deleteAllObjectList, if_neg hpos]

/-- The listing phase of `DeleteAllObject` on pages of which all but the last
are truncated: one body and one count per page, in the order of the pages. -/
theorem deleteAllObjectList_eq (rest : List ListOutcome) :
    ∀ (ps : List ListObjectResult) (marker : String) (total : Int) (bodyList : List String)
      (bodyListNum : List Int),
      ps ≠ [] → (∀ p ∈ ps.dropLast, p.IsTruncated = "true") →
      (∀ p ∈ ps.getLast?, p.IsTruncated ≠ "true") → 0 ≤ total →
      (0 < total ∨ ∀ p ∈ ps.head?, p.Contents ≠ []) →
      deleteAllObjectList (ps.map Except.ok ++ rest) marker total bodyList bodyListNum
        = (pageMarkers marker ps.dropLast,
            .returned (some
              { bodyList := bodyList ++ ps.map (fun p => deleteBody p.Contents)
                bodyListNum := bodyListNum ++ ps.map (fun p => (p.Contents.length : Int))
                total := total + (ps.map (fun p => (p.Contents.length : Int))).sum })) := by
  intro ps
  induction ps with
  | nil => intro _ _ _ _ h; exact absurd rfl h
  | cons p ps ih =>
    intro marker total bodyList bodyListNum _ htr hlast htot hfirst
    have hpos : ¬ (total + (p.Contents.length : Int) ≤ 0) := by
      rcases hfirst with h | h
      · omega
      · have hne : p.Contents ≠ [] := h p (by simp)
        have : 0 < p.Contents.length := List.length_pos.2 hne
        omega
    cases ps with
    | nil =>
      have hnt : ¬ p.IsTruncated = "true" := hlast p (by simp)
      simp only [List.map_cons, List.map_nil, List.cons_append, List.nil_append]
      rw [deleteAllObjectList_step _ _ _ _ _ _ hpos, if_neg hnt]
      simp [pageMarkers]
    | cons q qs =>
      have ht : p.IsTruncated = "true" := htr p (by simp)
      have hrec := ih (lastKeyOr marker p.Contents) (total + p.Contents.length)
        (bodyList ++ [deleteBody p.Contents]) (bodyListNum ++ [(p.Contents.length : Int)])
        (by simp) (fun x hx => htr x (by rw [List.dropLast_cons₂]; exact List.mem_cons_of_mem _ hx))
        (fun x hx => hlast x (by rw [List.getLast?_cons_cons]; exact hx)) (by omega)
        (Or.inl (by omega))
      simp only [List.map_cons, List.cons_append] at hrec ⊢
      rw [deleteAllObjectList_step _ _ _ _ _ _ hpos, if_pos ht, hrec]
      simp only [List.dropLast_cons₂, pageMarkers, List.append_assoc, List.singleton_append,
        List.sum_cons, add_assoc]

/-- The key counts of the pages add up to the number of listed objects. -/
theorem sum_page_lengths (ps : List ListObjectResult) :
    (ps.map (fun p => (p.Contents.length : Int))).sum
      = ((ps.flatMap (fun p => p.Contents)).length : Int) := by
  induction ps with
  | nil => rfl
  | cons p ps ih =>
    rw [List.map_cons, List.sum_cons, ih, List.flatMap_cons, List.length_append]
    push_cast
    rfl

/-- The end of a run of `DeleteAllObject` whose listing is answered by the
pages `ps`, all truncated but the last and the first not empty: the run returns
when every batch is answered by the transport at one of its attempts, with the
number of listed objects as total and the key counts of the batches whose first
answer has status 200 as finish, and the process exits when some batch is not
answered. -/
theorem deleteAllObject_result (c : Client) (ps : List ListObjectResult)
    (rest : List ListOutcome) (curl : Nat → Nat → Outcome) (hne : ps ≠ [])
    (htr : ∀ p ∈ ps.dropLast, p.IsTruncated = "true")
    (hlast : ∀ p ∈ ps.getLast?, p.IsTruncated ≠ "true")
    (hfirst : ∀ p ∈ ps.head?, p.Contents ≠ []) :
    ((∀ n, n < ps.length → firstAnswer (curl n) c.maxRetryNum ≠ none) →
      (DeleteAllObject c (ps.map Except.ok ++ rest) curl).2
        = .returned
            { total := (ps.map (fun p => (p.Contents.length : Int))).sum
              finish := ((List.range ps.length).map (fun n =>
                batchFinish (curl n) c.maxRetryNum
                  ((ps.map (fun p => (p.Contents.length : Int))).getD n 0))).sum }) ∧
      ((∃ n, n < ps.length ∧ firstAnswer (curl n) c.maxRetryNum = none) →
        (DeleteAllObject c (ps.map Except.ok ++ rest) curl).2 = .exited) := by
  have hlist := deleteAllObjectList_eq rest ps "" 0 [] [] hne htr hlast (le_refl 0) (Or.inr hfirst)
  simp only [List.nil_append, zero_add] at hlist
  have hany := deleteItems_any_exited c
    { bodyList := ps.map (fun p => deleteBody p.Contents)
      bodyListNum := ps.map (fun p => (p.Contents.length : Int))
      total := (ps.map (fun p => (p.Contents.length : Int))).sum } curl
  have hfin := deleteItems_finish_curl c
    { bodyList := ps.map (fun p => deleteBody p.Contents)
      bodyListNum := ps.map (fun p => (p.Contents.length : Int))
      total := (ps.map (fun p => (p.Contents.length : Int))).sum } curl
  simp only [List.length_map] at hany hfin
  constructor
  · intro hans
    have hno : ¬ (deleteItems c
        { bodyList := ps.map (fun p => deleteBody p.Contents)
          bodyListNum := ps.map (fun p => (p.Contents.length : Int))
          total := (ps.map (fun p => (p.Contents.length : Int))).sum } curl).any
          (fun r => r.exited) = true := by
      rw [hany]
      rintro ⟨n, hn, hnone⟩
      exact hans n hn hnone
    unfold DeleteAllObject
    rw [hlist]
    simp only [if_neg hno, hfin]
  · intro hex
    unfold DeleteAllObject
    rw [hlist]
    simp only [if_pos (hany.2 hex)]

/-- C7, counterexample: the code has no cap on the size of a batch.  When a
call of `ListObject` is answered by a page of 1001 keys, `DeleteAllObject`
builds one body with the 1001 keys of the page and sends it in one
multi-delete request. -/
theorem C7_page_of_1001_keys_gives_one_body :
    (examplePage 0 1001 "false").Contents.length = 1001 ∧
      deleteAllObjectList [.ok (examplePage 0 1001 "false")] "" 0 [] []
        = ([""], .returned (some
            { bodyList := ["<Delete><Quiet>true</Quiet>"
                ++ String.join ((examplePage 0 1001 "false").Contents.map
                    (fun v => "<Object><Key>" ++ v.Key ++ "</Key></Object>"))
                ++ "</Delete>"]
              bodyListNum := [1001]
              total := 1001 })) ∧
      (DeleteAllObject (New "host" "id" "secret") [.ok (examplePage 0 1001 "false")]
          (fun _ _ => .ok [("StatusCode", "200")])).1
        = [Request.list "",
            Request.delete ("<Delete><Quiet>true</Quiet>"
              ++ String.join ((examplePage 0 1001 "false").Contents.map
                  (fun v => "<Object><Key>" ++ v.Key ++ "</Key></Object>"))
              ++ "</Delete>")] := by
  have hlen : (examplePage 0 1001 "false").Contents.length = 1001 := by simp [examplePage]
  have hnt : ¬ (examplePage 0 1001 "false").IsTruncated = "true" := by decide
  have hpos : ¬ ((0 : Int) + ((examplePage 0 1001 "false").Contents.length : Int) ≤ 0) := by
    rw [hlen]; decide
  have hlist : deleteAllObjectList [.ok (examplePage 0 1001 "false")] "" 0 [] []
      = ([""], .returned (some
          { bodyList := ["<Delete><Quiet>true</Quiet>"
              ++ String.join ((examplePage 0 1001 "false").Contents.map
                  (fun v => "<Object><Key>" ++ v.Key ++ "</Key></Object>"))
              ++ "</Delete>"]
            bodyListNum := [1001]
            total := 1001 })) := by
    rw [deleteAllObjectList_step _ _ _ _ _ _ hpos, if_neg hnt, deleteBody_eq, hlen]
    rfl
  refine ⟨hlen, hlist, ?_⟩
  unfold DeleteAllObject
  rw [hlist]
  have hbatch : ∀ num : Int, deleteBatch (New "host" "id" "secret")
      (fun _ => .ok [("StatusCode", "200")]) num
      = { calls := 1, exited := false, response := [("StatusCode", "200")], skip := 0,
          finish := num } := by
    intro num
    simp [deleteBatch, retryLoop, New, StrMap.get, List.lookup]
  simp [deleteItems, List.enum, List.enumFrom, hbatch]

/-- C7 (amended): when the listing of `DeleteAllObject` is answered by the
pages `ps`, all truncated but the last and the first not empty, the listing
phase makes one call per page and returns one body and one key count per page,
and only then are the multi-delete requests sent; body `i` is
`<Delete><Quiet>true</Quiet>`, then `<Object><Key>k</Key></Object>` for every
key `k` of page `i` in listing order, then `</Delete>`, and count `i` is the
number of keys of page `i`, whatever that number is; the counts add up to the
number of listed objects; every multi-delete request carries the body of one
of the pages; the run returns with that number as total when every batch is
answered by the transport at one of its attempts, and the process exits when
some batch is not. -/
theorem C7_delete_batches (c : Client) (ps : List ListObjectResult) (rest : List ListOutcome)
    (curl : Nat → Nat → Outcome) (hne : ps ≠ [])
    (htr : ∀ p ∈ ps.dropLast, p.IsTruncated = "true")
    (hlast : ∀ p ∈ ps.getLast?, p.IsTruncated ≠ "true")
    (hfirst : ∀ p ∈ ps.head?, p.Contents ≠ []) :
    deleteAllObjectList (ps.map Except.ok ++ rest) "" 0 [] []
        = (pageMarkers "" ps.dropLast,
            .returned (some
              { bodyList := ps.map (fun p =>
                  "<Delete><Quiet>true</Quiet>"
                    ++ String.join (p.Contents.map
                        (fun v => "<Object><Key>" ++ v.Key ++ "</Key></Object>"))
                    ++ "</Delete>")
                bodyListNum := ps.map (fun p => (p.Contents.length : Int))
                total := (ps.map (fun p => (p.Contents.length : Int))).sum })) ∧
      (ps.map (fun p => (p.Contents.length : Int))).sum
        = ((ps.flatMap (fun p => p.Contents)).length : Int) ∧
      (∃ sent : List Request,
        (DeleteAllObject c (ps.map Except.ok ++ rest) curl).1
          = (pageMarkers "" ps.dropLast).map Request.list ++ sent ∧
        ∀ q ∈ sent, ∃ p ∈ ps, q = Request.delete
          ("<Delete><Quiet>true</Quiet>"
            ++ String.join (p.Contents.map
                (fun v => "<Object><Key>" ++ v.Key ++ "</Key></Object>"))
            ++ "</Delete>")) ∧
      ((∀ n, n < ps.length → firstAnswer (curl n) c.maxRetryNum ≠ none) →
        (DeleteAllObject c (ps.map Except.ok ++ rest) curl).2
          = .returned
              { total := ((ps.flatMap (fun p => p.Contents)).length : Int)
                finish := ((List.range ps.length).map (fun n =>
                  batchFinish (curl n) c.maxRetryNum
                    ((ps.map (fun p => (p.Contents.length : Int))).getD n 0))).sum }) ∧
      ((∃ n, n < ps.length ∧ firstAnswer (curl n) c.maxRetryNum = none) →
        (DeleteAllObject c (ps.map Except.ok ++ rest) curl).2 = .exited) := by
  have hlist := deleteAllObjectList_eq rest ps "" 0 [] [] hne htr hlast (le_refl 0) (Or.inr hfirst)
  have hbody : ps.map (fun p => deleteBody p.Contents)
      = ps.map (fun p => "<Delete><Quiet>true</Quiet>"
          ++ String.join (p.Contents.map (fun v => "<Object><Key>" ++ v.Key ++ "</Key></Object>"))
          ++ "</Delete>") :=
    List.map_congr_left (fun p _ => deleteBody_eq p.Contents)
  simp only [List.nil_append, zero_add, hbody] at hlist
  obtain ⟨hret, hexit⟩ := deleteAllObject_result c ps rest curl hne htr hlast hfirst
  refine ⟨hlist, sum_page_lengths ps, ?_, ?_, hexit⟩
  · unfold DeleteAllObject
    rw [hlist]
    refine ⟨_, rfl, ?_⟩
    intro q hq
    simp only [List.mem_flatMap, List.mem_replicate] at hq
    obtain ⟨pr, hpr, _, rfl⟩ := hq
    have hb := (List.of_mem_zip hpr).1
    obtain ⟨p, hp, hpb⟩ := List.mem_map.1 hb
    exact ⟨p, hp, by rw [hpb]⟩
  · intro hans
    rw [hret hans, sum_page_lengths]

/-- C7, witness: a bucket of 2500 objects listed in pages of 1000, 1000 and 500
keys gives three bodies with 1000, 1000 and 500 keys, and when every batch is
answered with status 200 the run returns total 2500 and finish 2500. -/
theorem C7_delete_batches_witness :
    (∃ l : DeleteListing,
      (deleteAllObjectList
          ([examplePage 0 1000 "true", examplePage 1000 1000 "true",
            examplePage 2000 500 "false"].map Except.ok ++ []) "" 0 [] []).2
        = .returned (some l) ∧
      l.bodyListNum = [1000, 1000, 500] ∧ l.total = 2500) ∧
      (DeleteAllObject (New "host" "id" "secret")
          ([examplePage 0 1000 "true", examplePage 1000 1000 "true",
            examplePage 2000 500 "false"].map Except.ok ++ [])
          (fun _ _ => .ok [("StatusCode", "200")])).2
        = .returned { total := 2500, finish := 2500 } := by
  have h := C7_delete_batches (New "host" "id" "secret")
    [examplePage 0 1000 "true", examplePage 1000 1000 "true", examplePage 2000 500 "false"] []
    (fun _ _ => .ok [("StatusCode", "200")]) (by simp)
    (by simp [examplePage]) (by simp [examplePage]) (by simp [examplePage])
  obtain ⟨h1, _, _, h4, _⟩ := h
  have hlen : ∀ a n t, (examplePage a n t).Contents.length = n := by
    intro a n t; simp [examplePage]
  constructor
  · refine ⟨_, congrArg Prod.snd h1, ?_, ?_⟩
    · simp [hlen]
    · simp [hlen]
  · have hans : ∀ n, n < [examplePage 0 1000 "true", examplePage 1000 1000 "true",
        examplePage 2000 500 "false"].length →
        firstAnswer ((fun _ _ => .ok [("StatusCode", "200")] : Nat → Nat → Outcome) n)
          (New "host" "id" "secret").maxRetryNum ≠ none :=
      fun _ _ => (by decide : firstAnswer (fun _ => .ok [("StatusCode", "200")])
        (New "host" "id" "secret").maxRetryNum ≠ none)
    have hbf : ∀ num : Int, batchFinish (fun _ => .ok [("StatusCode", "200")])
        (New "host" "id" "secret").maxRetryNum num = num := by
      intro num
      simp [batchFinish, firstAnswer, New, List.range, List.range.loop, StrMap.get, List.lookup]
    rw [h4 hans]
    simp [hlen, hbf, List.range, List.range.loop]

/-- C8, counterexample: on a bucket of 2500 objects served in pages of 1000,
1000 and 500 keys the command `ls` with `maxkeys` 1000 makes one single call
of `ListObject` (with the empty marker), prints the 1000 keys of the first
page and returns, although that page has `IsTruncated` "true". -/
theorem C8_ls_stops_after_first_full_page :
    (examplePage 0 1000 "true").IsTruncated = "true" ∧
      (cliListObject (fun _ => 1000) "" "1000"
          [.ok (examplePage 0 1000 "true"), .ok (examplePage 1000 1000 "true"),
            .ok (examplePage 2000 500 "false")]).markers = [""] ∧
      (cliListObject (fun _ => 1000) "" "1000"
          [.ok (examplePage 0 1000 "true"), .ok (examplePage 1000 1000 "true"),
            .ok (examplePage 2000 500 "false")]).printed.length = 1000 ∧
      (cliListObject (fun _ => 1000) "" "1000"
          [.ok (examplePage 0 1000 "true"), .ok (examplePage 1000 1000 "true"),
            .ok (examplePage 2000 500 "false")]).result = .returned 1000 := by
  have hlen : (examplePage 0 1000 "true").Contents.length = 1000 := by simp [examplePage]
  have hrun : cliListObject (fun _ => 1000) "" "1000"
      [.ok (examplePage 0 1000 "true"), .ok (examplePage 1000 1000 "true"),
        .ok (examplePage 2000 500 "false")]
      = { markers := [""],
          printed := (examplePage 0 1000 "true").Contents.map (fun v => v.Key),
          result := .returned 1000 } := by
    simp [cliListObject, cliListObjectLoop, hlen]
  rw [hrun]
  exact ⟨rfl, rfl, by simp [hlen], rfl⟩

/-- C8 (amended): the loop of the command `ls` asks for a further page
exactly when the number of objects printed so far differs from `maxkeys` and
the page just received has `IsTruncated` "true", and it then uses as marker the
last key of that page (the marker it already had when the page is empty).  So
a page that brings the count to `maxkeys` ends the listing after that page,
truncated or not, and a page that is not truncated ends it as well. -/
theorem C8_ls_pagination (maxkeys : Int) (list : ListObjectResult) (pages : List ListOutcome)
    (marker : String) (total : Int) :
    (total + list.Contents.length = maxkeys ∨ list.IsTruncated ≠ "true" →
      cliListObjectLoop maxkeys (.ok list :: pages) marker total
        = { markers := [marker], printed := list.Contents.map (fun v => v.Key),
            result := .returned (total + list.Contents.length) }) ∧
      (total + list.Contents.length ≠ maxkeys ∧ list.IsTruncated = "true" →
        cliListObjectLoop maxkeys (.ok list :: pages) marker total
          = { markers := marker ::
                (cliListObjectLoop maxkeys pages
                  ((list.Contents.getLast?.map (fun v => v.Key)).getD marker)
                  (total + list.Contents.length)).markers
              printed := list.Contents.map (fun v => v.Key) ++
                (cliListObjectLoop maxkeys pages
                  ((list.Contents.getLast?.map (fun v => v.Key)).getD marker)
                  (total + list.Contents.length)).printed
              result :=
                (cliListObjectLoop maxkeys pages
                  ((list.Contents.getLast?.map (fun v => v.Key)).getD marker)
                  (total + list.Contents.length)).result }) := by
  constructor
  · intro h
    have hc : ¬ (maxkeys ≠ total + list.Contents.length ∧ list.IsTruncated = "true") := by
      rintro ⟨h1, h2⟩
      rcases h with h | h
      · exact h1 h.symm
      · exact h h2
    simp only [cliListObjectLoop, if_neg hc]
  · rintro ⟨h1, h2⟩
    have hc : maxkeys ≠ total + list.Contents.length ∧ list.IsTruncated = "true" :=
      ⟨fun h => h1 h.symm, h2⟩
    simp only [cliListObjectLoop, if_pos hc, lastKeyOr_eq]

/-- C8, witness: with `maxkeys` 5000 a page of 500 keys that is not truncated
ends the listing: one call with the marker at hand, its 500 keys printed. -/
theorem C8_ls_pagination_witness :
    (0 + ((examplePage 2000 500 "false").Contents.length : Int) = 5000 ∨
        (examplePage 2000 500 "false").IsTruncated ≠ "true") ∧
      cliListObjectLoop 5000 [.ok (examplePage 2000 500 "false")] "key1999" 0
        = { markers := ["key1999"],
            printed := (examplePage 2000 500 "false").Contents.map (fun v => v.Key),
            result := .returned (0 + ((examplePage 2000 500 "false").Contents.length : Int)) } :=
  ⟨Or.inr (by decide),
    (C8_ls_pagination 5000 (examplePage 2000 500 "false") [] "key1999" 0).1 (Or.inr (by decide))⟩

/-- The header loop of `sign` appends one line per name. -/
theorem foldl_sign_lines (headers : StrMap) (names : List String) :
    ∀ init : String,
      names.foldl (fun sign key =>
          if strContains key "x-oss-" then sign ++ (key ++ ":" ++ headers.get key ++ "\n")
          else sign ++ (headers.get key ++ "\n")) init
        = init ++ String.join (names.map (fun name =>
            if strContains name "x-oss-" then name ++ ":" ++ headers.get name ++ "\n"
            else headers.get name ++ "\n")) := by
  induction names with
  | nil => intro init; simp [String.join]
  | cons a l ih =>
    intro init
    rw [List.foldl_cons, ih, List.map_cons, join_cons]
    split_ifs <;> simp only [String.append_assoc]

/-- The sorted key list of `sign` is the one ascending arrangement of the
header names. -/
theorem sorted_names_unique (headers : StrMap) (names : List String)
    (hperm : names.Perm (headers.map Prod.fst)) (hsorted : names.Sorted strLe) :
    (headers.map Prod.fst).insertionSort strLe = names :=
  List.eq_of_perm_of_sorted
    ((List.perm_insertionSort strLe _).trans hperm.symm)
    (List.sorted_insertionSort strLe _) hsorted

/-- C9: for every method, header map, bucket and object, and for `names` the
header names in ascending order, `sign` returns `"OSS " + accessKeyId + ":" +
base64(hmac(c, accessKeySecret))` where `c` is the method and a line feed, then
for each name in that order the line `name:value` + line feed if the name
contains `x-oss-` and `value` + line feed otherwise, then `/bucket/object`;
when no name contains `x-oss-` the lines are the values alone. -/
theorem C9_sign_canonical (c : Client) (hmac : String → String → List Nat)
    (base64 : List Nat → String) (method : String) (headers : StrMap) (bucket object : String)
    (names : List String) (hperm : names.Perm (headers.map Prod.fst))
    (hsorted : names.Sorted strLe) :
    sign c hmac base64 method headers bucket object
        = "OSS " ++ c.accessKeyId ++ ":" ++ base64 (hmac
            (method ++ "\n"
              ++ String.join (names.map (fun name =>
                  if strContains name "x-oss-" then name ++ ":" ++ headers.get name ++ "\n"
                  else headers.get name ++ "\n"))
              ++ ("/" ++ bucket ++ "/" ++ object))
            c.accessKeySecret) ∧
      ((∀ name ∈ names, strContains name "x-oss-" = false) →
        sign c hmac base64 method headers bucket object
          = "OSS " ++ c.accessKeyId ++ ":" ++ base64 (hmac
              (method ++ "\n"
                ++ String.join (names.map (fun name => headers.get name ++ "\n"))
                ++ ("/" ++ bucket ++ "/" ++ object))
              c.accessKeySecret)) := by
  have h : sign c hmac base64 method headers bucket object
      = "OSS " ++ c.accessKeyId ++ ":" ++ base64 (hmac
          (method ++ "\n"
            ++ String.join (names.map (fun name =>
                if strContains name "x-oss-" then name ++ ":" ++ headers.get name ++ "\n"
                else headers.get name ++ "\n"))
            ++ ("/" ++ bucket ++ "/" ++ object))
          c.accessKeySecret) := by
    simp only [sign, sorted_names_unique headers names hperm hsorted, foldl_sign_lines]
  refine ⟨h, ?_⟩
  intro hnone
  have hmap : names.map (fun name =>
        if strContains name "x-oss-" then name ++ ":" ++ headers.get name ++ "\n"
        else headers.get name ++ "\n")
      = names.map (fun name => headers.get name ++ "\n") := by
    apply List.map_congr_left
    intro name hname
    rw [if_neg (by rw [hnone name hname]; decide)]
  rw [h, hmap]

/-- C9, witness: the token of a `PUT` with the headers `Date`,
`x-oss-copy-source` and `Content-Type`, enumerated in this order. -/
theorem C9_sign_canonical_witness :
    ["Content-Type", "Date", "x-oss-copy-source"].Perm
        (([("Date", "D"), ("x-oss-copy-source", "/b/o"), ("Content-Type", "T")] : StrMap).map
          Prod.fst) ∧
      ["Content-Type", "Date", "x-oss-copy-source"].Sorted strLe ∧
      sign (New "host" "id" "secret") exampleHmac exampleBase64 "PUT"
          [("Date", "D"), ("x-oss-copy-source", "/b/o"), ("Content-Type", "T")] "bucket" "key"
        = "OSS id:secret|PUT\nT\nD\nx-oss-copy-source:/b/o\n/bucket/key" :=
  ⟨by decide, by decide,
    (C9_sign_canonical (New "host" "id" "secret") exampleHmac exampleBase64 "PUT"
      [("Date", "D"), ("x-oss-copy-source", "/b/o"), ("Content-Type", "T")] "bucket" "key"
      ["Content-Type", "Date", "x-oss-copy-source"] (by decide) (by decide)).1.trans (by rfl)⟩

/-- In a map whose names are distinct, the value read under a name is the
value of the entry with that name. -/
theorem lookup_eq_some_iff (m : StrMap) (hnodup : (m.map Prod.fst).Nodup) (k v : String) :
    m.lookup k = some v ↔ (k, v) ∈ m := by
  induction m with
  | nil => simp
  | cons e m ih =>
    obtain ⟨k', v'⟩ := e
    simp only [List.map_cons, List.nodup_cons] at hnodup
    rw [List.lookup_cons]
    by_cases hk : k = k'
    · subst hk
      simp only [beq_self_eq_true, Option.some.injEq, List.mem_cons, Prod.mk.injEq, true_and]
      constructor
      · intro h; exact Or.inl h.symm
      · rintro (h | h)
        · exact h.symm
        · exact absurd (List.mem_map_of_mem Prod.fst h) hnodup.1
    · have hbeq : (k == k') = false := by simpa using hk
      simp only [hbeq, List.mem_cons, Prod.mk.injEq, hk, false_and, false_or]
      exact ih hnodup.2

/-- Two enumerations of the same map read the same value under every name. -/
theorem get_perm (m₁ m₂ : StrMap) (hperm : m₁.Perm m₂) (hnodup : (m₁.map Prod.fst).Nodup)
    (k : String) : m₁.get k = m₂.get k := by
  have hnodup₂ : (m₂.map Prod.fst).Nodup := (hperm.map Prod.fst).nodup_iff.1 hnodup
  have h : m₁.lookup k = m₂.lookup k := by
    cases h₁ : m₁.lookup k with
    | some v =>
      have := (lookup_eq_some_iff m₁ hnodup k v).1 h₁
      exact ((lookup_eq_some_iff m₂ hnodup₂ k v).2 (hperm.mem_iff.1 this)).symm
    | none =>
      cases h₂ : m₂.lookup k with
      | none => rfl
      | some v =>
        have := (lookup_eq_some_iff m₂ hnodup₂ k v).1 h₂
        rw [(lookup_eq_some_iff m₁ hnodup k v).2 (hperm.mem_iff.2 this)] at h₁
        cases h₁
  unfold StrMap.get
  rw [h]

/-- C10: `sign` is a function of the method, the header map, the bucket, the
object (with its sub-resource), the access id and the secret, and its token
does not depend on the order in which the entries of the header map are
enumerated: two enumerations of the same entries with distinct names give the
same token. -/
theorem C10_sign_enumeration_independent (c : Client) (hmac : String → String → List Nat)
    (base64 : List Nat → String) (method : String) (headers₁ headers₂ : StrMap)
    (bucket object : String) (hperm : headers₁.Perm headers₂)
    (hnodup : (headers₁.map Prod.fst).Nodup) :
    sign c hmac base64 method headers₁ bucket object
      = sign c hmac base64 method headers₂ bucket object := by
  have hkeys : (headers₁.map Prod.fst).insertionSort strLe
      = (headers₂.map Prod.fst).insertionSort strLe :=
    List.eq_of_perm_of_sorted
      (((List.perm_insertionSort strLe _).trans (hperm.map Prod.fst)).trans
        (List.perm_insertionSort strLe _).symm)
      (List.sorted_insertionSort strLe _) (List.sorted_insertionSort strLe _)
  have hget : ∀ k, headers₁.get k = headers₂.get k := get_perm headers₁ headers₂ hperm hnodup
  simp only [sign, hkeys, hget]

/-- C10, witness: the headers of a part copy enumerated in two orders. -/
theorem C10_sign_enumeration_independent_witness :
    ([("Date", "D"), ("x-oss-copy-source", "/b/o"), ("x-oss-copy-source-range", "bytes=0-9")]
        : StrMap).Perm
        [("x-oss-copy-source-range", "bytes=0-9"), ("Date", "D"), ("x-oss-copy-source", "/b/o")] ∧
      (([("Date", "D"), ("x-oss-copy-source", "/b/o"),
          ("x-oss-copy-source-range", "bytes=0-9")] : StrMap).map Prod.fst).Nodup ∧
      sign (New "host" "id" "secret") exampleHmac exampleBase64 "PUT\n\n"
          [("Date", "D"), ("x-oss-copy-source", "/b/o"), ("x-oss-copy-source-range", "bytes=0-9")]
          "bucket" "key"
        = sign (New "host" "id" "secret") exampleHmac exampleBase64 "PUT\n\n"
          [("x-oss-copy-source-range", "bytes=0-9"), ("Date", "D"), ("x-oss-copy-source", "/b/o")]
          "bucket" "key" :=
  ⟨by decide, by decide,
    C10_sign_enumeration_independent (New "host" "id" "secret") exampleHmac exampleBase64
      "PUT\n\n"
      [("Date", "D"), ("x-oss-copy-source", "/b/o"), ("x-oss-copy-source-range", "bytes=0-9")]
      [("x-oss-copy-source-range", "bytes=0-9"), ("Date", "D"), ("x-oss-copy-source", "/b/o")]
      "bucket" "key" (by decide) (by decide)⟩

/-- From part `k` on, with enough fuel, the loop of `CopyLargeFile` hands out
the indices `k, k+1, .., k+d-1`, where `k + d` is the part count. -/
theorem copyPartLoop_from (total : Int) :
    ∀ (d k fuel : Nat), ((k + d : Nat) : Int) = total → d < fuel →
      copyPartLoop total fuel k = some ((List.range' k d).map (fun i : Nat => (i : Int))) := by
  intro d
  induction d with
  | zero =>
    intro k fuel hk hf
    obtain ⟨f, rfl⟩ : ∃ f, fuel = f + 1 := ⟨fuel - 1, by omega⟩
    simp only [copyPartLoop, List.range'_zero, List.map_nil]
    rw [if_pos (by simp at hk; omega)]
  | succ d ih =>
    intro k fuel hk hf
    obtain ⟨f, rfl⟩ : ∃ f, fuel = f + 1 := ⟨fuel - 1, by omega⟩
    have hnext := ih (k + 1) f (by rw [← hk]; push_cast; ring) (by omega)
    simp only [copyPartLoop]
    rw [if_neg (by push_cast at hk; omega)]
    have hcast : ((k : Int) + 1) = ((k + 1 : Nat) : Int) := by push_cast; rfl
    rw [hcast, hnext]
    simp [List.range'_succ]

/-- C20: for an object of `S ≥ 0` bytes and a part size `P ≥ 1`, with
`total = (S + P - 1) / P` (the number with `S ≤ total * P < S + P`, that is
`ceil(S/P)`), the part array of `UploadLargeFile` and `CopyLargeFile` has
exactly `total` slots, and both part loops return (with fuel above `total`)
having handed to the workers exactly the indices `0, 1, .., total - 1`, each
once; so every index is a slot of the array and no two tasks have the same
index. -/
theorem C20_part_indices (S P : Int) (hS : 0 ≤ S) (hP : 1 ≤ P) (fuel : Nat)
    (hfuel : (partTotal S P).toNat < fuel) :
    S ≤ partTotal S P * P ∧ partTotal S P * P < S + P ∧
      ((makePartList (partTotal S P)).length : Int) = partTotal S P ∧
      (uploadPartLoop S P fuel 0).map (fun tasks => tasks.map PartTask.partNum)
        = some ((List.range (partTotal S P).toNat).map (fun i : Nat => (i : Int))) ∧
      copyPartLoop (partTotal S P) fuel 0
        = some ((List.range (partTotal S P).toNat).map (fun i : Nat => (i : Int))) ∧
      ((List.range (partTotal S P).toNat).map (fun i : Nat => (i : Int))).Nodup ∧
      (∀ i ∈ (List.range (partTotal S P).toNat).map (fun i : Nat => (i : Int)),
        0 ≤ i ∧ i < ((makePartList (partTotal S P)).length : Int)) := by
  have hn := partTotal_nonneg S P hS hP
  have hcast : (((partTotal S P).toNat : Nat) : Int) = partTotal S P := Int.toNat_of_nonneg hn
  have hlen : ((makePartList (partTotal S P)).length : Int) = partTotal S P := by
    simp [makePartList, hcast]
  have hup : ¬ ((((partTotal S P).toNat : Nat) : Int) * P < S) := by
    rw [← lt_partTotal_iff S P hS hP]
    omega
  rw [hcast] at hup
  refine ⟨by omega, ?_, hlen, ?_, ?_, ?_, ?_⟩
  · by_cases h0 : partTotal S P = 0
    · rw [h0] at hup ⊢
      omega
    · have h := (lt_partTotal_iff S P hS hP ((partTotal S P).toNat - 1)).1 (by omega)
      have e : (((partTotal S P).toNat - 1 : Nat) : Int) = partTotal S P - 1 := by omega
      rw [e] at h
      have e2 : (partTotal S P - 1) * P = partTotal S P * P - P := by ring
      omega
  · have h := uploadPartLoop_from S P hS hP (partTotal S P).toNat 0 fuel
      (by rw [Nat.zero_add]; exact hcast) hfuel
    simp only [Nat.cast_zero] at h
    rw [h, List.range_eq_range']
    simp [plannedPart, Function.comp]
  · have h := copyPartLoop_from (partTotal S P) (partTotal S P).toNat 0 fuel
      (by rw [Nat.zero_add]; exact hcast) hfuel
    rw [List.range_eq_range']
    simpa using h
  · exact (List.nodup_range _).map (fun a b h => by simpa using h)
  · intro i hi
    obtain ⟨k, hk, rfl⟩ := List.mem_map.1 hi
    have := List.mem_range.1 hk
    rw [hlen]
    omega

/-- C20, witness: an object of 25 MiB with parts of 10 MiB has an array of
three slots and the indices 0, 1, 2; an empty object has no slot and no index. -/
theorem C20_part_indices_witness :
    (0 : Int) ≤ 26214400 ∧ (1 : Int) ≤ 10485760 ∧ (partTotal 26214400 10485760).toNat < 4 ∧
      (makePartList (partTotal 26214400 10485760)).length = 3 ∧
      copyPartLoop (partTotal 26214400 10485760) 4 0 = some [0, 1, 2] ∧
      copyPartLoop (partTotal 0 10485760) 4 0 = some [] :=
  ⟨by decide, by decide, by decide, by decide,
    (C20_part_indices 26214400 10485760 (by decide) (by decide) 4 (by decide)).2.2.2.2.1.trans
      (by decide),
    by decide⟩

/-- The part size left by the option `partsize`. -/
theorem partsizeOption_partMaxSize (c : Client) (atoi : String → Option Int) (options : StrMap) :
    (partsizeOption c atoi options).partMaxSize
      = if options.get "partsize" = "" then c.partMaxSize
        else match atoi (options.get "partsize") with
          | some p => if c.partMinSize ≤ p ∧ p ≤ c.partMaxSize then p else c.partMaxSize
          | none => c.partMaxSize := by
  unfold partsizeOption
  by_cases h : options.get "partsize" = ""
  · simp [h]
  · simp only [ne_eq, h, not_false_eq_true, if_true, if_false]
    cases atoi (options.get "partsize") with
    | none => rfl
    | some p =>
      simp only
      by_cases hp : p ≤ c.partMaxSize ∧ p ≥ c.partMinSize
      · rw [if_pos hp, if_pos ⟨hp.2, hp.1⟩]
      · rw [if_neg hp, if_neg (fun h' => hp ⟨h'.2, h'.1⟩)]

/-- The options `thread_num` and the narrowing to the number of work items
leave the part size untouched. -/
theorem threadNumOption_partMaxSize (c : Client) (atoi : String → Option Int) (options : StrMap)
    (total : Int) :
    (threadNumOption c atoi options).partMaxSize = c.partMaxSize ∧
      (threadsForTotal c total).partMaxSize = c.partMaxSize := by
  constructor
  · unfold threadNumOption
    split_ifs
    · cases atoi (options.get "thread_num") with
      | none => rfl
      | some t => simp only; split_ifs <;> rfl
    · rfl
  · unfold threadsForTotal
    split_ifs <;> rfl

/-- C12, counterexample: on a freshly constructed client the option
`partsize` "1024", which is below `partMinSize` (1 MiB), leaves the part size
of `UploadLargeFile` and `CopyLargeFile` at 100 MiB; clamped into
[1 MiB, 100 MiB] it would be 1 MiB. -/
theorem C12_partsize_below_min_is_ignored :
    exampleAtoi "1024" = some 1024 ∧
      (uploadLargeFileSetup (New "host" "id" "secret") exampleAtoi [("partsize", "1024")]
        26214400).partMaxSize = 104857600 ∧
      (copyLargeFileSetup (New "host" "id" "secret") exampleAtoi [("partsize", "1024")]
        26214400).partMaxSize = 104857600 ∧
      clamp 1024 (New "host" "id" "secret").partMinSize (New "host" "id" "secret").partMaxSize
        = 1048576 := by
  decide

/-- C12 (amended): for every `partsize` option that parses as an integer
`p`, the part size with which `UploadLargeFile` and `CopyLargeFile` plan the
parts is `p` when `partMinSize ≤ p ≤ partMaxSize` and stays `partMaxSize`
otherwise (below the interval as well as above it); it is `p` clamped into
the interval whenever `p` is not below `partMinSize`; without the option the
part size is `partMaxSize`.  On a freshly constructed client the interval is
1 MiB .. 100 MiB. -/
theorem C12_partsize_rule (c : Client) (atoi : String → Option Int) (options : StrMap)
    (size p : Int) (hopt : options.get "partsize" ≠ "")
    (hparse : atoi (options.get "partsize") = some p) :
    (uploadLargeFileSetup c atoi options size).partMaxSize
        = (if c.partMinSize ≤ p ∧ p ≤ c.partMaxSize then p else c.partMaxSize) ∧
      (copyLargeFileSetup c atoi options size).partMaxSize
        = (if c.partMinSize ≤ p ∧ p ≤ c.partMaxSize then p else c.partMaxSize) ∧
      (c.partMinSize ≤ p → c.partMinSize ≤ c.partMaxSize →
        (uploadLargeFileSetup c atoi options size).partMaxSize
          = clamp p c.partMinSize c.partMaxSize) ∧
      (∀ options' : StrMap, options'.get "partsize" = "" →
        (uploadLargeFileSetup c atoi options' size).partMaxSize = c.partMaxSize ∧
        (copyLargeFileSetup c atoi options' size).partMaxSize = c.partMaxSize) ∧
      (New "host" "id" "secret").partMinSize = 1 * 1024 * 1024 ∧
      (New "host" "id" "secret").partMaxSize = 100 * 1024 * 1024 := by
  have hset : ∀ o : StrMap, (uploadLargeFileSetup c atoi o size).partMaxSize
      = (partsizeOption c atoi o).partMaxSize ∧
      (copyLargeFileSetup c atoi o size).partMaxSize = (partsizeOption c atoi o).partMaxSize := by
    intro o
    simp only [uploadLargeFileSetup, copyLargeFileSetup]
    rw [(threadNumOption_partMaxSize _ atoi o _).2, (threadNumOption_partMaxSize _ atoi o 0).1]
    exact ⟨rfl, rfl⟩
  have hp := partsizeOption_partMaxSize c atoi options
  rw [if_neg hopt, hparse] at hp
  simp only at hp
  refine ⟨by rw [(hset options).1, hp], by rw [(hset options).2, hp], ?_, ?_, rfl, rfl⟩
  · intro h1 h2
    rw [(hset options).1, hp]
    unfold clamp
    split_ifs <;> omega
  · intro o ho
    have := partsizeOption_partMaxSize c atoi o
    rw [if_pos ho] at this
    rw [(hset o).1, (hset o).2, this]
    exact ⟨rfl, rfl⟩

/-- C12, witness: on a freshly constructed client the option `partsize`
"10485760" gives parts of 10 MiB. -/
theorem C12_partsize_rule_witness :
    StrMap.get [("partsize", "10485760")] "partsize" ≠ "" ∧
      exampleAtoi (StrMap.get [("partsize", "10485760")] "partsize") = some 10485760 ∧
      (uploadLargeFileSetup (New "host" "id" "secret") exampleAtoi [("partsize", "10485760")]
        26214400).partMaxSize = 10485760 :=
  ⟨by decide, by decide,
    (C12_partsize_rule (New "host" "id" "secret") exampleAtoi [("partsize", "10485760")]
      26214400 10485760 (by decide) (by decide)).1.trans (by decide)⟩

/-- The thread count left by the option `thread_num`. -/
theorem threadNumOption_threadMaxNum (c : Client) (atoi : String → Option Int)
    (options : StrMap) :
    (threadNumOption c atoi options).threadMaxNum
      = if options.get "thread_num" = "" then c.threadMaxNum
        else match atoi (options.get "thread_num") with
          | some t => if c.threadMinNum ≤ t ∧ t ≤ c.threadMaxNum then t else c.threadMaxNum
          | none => c.threadMaxNum := by
  unfold threadNumOption
  by_cases h : options.get "thread_num" = ""
  · simp [h]
  · simp only [ne_eq, h, not_false_eq_true, if_true, if_false]
    cases atoi (options.get "thread_num") with
    | none => rfl
    | some t =>
      simp only
      by_cases ht : t ≤ c.threadMaxNum ∧ t ≥ c.threadMinNum
      · rw [if_pos ht, if_pos ⟨ht.2, ht.1⟩]
      · rw [if_neg ht, if_neg (fun h' => ht ⟨h'.2, h'.1⟩)]

/-- The option `partsize` leaves the thread bounds untouched, and the option
`thread_num` leaves `threadMinNum` untouched. -/
theorem partsizeOption_threads (c : Client) (atoi : String → Option Int) (options : StrMap) :
    (partsizeOption c atoi options).threadMaxNum = c.threadMaxNum ∧
      (partsizeOption c atoi options).threadMinNum = c.threadMinNum := by
  unfold partsizeOption
  split_ifs
  · cases atoi (options.get "partsize") with
    | none => exact ⟨rfl, rfl⟩
    | some p => simp only; split_ifs <;> exact ⟨rfl, rfl⟩
  · exact ⟨rfl, rfl⟩

/-- The capacity left by the narrowing to the number of work items. -/
theorem threadsForTotal_threadMaxNum (c : Client) (total : Int) :
    (threadsForTotal c total).threadMaxNum = min total c.threadMaxNum := by
  unfold threadsForTotal
  simp only [min_def]
  split_ifs <;> first | rfl | omega

/-- C13, counterexample: on a freshly constructed client the option
`thread_num` "2", which is below `threadMinNum` (5), is ignored: with 50 work
items the channel `queueMaxSize` of `UploadFromDir` and of `DeleteAllObject`
gets the capacity 50, whereas 2 clamped into [min(5, 50), min(100, 50)] is 5. -/
theorem C13_thread_num_below_min_is_ignored :
    exampleAtoi "2" = some 2 ∧
      (uploadFromDirSetup (New "host" "id" "secret") exampleAtoi [("thread_num", "2")]
        50).threadMaxNum = 50 ∧
      (deleteAllObjectSetup (New "host" "id" "secret") exampleAtoi [("thread_num", "2")]
        50).threadMaxNum = 50 ∧
      clamp 2 (min (New "host" "id" "secret").threadMinNum 50)
        (min (New "host" "id" "secret").threadMaxNum 50) = 5 := by
  decide

/-- C13 (amended): for every `thread_num` option that parses as an integer
`t` and every number `n` of work items, the capacity of the channel
`queueMaxSize` in `UploadLargeFile`, `CopyLargeFile`, `UploadFromDir` and
`DeleteAllObject` is `min n t` when `threadMinNum ≤ t ≤ threadMaxNum` and
`min n threadMaxNum` otherwise (a value outside the interval is ignored); it
is `t` clamped into `[min threadMinNum n, min threadMaxNum n]` whenever `t` is
not below `threadMinNum`.  On a freshly constructed client `threadMinNum` is 5
and `threadMaxNum` is 100. -/
theorem C13_capacity_rule (c : Client) (atoi : String → Option Int) (options : StrMap)
    (size n t : Int) (hopt : options.get "thread_num" ≠ "")
    (hparse : atoi (options.get "thread_num") = some t) :
    (uploadLargeFileSetup c atoi options size).threadMaxNum
        = min (partTotal size (uploadLargeFileSetup c atoi options size).partMaxSize)
            (if c.threadMinNum ≤ t ∧ t ≤ c.threadMaxNum then t else c.threadMaxNum) ∧
      (copyLargeFileSetup c atoi options size).threadMaxNum
        = min (partTotal size (copyLargeFileSetup c atoi options size).partMaxSize)
            (if c.threadMinNum ≤ t ∧ t ≤ c.threadMaxNum then t else c.threadMaxNum) ∧
      (uploadFromDirSetup c atoi options n).threadMaxNum
        = min n (if c.threadMinNum ≤ t ∧ t ≤ c.threadMaxNum then t else c.threadMaxNum) ∧
      (deleteAllObjectSetup c atoi options n).threadMaxNum
        = min n (if c.threadMinNum ≤ t ∧ t ≤ c.threadMaxNum then t else c.threadMaxNum) ∧
      (c.threadMinNum ≤ t → c.threadMinNum ≤ c.threadMaxNum →
        min n (if c.threadMinNum ≤ t ∧ t ≤ c.threadMaxNum then t else c.threadMaxNum)
          = clamp t (min c.threadMinNum n) (min c.threadMaxNum n)) ∧
      (New "host" "id" "secret").threadMinNum = 5 ∧
      (New "host" "id" "secret").threadMaxNum = 100 := by
  have ht : ∀ c' : Client, c'.threadMaxNum = c.threadMaxNum → c'.threadMinNum = c.threadMinNum →
      (threadNumOption c' atoi options).threadMaxNum
        = (if c.threadMinNum ≤ t ∧ t ≤ c.threadMaxNum then t else c.threadMaxNum) := by
    intro c' h1 h2
    have h := threadNumOption_threadMaxNum c' atoi options
    rw [if_neg hopt, hparse] at h
    simp only at h
    rw [h, h1, h2]
  have hps := partsizeOption_threads c atoi options
  refine ⟨?_, ?_, ?_, ?_, ?_, rfl, rfl⟩
  · simp only [uploadLargeFileSetup]
    rw [threadsForTotal_threadMaxNum, ht _ hps.1 hps.2,
      (threadNumOption_partMaxSize _ atoi options _).2]
  · simp only [copyLargeFileSetup]
    rw [threadsForTotal_threadMaxNum, ht _ hps.1 hps.2,
      (threadNumOption_partMaxSize _ atoi options _).2]
  · simp only [uploadFromDirSetup]
    rw [threadsForTotal_threadMaxNum, ht c rfl rfl]
  · simp only [deleteAllObjectSetup]
    rw [threadsForTotal_threadMaxNum, ht c rfl rfl]
  · intro h1 h2
    simp only [clamp, min_def]
    split_ifs <;> omega

/-- C13, witness: on a freshly constructed client the option `thread_num`
"10" gives the capacity 10 for 50 work items and the capacity 3 for 3. -/
theorem C13_capacity_rule_witness :
    StrMap.get [("thread_num", "10")] "thread_num" ≠ "" ∧
      exampleAtoi (StrMap.get [("thread_num", "10")] "thread_num") = some 10 ∧
      (uploadFromDirSetup (New "host" "id" "secret") exampleAtoi [("thread_num", "10")]
        50).threadMaxNum = 10 ∧
      (uploadFromDirSetup (New "host" "id" "secret") exampleAtoi [("thread_num", "10")]
        3).threadMaxNum = 3 :=
  ⟨by decide, by decide,
    (C13_capacity_rule (New "host" "id" "secret") exampleAtoi [("thread_num", "10")]
      0 50 10 (by decide) (by decide)).2.2.1.trans (by decide),
    by decide⟩

/-- What `Put` returns: the error of the transport, the result map on the
status "200", and on every other status the `nil` map with no error. -/
theorem Put_outcome (c : Client) (bucket object : String) :
    (∀ err : String, Put c (.error err) bucket object = .error err) ∧
      (∀ res : StrMap, res.get "StatusCode" = "200" →
        ∃ m : StrMap, Put c (.ok res) bucket object = .ok m ∧ m.get "StatusCode" = "200" ∧
          m.get "Key" = object ∧ m.get "Bucket" = bucket) ∧
      (∀ res : StrMap, res.get "StatusCode" ≠ "200" →
        Put c (.ok res) bucket object = .ok []) := by
  refine ⟨fun _ => rfl, ?_, ?_⟩
  · intro res h
    have hp : Put c (.ok res) bucket object = .ok
        [("X-Oss-Request-Id", res.get "X-Oss-Request-Id"),
         ("StatusCode", res.get "StatusCode"),
         ("Location", "http://" ++ bucket ++ c.host ++ "/" ++ object),
         ("Bucket", bucket),
         ("ETag", res.get "Etag"),
         ("Key", object)] := by
      simp only [Put, h, ne_eq, not_true_eq_false, if_false]
    refine ⟨_, hp, ?_, ?_, ?_⟩
    · rw [← h]
      simp [StrMap.get, List.lookup]
    · simp [StrMap.get, List.lookup]
    · simp [StrMap.get, List.lookup]
  · intro res h
    simp only [Put, ne_eq, h, not_false_eq_true, if_true]

/-- C14: when the service answers a `PUT` with the status 403, `Put` returns
the `nil` map together with no error, and so does `UploadFile`; neither
returns an error for the failed request. -/
theorem C14_put_non200_returns_no_error :
    Put (New "host" "id" "secret") (.ok [("StatusCode", "403"), ("Body", "AccessDenied")])
        "bucket" "a.txt" = .ok [] ∧
      isError (Put (New "host" "id" "secret")
        (.ok [("StatusCode", "403"), ("Body", "AccessDenied")]) "bucket" "a.txt") = false ∧
      UploadFile (New "host" "id" "secret") (fun _ => ".") true
        (.ok [("StatusCode", "403"), ("Body", "AccessDenied")]) "a.txt" "bucket" "a.txt"
        = some (.ok []) :=
  ⟨by rfl, by rfl, by rfl⟩

/-- Reading a key after an assignment. -/
theorem StrMap.get_set (m : StrMap) (k v k' : String) :
    (m.set k v).get k' = if k' = k then v else m.get k' := by
  unfold StrMap.set StrMap.get
  by_cases h : k' = k
  · subst h
    simp [List.lookup]
  · rw [if_neg h]
    have hb : (k' == k) = false := by simpa using h
    simp only [List.lookup, hb]
    congr 1
    induction m with
    | nil => rfl
    | cons e m ih =>
      obtain ⟨a, b⟩ := e
      by_cases ha : a = k
      · subst ha
        have hb' : (k' == a) = false := by simpa using h
        simp [List.filter, List.lookup, hb', ih]
      · have hne : (a != k) = true := by simpa using ha
        simp only [List.filter, hne, List.lookup]
        cases hk : (k' == a) with
        | true => rfl
        | false => exact ih

/-- The status text of the result map of `curl2Reader` is the decimal status
code, when no header of the response is called `StatusCode`. -/
theorem curlResult_status (statusCode : Int) (body : String) (header : StrMap)
    (hkey : ∀ e ∈ header, e.1 ≠ "StatusCode") :
    (curlResult statusCode body header).get "StatusCode" = toString statusCode := by
  have h : ∀ (header : StrMap) (m : StrMap), (∀ e ∈ header, e.1 ≠ "StatusCode") →
      (header.foldl (fun result e => result.set e.1 e.2) m).get "StatusCode"
        = m.get "StatusCode" := by
    intro header
    induction header with
    | nil => intro m _; rfl
    | cons e header ih =>
      intro m hk
      rw [List.foldl_cons, ih _ (fun e' he' => hk e' (List.mem_cons_of_mem _ he')),
        StrMap.get_set, if_neg (fun h => hk e (List.mem_cons_self _ _) h.symm)]
  unfold curlResult
  rw [h header _ hkey]
  simp [StrMap.get, List.lookup]

/-- C15: `completeUpload` hands on the error of the transport; on an answer
whose status is not "200" it returns no result map and the error
`StatusCode:` followed by the status text, which is the decimal status code
written by `curl2Reader`; it returns a result map only when the status is
"200" and the body parses, and the map then holds `Location`, `Bucket`, `Key`
and `ETag` of the parsed answer; the request it sends has the header
`Content-Md5` equal to `base64(md5(body))`. -/
theorem C15_completeUpload_outcome (c : Client) (hmac : String → String → List Nat)
    (base64 : List Nat → String) (md5Byte : String → List Nat)
    (unmarshal : String → Except String CompleteUploadResult)
    (contentType date body bucket object uploadId : String) :
    (∀ err : String, completeUpload unmarshal (.error err) = .error err) ∧
      (∀ res : StrMap, res.get "StatusCode" ≠ "200" →
        completeUpload unmarshal (.ok res) = .error ("StatusCode:" ++ res.get "StatusCode")) ∧
      (∀ (statusCode : Int) (text : String) (header : StrMap),
        (∀ e ∈ header, e.1 ≠ "StatusCode") →
        (curlResult statusCode text header).get "StatusCode" = toString statusCode) ∧
      (∀ (curl : Outcome) (m : StrMap), completeUpload unmarshal curl = .ok m →
        ∃ (res : StrMap) (r : CompleteUploadResult), curl = .ok res ∧
          res.get "StatusCode" = "200" ∧ unmarshal (res.get "Body") = .ok r ∧
          m = [("Location", r.Location), ("Bucket", r.Bucket), ("Key", r.Key),
               ("ETag", r.ETag)]) ∧
      (∀ (res : StrMap) (r : CompleteUploadResult), res.get "StatusCode" = "200" →
        unmarshal (res.get "Body") = .ok r →
        completeUpload unmarshal (.ok res)
          = .ok [("Location", r.Location), ("Bucket", r.Bucket), ("Key", r.Key),
                 ("ETag", r.ETag)]) ∧
      (completeUploadRequest c hmac base64 md5Byte contentType date body bucket object
          uploadId).headers.get "Content-Md5" = base64 (md5Byte body) ∧
      (completeUploadRequest c hmac base64 md5Byte contentType date body bucket object
          uploadId).body = body := by
  refine ⟨fun _ => rfl, ?_, fun s t h hk => curlResult_status s t h hk, ?_, ?_, ?_, rfl⟩
  · intro res h
    simp only [completeUpload, ne_eq, h, not_false_eq_true, if_true]
  · intro curl m h
    cases curl with
    | error e => simp [completeUpload] at h
    | ok res =>
      simp only [completeUpload] at h
      split at h
      · cases h
      · rename_i hs
        have hs' : res.get "StatusCode" = "200" := by
          by_contra hc; exact hs hc
        cases hu : unmarshal (res.get "Body") with
        | error e => rw [hu] at h; cases h
        | ok r =>
          rw [hu] at h
          simp only [Except.ok.injEq] at h
          exact ⟨res, r, rfl, hs', hu, h.symm⟩
  · intro res r hs hu
    simp only [completeUpload, hs, ne_eq, not_true_eq_false, if_false, hu]
  · simp only [completeUploadRequest, StrMap.get_set]
    rw [if_neg (by decide), if_neg (by decide)]
    simp [StrMap.get, List.lookup]

/-- C15, witness: on the answer with status code 403 built by `curl2Reader`
the function returns the error `StatusCode:403`. -/
theorem C15_completeUpload_outcome_witness :
    (curlResult 403 "AccessDenied" [("Content-Type", "application/xml")]).get "StatusCode"
        ≠ "200" ∧
      completeUpload (fun _ => .error "EOF")
          (.ok (curlResult 403 "AccessDenied" [("Content-Type", "application/xml")]))
        = .error "StatusCode:403" :=
  ⟨by decide,
    ((C15_completeUpload_outcome (New "host" "id" "secret") exampleHmac exampleBase64
      (fun _ => []) (fun _ => .error "EOF") "" "" "" "bucket" "key" "id").2.1
      (curlResult 403 "AccessDenied" [("Content-Type", "application/xml")]) (by decide)).trans
      (by rfl)⟩

/-- A text occurs at the beginning of itself followed by anything. -/
theorem isPrefixOf_append_self (old rest : List Char) : old.isPrefixOf (old ++ rest) = true := by
  induction old with
  | nil => simp
  | cons a old ih => simp [List.isPrefixOf, ih]

/-- Replacing the first occurrence of a text that stands at the beginning. -/
theorem replaceFirst_append (old rest new : List Char) :
    replaceFirst (old ++ rest) old new = new ++ rest := by
  cases h : old ++ rest with
  | nil =>
    obtain ⟨h1, h2⟩ := List.append_eq_nil.1 h
    subst h1 h2
    simp [replaceFirst]
  | cons ch tl =>
    simp only [replaceFirst]
    rw [← h, isPrefixOf_append_self, if_pos rfl, List.drop_left]

/-- The text before the first slash of `b/k` is `b`, when `b` has no slash. -/
theorem takeWhile_not_slash (b rest : List Char) (hb : ∀ ch ∈ b, ch ≠ '/') :
    (b ++ rest).takeWhile (· != '/') = b ++ rest.takeWhile (· != '/') := by
  induction b with
  | nil => rfl
  | cons a b ih =>
    have ha : (a != '/') = true := by simpa using hb a (List.mem_cons_self _ _)
    simp only [List.cons_append, List.takeWhile_cons, ha, if_true]
    rw [ih (fun ch hch => hb ch (List.mem_cons_of_mem _ hch))]

/-- C16: for every bucket name `b` without `/` and every key `k`,
`parse_bucket_object` applied to `oss://b/k` returns the bucket `b` and the key
`k` without its leading slashes; a key that does not start with `/` is returned
unchanged, the returned key never starts with `/`, and `oss://b` gives the
bucket `b` and the empty key. -/
theorem C16_parse_bucket_object (b k : String) (hb : ∀ ch ∈ b.data, ch ≠ '/') :
    parse_bucket_object ("oss://" ++ b ++ "/" ++ k) = some (b, trimLeftSlash k) ∧
      (k.data.head? ≠ some '/' → trimLeftSlash k = k) ∧
      (trimLeftSlash k).data.head? ≠ some '/' ∧
      parse_bucket_object ("oss://" ++ b) = some (b, "") := by
  have hpath : ∀ rest : String,
      strReplaceFirst ("oss://" ++ b ++ rest) "oss://" "" = b ++ rest := by
    intro rest
    apply String.ext
    simp only [strReplaceFirst, String.data_append, List.append_assoc]
    rw [replaceFirst_append]
    rfl
  have hbucket0 : beforeFirstSlash b = b := by
    apply String.ext
    have := takeWhile_not_slash b.data [] hb
    simpa [beforeFirstSlash] using this
  have hbucket : beforeFirstSlash (b ++ ("/" ++ k)) = b := by
    apply String.ext
    have := takeWhile_not_slash b.data ('/' :: k.data) hb
    have hs : ("/" : String).data = ['/'] := rfl
    simp only [beforeFirstSlash, String.data_append, hs, List.singleton_append]
    rw [this]
    simp
  have hobject : strReplaceFirst (b ++ ("/" ++ k)) b "" = "/" ++ k := by
    apply String.ext
    simp only [strReplaceFirst, String.data_append]
    rw [replaceFirst_append]
    rfl
  have hobject0 : strReplaceFirst b b "" = "" := by
    apply String.ext
    have := replaceFirst_append b.data [] []
    simp only [List.append_nil] at this
    simp only [strReplaceFirst]
    exact this
  have hslash : ("/" ++ k : String).data = '/' :: k.data := by
    simp only [String.data_append]
    rfl
  refine ⟨?_, ?_, ?_, ?_⟩
  · have h1 : ("oss://" ++ b ++ "/" ++ k : String) = "oss://" ++ b ++ ("/" ++ k) := by
      simp only [String.append_assoc]
    have hcontains : strContains ("/" ++ k) "/" = true := by
      simp only [strContains, hslash, decide_eq_true_eq]
      exact ⟨[], k.data, rfl⟩
    have htrim : trimLeftSlash ("/" ++ k) = trimLeftSlash k := by
      apply String.ext
      simp [trimLeftSlash, hslash]
    simp only [parse_bucket_object, h1, hpath, hbucket, hobject, hcontains, htrim]
    simp
  · intro hk
    apply String.ext
    simp only [trimLeftSlash]
    cases hd : k.data with
    | nil => rfl
    | cons a l =>
      rw [hd] at hk
      have ha : (a == '/') = false := by
        simp only [List.head?_cons, ne_eq, Option.some.injEq] at hk
        simpa using hk
      simp [List.dropWhile, ha]
  · simp only [trimLeftSlash]
    intro h
    have hmem : ('/' : Char) ∈ k.data.dropWhile (· == '/') := by
      cases hd : k.data.dropWhile (· == '/') with
      | nil => rw [hd] at h; cases h
      | cons a l =>
        rw [hd] at h
        simp only [List.head?_cons, Option.some.injEq] at h
        rw [h]
        exact List.mem_cons_self _ _
    have := List.head?_dropWhile_not (· == '/') k.data
    rw [h] at this
    simp at this
  · have h0 := hpath ""
    simp only [String.append_empty] at h0
    simp only [parse_bucket_object, h0, hbucket0, hobject0]
    simp [trimLeftSlash]

/-- C16, witness: `oss://bucket/dir/a.txt` and `oss://bucket//a.txt`. -/
theorem C16_parse_bucket_object_witness :
    (∀ ch ∈ ("bucket" : String).data, ch ≠ '/') ∧
      parse_bucket_object "oss://bucket/dir/a.txt" = some ("bucket", "dir/a.txt") ∧
      parse_bucket_object "oss://bucket//a.txt" = some ("bucket", "a.txt") ∧
      parse_bucket_object "oss://bucket" = some ("bucket", "") :=
  ⟨by decide,
    (C16_parse_bucket_object "bucket" "dir/a.txt" (by decide)).1.trans (by decide),
    by decide, by decide⟩

/-- The loop over the suffix list answers `true` exactly when an entry that
is not empty is a suffix of the lower-cased file name, or when no entry is
not empty and `allowed` was `true` before. -/
theorem suffixLoop_eq_true (toLower : String → String) (fileName : String) :
    ∀ (suffixList : List String) (allowed : Bool),
      suffixLoop toLower fileName suffixList allowed = true ↔
        (∃ e ∈ suffixList, e ≠ "" ∧ hasSuffix (toLower fileName) e = true) ∨
        ((∀ e ∈ suffixList, e = "") ∧ allowed = true) := by
  intro suffixList
  induction suffixList with
  | nil => intro allowed; simp [suffixLoop]
  | cons s l ih =>
    intro allowed
    by_cases hs : s = ""
    · subst hs
      simp only [suffixLoop, ne_eq, not_true_eq_false, if_false, ih, List.mem_cons,
        exists_eq_or_imp, false_and, false_or, forall_eq_or_imp, true_and]
    · by_cases hm : hasSuffix (toLower fileName) s = true
      · simp only [suffixLoop, ne_eq, hs, not_false_eq_true, if_true, hm, true_iff]
        exact Or.inl ⟨s, List.mem_cons_self _ _, hs, hm⟩
      · simp only [suffixLoop, ne_eq, hs, not_false_eq_true, if_true, hm, if_false, ih,
          List.mem_cons, exists_eq_or_imp, false_and, and_false, or_false, forall_eq_or_imp,
          Bool.false_eq_true, and_self, false_or]

/-- What the suffix filter of `walkdir` does: it keeps a file name exactly
when the suffix option has no entry that is not empty, or an entry that is not
empty is, as it is written, a suffix of the lower-cased file name. -/
theorem suffixAllowed_eq_true (toLower : String → String) (fileName suffix : String) :
    suffixAllowed toLower fileName suffix = true ↔
      (∀ e ∈ strSplitComma suffix, e = "") ∨
      (∃ e ∈ strSplitComma suffix, e ≠ "" ∧ hasSuffix (toLower fileName) e = true) := by
  unfold suffixAllowed
  by_cases h : suffix = ""
  · subst h
    simp only [ne_eq, not_true_eq_false, if_false, true_iff]
    left
    intro e he
    have : strSplitComma "" = [""] := rfl
    rw [this] at he
    simpa using he
  · simp only [ne_eq, h, not_false_eq_true, if_true, suffixLoop_eq_true, and_true]
    exact Or.comm

/-- C17: with the suffix option ".MP3" the filter of `walkdir` drops the files
"a.mp3" and "A.MP3", because only the file name is lower-cased before the
comparison and the entry is compared as it is written; with the option ".mp3"
it keeps both. -/
theorem C17_upper_case_suffix_matches_nothing :
    suffixAllowed exampleToLower "a.mp3" ".MP3" = false ∧
      suffixAllowed exampleToLower "A.MP3" ".MP3" = false ∧
      suffixAllowed exampleToLower "a.mp3" ".mp3" = true ∧
      suffixAllowed exampleToLower "A.MP3" ".mp3" = true ∧
      suffixAllowed exampleToLower "a.txt" ".mp3,,.mp4" = false ∧
      suffixAllowed exampleToLower "a.txt" ",," = true := by
  decide

/-- The first attempt of a part upload sends what the reader holds, every
attempt sends a range that ends where the part ends, and when no failed
attempt has read a byte every attempt sends the same range. -/
theorem uploadPartRetry_bodies (attempt : Nat → Attempt) :
    ∀ (remaining i : Nat) (body : SectionReader),
      (∀ sent ∈ uploadPartRetry attempt remaining i body, sent.2 = body.limit) ∧
      (0 < remaining →
        (uploadPartRetry attempt remaining i body).head? = some (body.off, body.limit)) ∧
      ((∀ j, i ≤ j → j < i + remaining → (attempt j).read ≤ 0) → body.off ≤ body.limit →
        ∀ sent ∈ uploadPartRetry attempt remaining i body, sent = (body.off, body.limit)) := by
  intro remaining
  induction remaining with
  | zero => intro i body; simp [uploadPartRetry]
  | succ n ih =>
    intro i body
    obtain ⟨ih2, _, ih4⟩ := ih (i + 1) (body.advance (attempt i).read)
    have hadv : (body.advance (attempt i).read).limit = body.limit := rfl
    cases hop : uploadPart (attempt i).outcome with
    | error e =>
      have hl : uploadPartRetry attempt (n + 1) i body
          = (body.off, body.limit) ::
            uploadPartRetry attempt n (i + 1) (body.advance (attempt i).read) := by
        simp only [uploadPartRetry, hop]
      rw [hl]
      refine ⟨?_, fun _ => rfl, ?_⟩
      · intro sent hs
        rcases List.mem_cons.1 hs with h | h
        · subst h; rfl
        · rw [ih2 sent h, hadv]
      · intro hz hle sent hs
        rcases List.mem_cons.1 hs with h | h
        · exact h
        · have h0 : (attempt i).read ≤ 0 := hz i (le_refl i) (by omega)
          have hsame : body.advance (attempt i).read = body := by
            cases body with
            | mk b o l =>
              simp only at hle
              simp only [SectionReader.advance, SectionReader.mk.injEq, true_and, and_true]
              rw [max_eq_left h0, add_zero]
              exact min_eq_right hle
          rw [hsame] at ih4 h
          exact ih4 (fun j hj1 hj2 => hz j (by omega) (by omega)) hle sent h
    | ok r =>
      have hl : uploadPartRetry attempt (n + 1) i body = [(body.off, body.limit)] := by
        simp only [uploadPartRetry, hop]
      rw [hl]
      refine ⟨?_, fun _ => rfl, ?_⟩
      · intro sent hs; simp at hs; subst hs; rfl
      · intro _ _ sent hs; simpa using hs

/-- C19: for part 0 of a file of 25 MiB uploaded in parts of 10 MiB, when the
first attempt fails after the transport has read 4096 bytes of the body, the
second attempt sends the bytes `[4096, 10485760)` of the file, not the bytes
`[0, 10485760)` that the first attempt sent: the reader is created once
outside the retry loop and is not rewound. -/
theorem C19_retry_sends_rest_of_body :
    uploadPartBodies (New "host" "id" "secret")
        (fun j => if j = 0 then { read := 4096, outcome := .error "connection reset" }
          else { read := 10485760, outcome := .ok [("StatusCode", "200"), ("Etag", "e")] })
        { partNum := 0, off := 0, num := 10485760 }
      = [(0, 10485760), (4096, 10485760)] ∧
    uploadPartLoop 26214400 10485760 4 0
      = some [⟨0, 0, 10485760⟩, ⟨1, 10485760, 10485760⟩, ⟨2, 20971520, 5242880⟩] := by
  decide

/-- The token returned by `sign`, in terms of the text it signs. -/
theorem sign_eq_canonical (c : Client) (hmac : String → String → List Nat)
    (base64 : List Nat → String) (method : String) (headers : StrMap) (bucket object : String) :
    sign c hmac base64 method headers bucket object
      = "OSS " ++ c.accessKeyId ++ ":"
        ++ base64 (hmac (canonicalString method headers bucket object) c.accessKeySecret) :=
  rfl

/-- The signed text, written with the ascending arrangement `names` of the
header names. -/
theorem canonicalString_of_names (method : String) (headers : StrMap) (bucket object : String)
    (names : List String) (hperm : names.Perm (headers.map Prod.fst))
    (hsorted : names.Sorted strLe) :
    canonicalString method headers bucket object
      = method ++ "\n"
        ++ String.join (names.map (fun name =>
            if strContains name "x-oss-" then name ++ ":" ++ headers.get name ++ "\n"
            else headers.get name ++ "\n"))
        ++ ("/" ++ bucket ++ "/" ++ object) := by
  simp only [canonicalString, sorted_names_unique headers names hperm hsorted, foldl_sign_lines]

/-- The join of no text. -/
theorem join_nil : String.join [] = "" := rfl

/-- The text signed by a request that has the header `Date` only and the
method text `verb`, two line feeds being appended to the verb by the caller
(`Delete`, `Head`, `Cat`, `ListObject`). -/
theorem canonicalString_date (verb date bucket object : String) :
    canonicalString (verb ++ "\n" ++ "\n") [("Date", date)] bucket object
      = serviceCanonical verb "" "" date [] ("/" ++ bucket ++ "/" ++ object) := by
  rw [canonicalString_of_names (verb ++ "\n" ++ "\n") [("Date", date)] bucket object ["Date"]
    (List.Perm.refl _) (by decide)]
  have h3 : strContains "Date" "x-oss-" = false := by decide
  simp [serviceCanonical, h3, StrMap.get, List.lookup, join_cons, join_nil, String.append_assoc]

/-- The text signed by a request that has the headers `Content-Type` and
`Date`, one line feed being appended to the verb by the caller (`initUpload`,
`uploadPart`). -/
theorem canonicalString_type_date (verb contentType date bucket object : String) :
    canonicalString (verb ++ "\n") [("Content-Type", contentType), ("Date", date)] bucket object
      = serviceCanonical verb "" contentType date [] ("/" ++ bucket ++ "/" ++ object) := by
  rw [canonicalString_of_names (verb ++ "\n") [("Content-Type", contentType), ("Date", date)]
    bucket object ["Content-Type", "Date"] (List.Perm.refl _) (by decide)]
  have h2 : strContains "Content-Type" "x-oss-" = false := by decide
  have h3 : strContains "Date" "x-oss-" = false := by decide
  simp [serviceCanonical, h2, h3, StrMap.get, List.lookup, join_cons, join_nil,
    String.append_assoc]

/-- The text signed by a request that has the headers `Content-Md5`,
`Content-Type` and `Date` (`Put`, `completeUpload`). -/
theorem canonicalString_md5_type_date (verb contentMd5 contentType date bucket object : String) :
    canonicalString verb
        [("Content-Md5", contentMd5), ("Content-Type", contentType), ("Date", date)]
        bucket object
      = serviceCanonical verb contentMd5 contentType date [] ("/" ++ bucket ++ "/" ++ object) := by
  rw [canonicalString_of_names verb
    [("Content-Md5", contentMd5), ("Content-Type", contentType), ("Date", date)]
    bucket object ["Content-Md5", "Content-Type", "Date"] (List.Perm.refl _) (by decide)]
  have h1 : strContains "Content-Md5" "x-oss-" = false := by decide
  have h2 : strContains "Content-Type" "x-oss-" = false := by decide
  have h3 : strContains "Date" "x-oss-" = false := by decide
  simp [serviceCanonical, h1, h2, h3, StrMap.get, List.lookup, join_cons, join_nil,
    String.append_assoc]

/-- The text signed by `Copy`. -/
theorem canonicalString_copy (date source bucket object : String) :
    canonicalString ("PUT" ++ "\n" ++ "\n") [("Date", date), ("x-oss-copy-source", source)]
        bucket object
      = serviceCanonical "PUT" "" "" date [("x-oss-copy-source", source)]
          ("/" ++ bucket ++ "/" ++ object) := by
  rw [canonicalString_of_names ("PUT" ++ "\n" ++ "\n")
    [("Date", date), ("x-oss-copy-source", source)] bucket object
    ["Date", "x-oss-copy-source"] (List.Perm.refl _) (by decide)]
  have h3 : strContains "Date" "x-oss-" = false := by decide
  have h4 : strContains "x-oss-copy-source" "x-oss-" = true := by decide
  simp [serviceCanonical, h3, h4, StrMap.get, List.lookup, join_cons, join_nil,
    String.append_assoc]

/-- The text signed by `copyPart`. -/
theorem canonicalString_copyPart (date source partRange bucket object : String) :
    canonicalString ("PUT" ++ "\n" ++ "\n")
        [("Date", date), ("x-oss-copy-source", source), ("x-oss-copy-source-range", partRange)]
        bucket object
      = serviceCanonical "PUT" "" "" date
          [("x-oss-copy-source-range", partRange), ("x-oss-copy-source", source)]
          ("/" ++ bucket ++ "/" ++ object) := by
  rw [canonicalString_of_names ("PUT" ++ "\n" ++ "\n")
    [("Date", date), ("x-oss-copy-source", source), ("x-oss-copy-source-range", partRange)]
    bucket object ["Date", "x-oss-copy-source", "x-oss-copy-source-range"]
    (List.Perm.refl _) (by decide)]
  have h3 : strContains "Date" "x-oss-" = false := by decide
  have h4 : strContains "x-oss-copy-source" "x-oss-" = true := by decide
  have h5 : strContains "x-oss-copy-source-range" "x-oss-" = true := by decide
  have h6 : strLe "x-oss-copy-source" "x-oss-copy-source-range" := by decide
  have h7 : ¬ strLe "x-oss-copy-source-range" "x-oss-copy-source" := by decide
  simp [serviceCanonical, h3, h4, h5, h6, h7, StrMap.get, List.lookup, join_cons, join_nil,
    String.append_assoc, List.insertionSort, List.orderedInsert]

/-- The text signed for a multi-delete batch: the line feed appended to the
value of `Content-Md5` stands for the empty `Content-Type`. -/
theorem canonicalString_deleteBatch (contentMd5 date bucket : String) :
    canonicalString "POST" [("Content-Md5", contentMd5 ++ "\n"), ("Date", date)] bucket "?delete"
      = serviceCanonical "POST" contentMd5 "" date [] ("/" ++ bucket ++ "/" ++ "?delete") := by
  rw [canonicalString_of_names "POST" [("Content-Md5", contentMd5 ++ "\n"), ("Date", date)]
    bucket "?delete" ["Content-Md5", "Date"] (List.Perm.refl _) (by decide)]
  have h1 : strContains "Content-Md5" "x-oss-" = false := by decide
  have h3 : strContains "Date" "x-oss-" = false := by decide
  simp [serviceCanonical, h1, h3, StrMap.get, List.lookup, join_cons, join_nil,
    String.append_assoc]

/-- C18: for every request built by the client, the `Authorization` header is
the token of the canonical layout of the service: the verb, `Content-MD5`,
`Content-Type` and `Date` (the first two empty when the request does not carry
them), each followed by a line feed, the `x-oss-` headers as `name:value`
lines in the order of their names, and `/bucket/key` with the sub-resource
(`?uploads`, `?partNumber=N&uploadId=ID`, `?uploadId=ID`, `?delete`) appended
as it is. -/
theorem C18_signed_text_is_service_layout (c : Client) (hmac : String → String → List Nat)
    (base64 : List Nat → String) (md5Byte : String → List Nat)
    (contentType date body bucket object source partRange disposition uploadId : String)
    (partNumber size : Int) (options : StrMap) :
    (PutRequest c hmac base64 md5Byte contentType date body bucket object disposition).headers.get
        "Authorization"
      = ossToken c hmac base64 (serviceCanonical "PUT" (base64 (md5Byte body)) contentType date []
          ("/" ++ bucket ++ "/" ++ object)) ∧
    (CopyRequest c hmac base64 date bucket object source disposition).headers.get "Authorization"
      = ossToken c hmac base64 (serviceCanonical "PUT" "" "" date [("x-oss-copy-source", source)]
          ("/" ++ bucket ++ "/" ++ object)) ∧
    (DeleteRequest c hmac base64 date bucket object).headers.get "Authorization"
      = ossToken c hmac base64 (serviceCanonical "DELETE" "" "" date []
          ("/" ++ bucket ++ "/" ++ object)) ∧
    (HeadRequest c hmac base64 date bucket object).headers.get "Authorization"
      = ossToken c hmac base64 (serviceCanonical "HEAD" "" "" date []
          ("/" ++ bucket ++ "/" ++ object)) ∧
    (CatRequest c hmac base64 date bucket object partRange).headers.get "Authorization"
      = ossToken c hmac base64 (serviceCanonical "GET" "" "" date []
          ("/" ++ bucket ++ "/" ++ object)) ∧
    (ListObjectRequest c hmac base64 date bucket options).headers.get "Authorization"
      = ossToken c hmac base64 (serviceCanonical "GET" "" "" date [] ("/" ++ bucket ++ "/")) ∧
    (initUploadRequest c hmac base64 contentType date bucket object disposition).headers.get
        "Authorization"
      = ossToken c hmac base64 (serviceCanonical "POST" "" contentType date []
          ("/" ++ bucket ++ "/" ++ object ++ "?uploads")) ∧
    (uploadPartRequest c hmac base64 contentType date size body bucket object partNumber
        uploadId).headers.get "Authorization"
      = ossToken c hmac base64 (serviceCanonical "PUT" "" contentType date []
          ("/" ++ bucket ++ "/" ++ object ++ "?partNumber=" ++ toString partNumber
            ++ "&uploadId=" ++ uploadId)) ∧
    (copyPartRequest c hmac base64 date partRange bucket object source partNumber
        uploadId).headers.get "Authorization"
      = ossToken c hmac base64 (serviceCanonical "PUT" "" "" date
          [("x-oss-copy-source-range", partRange), ("x-oss-copy-source", source)]
          ("/" ++ bucket ++ "/" ++ object ++ "?partNumber=" ++ toString partNumber
            ++ "&uploadId=" ++ uploadId)) ∧
    (completeUploadRequest c hmac base64 md5Byte contentType date body bucket object
        uploadId).headers.get "Authorization"
      = ossToken c hmac base64 (serviceCanonical "POST" (base64 (md5Byte body)) contentType date
          [] ("/" ++ bucket ++ "/" ++ object ++ "?uploadId=" ++ uploadId)) ∧
    (deleteBatchRequest c hmac base64 md5Byte date bucket body).headers.get "Authorization"
      = ossToken c hmac base64 (serviceCanonical "POST" (base64 (md5Byte body)) "" date []
          ("/" ++ bucket ++ "/" ++ "?delete")) := by
  refine ⟨?_, ?_, ?_, ?_, ?_, ?_, ?_, ?_, ?_, ?_, ?_⟩
  · simp only [PutRequest]
    split_ifs <;>
      simp only [StrMap.get_set, sign_eq_canonical, canonicalString_md5_type_date, ossToken,
        String.reduceEq, reduceIte]
  · simp only [CopyRequest]
    split_ifs <;>
      simp only [StrMap.get_set, sign_eq_canonical, canonicalString_copy, ossToken,
        String.reduceEq, reduceIte]
  · simp only [DeleteRequest, StrMap.get_set, sign_eq_canonical, canonicalString_date, ossToken,
      reduceIte]
  · simp only [HeadRequest, StrMap.get_set, sign_eq_canonical, canonicalString_date, ossToken,
      reduceIte]
  · simp only [CatRequest]
    split_ifs <;>
      simp only [StrMap.get_set, sign_eq_canonical, canonicalString_date, ossToken,
        String.reduceEq, reduceIte]
  · simp only [ListObjectRequest, StrMap.get_set, sign_eq_canonical, canonicalString_date,
      ossToken, reduceIte, String.append_empty]
  · simp only [initUploadRequest]
    split_ifs <;>
      simp only [StrMap.get_set, sign_eq_canonical, canonicalString_type_date, ossToken,
        String.reduceEq, reduceIte, String.append_assoc]
  · simp only [uploadPartRequest, StrMap.get_set, sign_eq_canonical, canonicalString_type_date,
      ossToken, String.reduceEq, reduceIte, String.append_assoc]
  · simp only [copyPartRequest, StrMap.get_set, sign_eq_canonical, canonicalString_copyPart,
      ossToken, reduceIte]
    simp only [String.append_assoc]
  · simp only [completeUploadRequest, StrMap.get_set, sign_eq_canonical,
      canonicalString_md5_type_date, ossToken, String.reduceEq, reduceIte, String.append_assoc]
  · simp only [deleteBatchRequest, StrMap.get_set, sign_eq_canonical,
      canonicalString_deleteBatch, ossToken, String.reduceEq, reduceIte]

/-- A common beginning of two texts can be cancelled. -/
theorem append_left_cancel (p x y : String) (h : p ++ x = p ++ y) : x = y := by
  apply String.ext
  have hd := congrArg String.data h
  simp only [String.data_append] at hd
  exact List.append_cancel_left hd

/-- Two unary numerals followed by anything are equal only when the numbers
and what follows are equal. -/
theorem unary_inj : ∀ (n m : Nat) (r₁ r₂ : List Char),
    List.replicate n 'a' ++ 'b' :: r₁ = List.replicate m 'a' ++ 'b' :: r₂ → n = m ∧ r₁ = r₂ := by
  intro n
  induction n with
  | zero =>
    intro m r₁ r₂ h
    cases m with
    | zero => simpa using h
    | succ m => simp [List.replicate_succ] at h
  | succ n ih =>
    intro m r₁ r₂ h
    cases m with
    | zero => simp [List.replicate_succ] at h
    | succ m =>
      simp only [List.replicate_succ, List.cons_append, List.cons.injEq, true_and] at h
      obtain ⟨h1, h2⟩ := ih m r₁ r₂ h
      exact ⟨by omega, h2⟩

/-- The unary encoding is injective. -/
theorem unaryBase64_inj : ∀ l₁ l₂ : List Nat, unaryBase64 l₁ = unaryBase64 l₂ → l₁ = l₂ := by
  intro l₁
  induction l₁ with
  | nil =>
    intro l₂ h
    cases l₂ with
    | nil => rfl
    | cons b l₂ =>
      have hd := congrArg String.data h
      simp [unaryBase64, List.flatMap_cons] at hd
  | cons a l₁ ih =>
    intro l₂ h
    cases l₂ with
    | nil =>
      have hd := congrArg String.data h
      simp [unaryBase64, List.flatMap_cons] at hd
    | cons b l₂ =>
      have hd := congrArg String.data h
      simp only [unaryBase64, List.flatMap_cons, List.append_assoc, List.singleton_append] at hd
      obtain ⟨h1, h2⟩ := unary_inj a b _ _ hd
      have := ih l₂ (String.ext h2)
      rw [h1, this]

/-- The example stand-ins for HMAC-SHA1 and base64 have no collision. -/
theorem collisionFree (t₁ k₁ t₂ k₂ : String)
    (h : unaryBase64 (collisionFreeHmac t₁ k₁) = unaryBase64 (collisionFreeHmac t₂ k₂)) :
    t₁ = t₂ ∧ k₁ = k₂ := by
  have h' := unaryBase64_inj _ _ h
  simp only [collisionFreeHmac, List.cons.injEq] at h'
  obtain ⟨hlen, hmap⟩ := h'
  have hinj : Function.Injective Char.toNat := by
    intro a b hab
    apply Char.ext
    apply UInt32.ext
    exact hab
  have happ := List.map_injective_iff.2 hinj hmap
  obtain ⟨hk, ht⟩ := List.append_inj happ hlen
  exact ⟨String.ext ht, String.ext hk⟩

/-- Moving the place where the bucket ends and the key begins leaves the
signed text unchanged. -/
theorem canonicalString_boundary (method : String) (headers : StrMap) (b k₁ k₂ : String) :
    canonicalString method headers b (k₁ ++ "/" ++ k₂)
      = canonicalString method headers (b ++ "/" ++ k₁) k₂ := by
  simp only [canonicalString, String.append_assoc]

/-- C11, counterexample: two requests that differ only in the name of one
header (`Content-Md5` against `Content-MD5`), and two requests that differ only
in where the bucket ends and the key begins (`a` with `b/c` against `a/b` with
`c`), have the same signed text and hence, whatever HMAC and base64 are, the
same token. -/
theorem C11_different_inputs_same_token :
    ([("Content-Md5", "m"), ("Content-Type", "t"), ("Date", "d")] : StrMap)
        ≠ [("Content-MD5", "m"), ("Content-Type", "t"), ("Date", "d")] ∧
      (∀ (hmac : String → String → List Nat) (base64 : List Nat → String),
        sign (New "host" "id" "secret") hmac base64 "PUT"
            [("Content-Md5", "m"), ("Content-Type", "t"), ("Date", "d")] "bucket" "key"
          = sign (New "host" "id" "secret") hmac base64 "PUT"
            [("Content-MD5", "m"), ("Content-Type", "t"), ("Date", "d")] "bucket" "key") ∧
      (("a", "b/c") : String × String) ≠ ("a/b", "c") ∧
      (∀ (hmac : String → String → List Nat) (base64 : List Nat → String),
        sign (New "host" "id" "secret") hmac base64 "PUT" [("Date", "d")] "a" "b/c"
          = sign (New "host" "id" "secret") hmac base64 "PUT" [("Date", "d")] "a/b" "c") := by
  have h1 : canonicalString "PUT"
        [("Content-Md5", "m"), ("Content-Type", "t"), ("Date", "d")] "bucket" "key"
      = canonicalString "PUT"
        [("Content-MD5", "m"), ("Content-Type", "t"), ("Date", "d")] "bucket" "key" := by
    decide
  have h2 : canonicalString "PUT" [("Date", "d")] "a" "b/c"
      = canonicalString "PUT" [("Date", "d")] "a/b" "c" := by
    decide
  refine ⟨by decide, ?_, by decide, ?_⟩
  · intro hmac base64
    rw [sign_eq_canonical, sign_eq_canonical, h1]
  · intro hmac base64
    rw [sign_eq_canonical, sign_eq_canonical, h2]

/-- C11 (amended): the token depends on the method, the headers, the bucket
and the key (with its sub-resource) only through the signed text: for two
clients with the same access id, two requests get the same token exactly when
base64 of the HMAC of their signed texts under their secrets agree; so they
get the same token whenever signed text and secret agree (as when the bucket
and key are cut at another place), and when HMAC and base64 have no collision
they get different tokens exactly when the signed texts or the secrets
differ. -/
theorem C11_token_depends_on_signed_text (c₁ c₂ : Client) (hmac : String → String → List Nat)
    (base64 : List Nat → String) (method₁ method₂ : String) (headers₁ headers₂ : StrMap)
    (bucket₁ object₁ bucket₂ object₂ : String) (hid : c₁.accessKeyId = c₂.accessKeyId) :
    (sign c₁ hmac base64 method₁ headers₁ bucket₁ object₁
        = sign c₂ hmac base64 method₂ headers₂ bucket₂ object₂ ↔
      base64 (hmac (canonicalString method₁ headers₁ bucket₁ object₁) c₁.accessKeySecret)
        = base64 (hmac (canonicalString method₂ headers₂ bucket₂ object₂) c₂.accessKeySecret)) ∧
      (canonicalString method₁ headers₁ bucket₁ object₁
          = canonicalString method₂ headers₂ bucket₂ object₂ →
        c₁.accessKeySecret = c₂.accessKeySecret →
        sign c₁ hmac base64 method₁ headers₁ bucket₁ object₁
          = sign c₂ hmac base64 method₂ headers₂ bucket₂ object₂) ∧
      (∀ k₁ k₂ : String,
        sign c₁ hmac base64 method₁ headers₁ bucket₁ (k₁ ++ "/" ++ k₂)
          = sign c₁ hmac base64 method₁ headers₁ (bucket₁ ++ "/" ++ k₁) k₂) ∧
      ((∀ t₁ s₁ t₂ s₂ : String, base64 (hmac t₁ s₁) = base64 (hmac t₂ s₂) → t₁ = t₂ ∧ s₁ = s₂) →
        (sign c₁ hmac base64 method₁ headers₁ bucket₁ object₁
            ≠ sign c₂ hmac base64 method₂ headers₂ bucket₂ object₂ ↔
          canonicalString method₁ headers₁ bucket₁ object₁
              ≠ canonicalString method₂ headers₂ bucket₂ object₂ ∨
            c₁.accessKeySecret ≠ c₂.accessKeySecret)) := by
  have hiff : sign c₁ hmac base64 method₁ headers₁ bucket₁ object₁
        = sign c₂ hmac base64 method₂ headers₂ bucket₂ object₂ ↔
      base64 (hmac (canonicalString method₁ headers₁ bucket₁ object₁) c₁.accessKeySecret)
        = base64 (hmac (canonicalString method₂ headers₂ bucket₂ object₂) c₂.accessKeySecret) := by
    rw [sign_eq_canonical, sign_eq_canonical, hid]
    constructor
    · intro h
      exact append_left_cancel _ _ _ h
    · intro h
      rw [h]
  refine ⟨hiff, ?_, ?_, ?_⟩
  · intro h1 h2
    rw [hiff, h1, h2]
  · intro k₁ k₂
    rw [sign_eq_canonical, sign_eq_canonical, canonicalString_boundary]
  · intro hinj
    rw [Ne, hiff]
    constructor
    · intro h
      by_contra hc
      push_neg at hc
      exact h (by rw [hc.1, hc.2])
    · rintro h heq
      obtain ⟨h1, h2⟩ := hinj _ _ _ _ heq
      rcases h with h | h
      · exact h h1
      · exact h h2

/-- C11, witness: with stand-ins for HMAC and base64 that have no collision,
a `PUT` and a `GET` of the same object get different tokens. -/
theorem C11_token_depends_on_signed_text_witness :
    (New "host" "id" "secret").accessKeyId = (New "host" "id" "secret").accessKeyId ∧
      sign (New "host" "id" "secret") collisionFreeHmac unaryBase64 "PUT" [("Date", "d")]
          "bucket" "key"
        ≠ sign (New "host" "id" "secret") collisionFreeHmac unaryBase64 "GET" [("Date", "d")]
          "bucket" "key" :=
  ⟨rfl,
    ((C11_token_depends_on_signed_text (New "host" "id" "secret") (New "host" "id" "secret")
      collisionFreeHmac unaryBase64 "PUT" "GET" [("Date", "d")] [("Date", "d")]
      "bucket" "key" "bucket" "key" rfl).2.2.2 collisionFree).2 (Or.inl (by decide))⟩

/-- Removing from a text the text before its first slash leaves the text from
that slash on. -/
theorem replaceFirst_takeWhile (s : List Char) :
    replaceFirst s (s.takeWhile (· != '/')) [] = s.dropWhile (· != '/') := by
  have h := replaceFirst_append (s.takeWhile (· != '/')) (s.dropWhile (· != '/')) []
  rw [List.takeWhile_append_dropWhile] at h
  simpa using h

/-- The text from the first slash on is empty or begins with a slash. -/
theorem dropWhile_not_slash (s : List Char) :
    s.dropWhile (· != '/') = [] ∨ ∃ tl, s.dropWhile (· != '/') = '/' :: tl := by
  cases hd : s.dropWhile (· != '/') with
  | nil => exact Or.inl rfl
  | cons a tl =>
    right
    have h := List.head?_dropWhile_not (· != '/') s
    rw [hd] at h
    have ha : a = '/' := by simpa using h
    exact ⟨tl, by rw [ha]⟩

/-- What is left of a path once the text before its first slash is removed:
the path from its first slash on, which is empty or contains a slash. -/
theorem object_after_bucket (p : String) :
    (strReplaceFirst p (beforeFirstSlash p) "").data = p.data.dropWhile (· != '/') ∧
      (strReplaceFirst p (beforeFirstSlash p) "" = "" ∨
        strContains (strReplaceFirst p (beforeFirstSlash p) "") "/" = true) := by
  have hdata : (strReplaceFirst p (beforeFirstSlash p) "").data
      = p.data.dropWhile (· != '/') := by
    simp only [strReplaceFirst, beforeFirstSlash]
    exact replaceFirst_takeWhile p.data
  refine ⟨hdata, ?_⟩
  rcases dropWhile_not_slash p.data with h | ⟨tl, h⟩
  · left
    apply String.ext
    rw [hdata, h]
  · right
    simp only [strContains, hdata, h, decide_eq_true_eq]
    exact ⟨[], tl, rfl⟩

/-- C25: for every input path, the text `object` that `parse_bucket_object`
obtains by removing the bucket (the text before the first `/`) from the path
without its `oss://` is the path from its first `/` on, so it is empty or
contains `/`; the test of the rejection branch is therefore false and the
function returns the pair of the bucket and of `object` without its leading
slashes: it returns a pair for every input and rejects none. -/
theorem C25_parse_bucket_object_never_rejects (path : String) :
    (strReplaceFirst (strReplaceFirst path "oss://" "")
        (beforeFirstSlash (strReplaceFirst path "oss://" "")) "").data
      = (strReplaceFirst path "oss://" "").data.dropWhile (· != '/') ∧
    (strReplaceFirst (strReplaceFirst path "oss://" "")
          (beforeFirstSlash (strReplaceFirst path "oss://" "")) "" = "" ∨
      strContains (strReplaceFirst (strReplaceFirst path "oss://" "")
          (beforeFirstSlash (strReplaceFirst path "oss://" "")) "") "/" = true) ∧
    parse_bucket_object path
      = some (beforeFirstSlash (strReplaceFirst path "oss://" ""),
          trimLeftSlash (strReplaceFirst (strReplaceFirst path "oss://" "")
            (beforeFirstSlash (strReplaceFirst path "oss://" "")) "")) ∧
    parse_bucket_object path ≠ none := by
  have h := object_after_bucket (strReplaceFirst path "oss://" "")
  have hret : parse_bucket_object path
      = some (beforeFirstSlash (strReplaceFirst path "oss://" ""),
          trimLeftSlash (strReplaceFirst (strReplaceFirst path "oss://" "")
            (beforeFirstSlash (strReplaceFirst path "oss://" "")) "")) := by
    simp only [parse_bucket_object]
    rw [if_neg]
    rintro ⟨h1, h2⟩
    rcases h.2 with e | e
    · exact h1 e
    · exact h2 e
  refine ⟨h.1, h.2, hret, ?_⟩
  rw [hret]
  exact Option.some_ne_none _

/-- Every client is itself narrowed. -/
theorem narrowed_refl (c : Client) : Narrowed c c :=
  ⟨rfl, rfl, rfl, rfl, rfl, rfl, rfl, rfl, rfl, le_refl _, le_refl _⟩

/-- Narrowing twice is narrowing. -/
theorem narrowed_trans {c₁ c₂ c₃ : Client} (h₁ : Narrowed c₁ c₂) (h₂ : Narrowed c₂ c₃) :
    Narrowed c₁ c₃ := by
  obtain ⟨a1, a2, a3, a4, a5, a6, a7, a8, a9, a10, a11⟩ := h₁
  obtain ⟨b1, b2, b3, b4, b5, b6, b7, b8, b9, b10, b11⟩ := h₂
  exact ⟨b1.trans a1, b2.trans a2, b3.trans a3, b4.trans a4, b5.trans a5, b6.trans a6,
    b7.trans a7, b8.trans a8, b9.trans a9, le_trans b10 a10, le_trans b11 a11⟩

/-- The option `partsize` narrows the client. -/
theorem partsizeOption_narrowed (c : Client) (atoi : String → Option Int) (options : StrMap) :
    Narrowed c (partsizeOption c atoi options) := by
  unfold partsizeOption
  split_ifs with h
  · cases atoi (options.get "partsize") with
    | none => exact narrowed_refl c
    | some partSize =>
      simp only
      split_ifs with hg
      · exact ⟨rfl, rfl, rfl, rfl, rfl, rfl, rfl, rfl, rfl, hg.1, le_refl _⟩
      · exact narrowed_refl c
  · exact narrowed_refl c

/-- The option `thread_num` narrows the client. -/
theorem threadNumOption_narrowed (c : Client) (atoi : String → Option Int) (options : StrMap) :
    Narrowed c (threadNumOption c atoi options) := by
  unfold threadNumOption
  split_ifs with h
  · cases atoi (options.get "thread_num") with
    | none => exact narrowed_refl c
    | some threadNum =>
      simp only
      split_ifs with hg
      · exact ⟨rfl, rfl, rfl, rfl, rfl, rfl, rfl, rfl, rfl, le_refl _, hg.1⟩
      · exact narrowed_refl c
  · exact narrowed_refl c

/-- Lowering the thread count to the number of items narrows the client. -/
theorem threadsForTotal_narrowed (c : Client) (total : Int) :
    Narrowed c (threadsForTotal c total) := by
  unfold threadsForTotal
  split_ifs with h
  · exact ⟨rfl, rfl, rfl, rfl, rfl, rfl, rfl, rfl, rfl, le_refl _, le_of_lt h⟩
  · exact narrowed_refl c

/-- Every call of an operation narrows the client. -/
theorem clientAfter_narrowed (atoi : String → Option Int) (c : Client) (op : Operation) :
    Narrowed c (clientAfter atoi c op) := by
  have hopts : ∀ options, Narrowed c (threadNumOption (partsizeOption c atoi options) atoi options) :=
    fun options => narrowed_trans (partsizeOption_narrowed c atoi options)
      (threadNumOption_narrowed _ atoi options)
  cases op with
  | uploadLargeFile options opened fileSize =>
    simp only [clientAfter, uploadLargeFileClient]
    repeat' split
    all_goals first
      | exact narrowed_refl c
      | exact hopts options
      | exact narrowed_trans (hopts options) (threadsForTotal_narrowed _ _)
  | copyLargeFile options source head =>
    simp only [clientAfter, copyLargeFileClient]
    repeat' split
    all_goals first
      | exact narrowed_refl c
      | exact hopts options
      | exact narrowed_trans (hopts options) (threadsForTotal_narrowed _ _)
  | get head =>
    simp only [clientAfter, getClient]
    repeat' split
    all_goals first
      | exact narrowed_refl c
      | exact threadsForTotal_narrowed _ _
  | uploadFromDir options total =>
    simp only [clientAfter, uploadFromDirClient, uploadFromDirSetup]
    exact narrowed_trans (threadNumOption_narrowed c atoi options) (threadsForTotal_narrowed _ _)
  | copyAllObject options source =>
    simp only [clientAfter, copyAllObjectClient]
    split
    · exact threadNumOption_narrowed c atoi options
    · exact narrowed_refl c
  | deleteAllObject options pages =>
    simp only [clientAfter, deleteAllObjectClient]
    split
    · simp only [deleteAllObjectSetup]
      exact narrowed_trans (threadNumOption_narrowed c atoi options)
        (threadsForTotal_narrowed _ _)
    · exact narrowed_refl c
  | single => exact narrowed_refl c

/-- Every sequence of calls narrows the client. -/
theorem foldl_clientAfter_narrowed (atoi : String → Option Int) (ops : List Operation) :
    ∀ c : Client, Narrowed c (ops.foldl (clientAfter atoi) c) := by
  induction ops with
  | nil => intro c; exact narrowed_refl c
  | cons op ops ih =>
    intro c
    rw [List.foldl_cons]
    exact narrowed_trans (clientAfter_narrowed atoi c op) (ih _)

/-- C23: every call of an operation (`UploadLargeFile`, `CopyLargeFile`, `Get`,
`UploadFromDir`, `CopyAllObject`, `DeleteAllObject` and the single-object
operations), whatever its options and whatever the outside world answers,
leaves the host, the access id, the access secret, `partMinSize`,
`threadMinNum`, `maxRetryNum` and `RecvBufferSize` of the client unchanged (and
its two date layouts as well), and the values of `partMaxSize` and
`threadMaxNum` after the call are not larger than before it; the same holds
after every sequence of calls. -/
theorem C23_client_only_narrowed (atoi : String → Option Int) (c : Client) :
    (∀ op : Operation,
      (clientAfter atoi c op).host = c.host ∧
      (clientAfter atoi c op).accessKeyId = c.accessKeyId ∧
      (clientAfter atoi c op).accessKeySecret = c.accessKeySecret ∧
      (clientAfter atoi c op).dateTimeGMT = c.dateTimeGMT ∧
      (clientAfter atoi c op).dateTimeCST = c.dateTimeCST ∧
      (clientAfter atoi c op).partMinSize = c.partMinSize ∧
      (clientAfter atoi c op).threadMinNum = c.threadMinNum ∧
      (clientAfter atoi c op).maxRetryNum = c.maxRetryNum ∧
      (clientAfter atoi c op).RecvBufferSize = c.RecvBufferSize ∧
      (clientAfter atoi c op).partMaxSize ≤ c.partMaxSize ∧
      (clientAfter atoi c op).threadMaxNum ≤ c.threadMaxNum) ∧
    (∀ ops : List Operation,
      (ops.foldl (clientAfter atoi) c).host = c.host ∧
      (ops.foldl (clientAfter atoi) c).accessKeyId = c.accessKeyId ∧
      (ops.foldl (clientAfter atoi) c).accessKeySecret = c.accessKeySecret ∧
      (ops.foldl (clientAfter atoi) c).dateTimeGMT = c.dateTimeGMT ∧
      (ops.foldl (clientAfter atoi) c).dateTimeCST = c.dateTimeCST ∧
      (ops.foldl (clientAfter atoi) c).partMinSize = c.partMinSize ∧
      (ops.foldl (clientAfter atoi) c).threadMinNum = c.threadMinNum ∧
      (ops.foldl (clientAfter atoi) c).maxRetryNum = c.maxRetryNum ∧
      (ops.foldl (clientAfter atoi) c).RecvBufferSize = c.RecvBufferSize ∧
      (ops.foldl (clientAfter atoi) c).partMaxSize ≤ c.partMaxSize ∧
      (ops.foldl (clientAfter atoi) c).threadMaxNum ≤ c.threadMaxNum) :=
  ⟨fun op => clientAfter_narrowed atoi c op, fun ops => foldl_clientAfter_narrowed atoi ops c⟩

/-- The last element of a reversed path: when the reversed path begins with a
text `n` that is not empty and has no slash, and continues with nothing or with
a slash, the element is `n`. -/
theorem takeWhile_dropWhile_segment (n rest : List Char) (hne : n ≠ [])
    (hn : ∀ ch ∈ n, ch ≠ '/') (hrest : rest.takeWhile (· != '/') = []) :
    ((n ++ rest).dropWhile (· == '/')).takeWhile (· != '/') = n := by
  cases n with
  | nil => exact absurd rfl hne
  | cons a n =>
    have ha : (a == '/') = false := by simpa using hn a (List.mem_cons_self _ _)
    have hdrop : ((a :: n) ++ rest).dropWhile (· == '/') = (a :: n) ++ rest := by
      simp [List.dropWhile, ha]
    rw [hdrop, takeWhile_not_slash (a :: n) rest hn, hrest, List.append_nil]

/-- The base name of a path whose reversed characters are `n.reverse`, then
nothing or a slash: the text `n`. -/
theorem pathBase_of_data (path name : String) (rest : List Char) (hname : name ≠ "")
    (hns : ∀ ch ∈ name.data, ch ≠ '/') (hrest : rest.takeWhile (· != '/') = [])
    (hpath : path.data.reverse = name.data.reverse ++ rest) : pathBase path = name := by
  have hne : name.data ≠ [] := fun h => hname (String.ext h)
  have hpne : path ≠ "" := by
    intro h
    rw [h] at hpath
    have : name.data.reverse ++ rest = [] := hpath.symm
    exact hne (List.reverse_eq_nil_iff.1 (List.append_eq_nil.1 this).1)
  have hseg := takeWhile_dropWhile_segment name.data.reverse rest
    (fun h => hne (List.reverse_eq_nil_iff.1 h))
    (fun ch hch => hns ch (List.mem_reverse.1 hch)) hrest
  have hlast : (⟨((trimRightSlash path).data.reverse.takeWhile (· != '/')).reverse⟩ : String)
      = name := by
    apply String.ext
    simp only [trimRightSlash, List.reverse_reverse, hpath, hseg]
  simp only [pathBase, if_neg hpne, hlast, if_neg hname]

/-- The base name of `dir/name` is `name`, when `name` is not empty and has no
slash. -/
theorem pathBase_segment (dir name : String) (hname : name ≠ "")
    (hns : ∀ ch ∈ name.data, ch ≠ '/') : pathBase (dir ++ "/" ++ name) = name := by
  apply pathBase_of_data _ name ('/' :: dir.data.reverse) hname hns (by simp)
  have hs : ("/" : String).data = ['/'] := rfl
  simp [String.data_append, hs]

/-- The base name of a name that is not empty and has no slash is the name. -/
theorem pathBase_plain (name : String) (hname : name ≠ "")
    (hns : ∀ ch ∈ name.data, ch ≠ '/') : pathBase name = name :=
  pathBase_of_data name name [] hname hns rfl (by simp)

/-- C24: in `CopyAllObject` the destination key of a listed source key is the
destination prefix without its trailing slashes, then `/`, then the base name
of the source key, which for a key `dir/name` (and for a key `name`) is its
last segment `name`; so two keys with the same base name get the same
destination key and their copy requests go to the same address, whatever their
directories, and with the empty prefix the destination key begins with `/`. -/
theorem C24_copy_destination (pfx dir₁ dir₂ name : String) (hname : name ≠ "")
    (hns : ∀ ch ∈ name.data, ch ≠ '/') :
    copyAllObjectObject pfx (dir₁ ++ "/" ++ name) = trimRightSlash pfx ++ "/" ++ name ∧
    copyAllObjectObject pfx name = trimRightSlash pfx ++ "/" ++ name ∧
    copyAllObjectObject pfx (dir₁ ++ "/" ++ name)
      = copyAllObjectObject pfx (dir₂ ++ "/" ++ name) ∧
    (∀ key₁ key₂ : String, pathBase key₁ = pathBase key₂ →
      copyAllObjectObject pfx key₁ = copyAllObjectObject pfx key₂ ∧
      ∀ (c : Client) (hmac : String → String → List Nat) (base64 : List Nat → String)
        (date bucket sourceBucket disposition : String),
        (copyAllObjectRequest c hmac base64 date bucket pfx sourceBucket key₁ disposition).addr
          = (copyAllObjectRequest c hmac base64 date bucket pfx sourceBucket key₂
              disposition).addr) ∧
    (∀ (c : Client) (hmac : String → String → List Nat) (base64 : List Nat → String)
      (date bucket sourceBucket disposition : String),
      (copyAllObjectRequest c hmac base64 date bucket pfx sourceBucket (dir₁ ++ "/" ++ name)
          disposition).addr
        = "http://" ++ bucket ++ c.host ++ "/" ++ (trimRightSlash pfx ++ "/" ++ name)) ∧
    (∀ key : String, copyAllObjectObject "" key = "/" ++ pathBase key ∧
      (copyAllObjectObject "" key).data.head? = some '/') := by
  have h1 : ∀ dir : String,
      copyAllObjectObject pfx (dir ++ "/" ++ name) = trimRightSlash pfx ++ "/" ++ name := by
    intro dir
    simp only [copyAllObjectObject, pathBase_segment dir name hname hns]
  refine ⟨h1 dir₁, ?_, ?_, ?_, ?_, ?_⟩
  · simp only [copyAllObjectObject, pathBase_plain name hname hns]
  · rw [h1 dir₁, h1 dir₂]
  · intro key₁ key₂ h
    have hobj : copyAllObjectObject pfx key₁ = copyAllObjectObject pfx key₂ := by
      simp only [copyAllObjectObject, h]
    refine ⟨hobj, ?_⟩
    intro c hmac base64 date bucket sourceBucket disposition
    simp only [copyAllObjectRequest, CopyRequest, hobj]
  · intro c hmac base64 date bucket sourceBucket disposition
    simp only [copyAllObjectRequest, CopyRequest, h1 dir₁]
  · intro key
    have hempty : trimRightSlash "" = "" := by decide
    have hobj : copyAllObjectObject "" key = "/" ++ pathBase key := by
      simp only [copyAllObjectObject, hempty, String.empty_append]
    refine ⟨hobj, ?_⟩
    rw [hobj]
    simp only [String.data_append]
    rfl

/-- C24, witness: with the prefix `backup/` the keys `a/x.txt` and `b/x.txt`
are two keys and both are copied to `backup/x.txt`. -/
theorem C24_copy_destination_witness :
    ("x.txt" : String) ≠ "" ∧ (∀ ch ∈ ("x.txt" : String).data, ch ≠ '/') ∧
      ("a/x.txt" : String) ≠ "b/x.txt" ∧
      copyAllObjectObject "backup/" "a/x.txt" = "backup/x.txt" ∧
      copyAllObjectObject "backup/" "b/x.txt" = "backup/x.txt" ∧
      copyAllObjectObject "" "a/x.txt" = "/x.txt" :=
  ⟨by decide, by decide, by decide,
    (C24_copy_destination "backup/" "a" "b" "x.txt" (by decide) (by decide)).1.trans (by decide),
    by decide, by decide⟩

/-- C22, counterexample: the name `X-Oss-Meta-A` does not contain `x-oss-`, so
for the headers `Date` and `X-Oss-Meta-A` the text signed by `sign` has the line
`v` for the custom header and no line `x-oss-meta-a:v`; and the custom headers
`X-Oss-Meta-B` and `x-oss-meta-a` are signed in the order of their names as
written, the first by its value alone. -/
theorem C22_upper_case_header_is_signed_by_value :
    exampleToLower "X-Oss-Meta-A" = "x-oss-meta-a" ∧
      strContains "X-Oss-Meta-A" "x-oss-" = false ∧
      canonicalString "PUT\n\n" [("Date", "D"), ("X-Oss-Meta-A", "v")] "bucket" "key"
        = "PUT\n\n\nD\nv\n/bucket/key" ∧
      strContains (canonicalString "PUT\n\n" [("Date", "D"), ("X-Oss-Meta-A", "v")] "bucket" "key")
        (exampleToLower "X-Oss-Meta-A" ++ ":" ++ "v" ++ "\n") = false ∧
      sign (New "host" "id" "secret") exampleHmac exampleBase64 "PUT\n\n"
          [("Date", "D"), ("X-Oss-Meta-A", "v")] "bucket" "key"
        = "OSS id:secret|PUT\n\n\nD\nv\n/bucket/key" ∧
      canonicalString "PUT\n\n" [("Date", "D"), ("x-oss-meta-a", "2"), ("X-Oss-Meta-B", "1")]
          "bucket" "key"
        = "PUT\n\n\nD\n1\nx-oss-meta-a:2\n/bucket/key" := by
  refine ⟨by decide, by decide, by decide, by decide, by rfl, by decide⟩

/-- C22 (amended): `sign` uses every header name as it is written.  For every
header map and every name of it, the signed text is the method and a line
feed, the lines of the names that stand before it in the ascending byte order
of the names as written, the line of the name, the lines of the names after
it, and the resource; the line of a name is `name:value` and a line feed when
the name as written contains `x-oss-`, and the value and a line feed otherwise.
So the line is the lower-cased name, `:`, the value and a line feed for a
custom header whose name is already in lower case. -/
theorem C22_header_names_signed_as_written (toLower : String → String) (c : Client)
    (hmac : String → String → List Nat) (base64 : List Nat → String) (method : String)
    (headers : StrMap) (bucket object name : String) (hmem : name ∈ headers.map Prod.fst) :
    ∃ before after : List String,
      (before ++ name :: after).Perm (headers.map Prod.fst) ∧
      (before ++ name :: after).Sorted strLe ∧
      (∀ m ∈ before, strLe m name) ∧ (∀ m ∈ after, strLe name m) ∧
      canonicalString method headers bucket object
        = method ++ "\n" ++ String.join (before.map (headerLine headers))
            ++ headerLine headers name ++ String.join (after.map (headerLine headers))
            ++ ("/" ++ bucket ++ "/" ++ object) ∧
      sign c hmac base64 method headers bucket object
        = ossToken c hmac base64
            (method ++ "\n" ++ String.join (before.map (headerLine headers))
              ++ headerLine headers name ++ String.join (after.map (headerLine headers))
              ++ ("/" ++ bucket ++ "/" ++ object)) ∧
      (strContains name "x-oss-" = true →
        headerLine headers name = name ++ ":" ++ headers.get name ++ "\n") ∧
      (strContains name "x-oss-" = false → headerLine headers name = headers.get name ++ "\n") ∧
      (strContains name "x-oss-" = true → toLower name = name →
        headerLine headers name = toLower name ++ ":" ++ headers.get name ++ "\n") := by
  have hperm := List.perm_insertionSort strLe (headers.map Prod.fst)
  have hsorted := List.sorted_insertionSort strLe (headers.map Prod.fst)
  have hmem' : name ∈ (headers.map Prod.fst).insertionSort strLe := hperm.mem_iff.2 hmem
  obtain ⟨before, after, hsplit⟩ := List.append_of_mem hmem'
  rw [hsplit] at hperm hsorted
  have hpw := List.pairwise_append.1 hsorted
  have hcanon : canonicalString method headers bucket object
      = method ++ "\n" ++ String.join (before.map (headerLine headers))
          ++ headerLine headers name ++ String.join (after.map (headerLine headers))
          ++ ("/" ++ bucket ++ "/" ++ object) := by
    rw [canonicalString_of_names method headers bucket object (before ++ name :: after) hperm
      hsorted]
    have hline : (fun name => if strContains name "x-oss-" then
          name ++ ":" ++ headers.get name ++ "\n" else headers.get name ++ "\n")
        = headerLine headers := rfl
    rw [hline, List.map_append, List.map_cons, join_append, join_cons]
    simp only [String.append_assoc]
  have h1 : strContains name "x-oss-" = true →
      headerLine headers name = name ++ ":" ++ headers.get name ++ "\n" := by
    intro h
    simp only [headerLine, h, if_true]
  refine ⟨before, after, hperm, hsorted, fun m hm => hpw.2.2 m hm name (List.mem_cons_self _ _),
    fun m hm => List.rel_of_pairwise_cons hpw.2.1 hm, hcanon, ?_, h1, ?_, ?_⟩
  · rw [sign_eq_canonical, hcanon]
    rfl
  · intro h
    simp only [headerLine, h]
    rfl
  · intro h hl
    rw [hl]
    exact h1 h

/-- C22, witness: in the headers of a copy the name `x-oss-copy-source` is in
lower case and its line is `x-oss-copy-source:/b/o`. -/
theorem C22_header_names_signed_as_written_witness :
    "x-oss-copy-source" ∈ ([("Date", "D"), ("x-oss-copy-source", "/b/o")] : StrMap).map Prod.fst ∧
      headerLine [("Date", "D"), ("x-oss-copy-source", "/b/o")] "x-oss-copy-source"
        = "x-oss-copy-source:/b/o\n" := by
  refine ⟨by decide, ?_⟩
  obtain ⟨_, _, _, _, _, _, _, _, _, _, h⟩ :=
    C22_header_names_signed_as_written exampleToLower (New "host" "id" "secret") exampleHmac
      exampleBase64 "PUT\n\n" [("Date", "D"), ("x-oss-copy-source", "/b/o")] "bucket" "key"
      "x-oss-copy-source" (by decide)
  exact (h (by decide) (by decide)).trans (by decide)

/-- On pages that are not empty, the markers of the calls are the empty (or
given) marker and then the last key of each page. -/
theorem pageMarkers_lastKeys (ps : List ListObjectResult) :
    ∀ marker : String, (∀ p ∈ ps, p.Contents ≠ []) →
      pageMarkers marker ps
        = marker :: ps.map (fun p => (p.Contents.getLast?.map (fun v => v.Key)).getD "") := by
  induction ps with
  | nil => intro marker _; rfl
  | cons p ps ih =>
    intro marker hfull
    have hne : p.Contents ≠ [] := hfull p (List.mem_cons_self _ _)
    have hkey : lastKeyOr marker p.Contents
        = (p.Contents.getLast?.map (fun v => v.Key)).getD "" := by
      rw [lastKeyOr_eq, List.getLast?_eq_getLast _ hne]
      rfl
    rw [pageMarkers, ih _ (fun q hq => hfull q (List.mem_cons_of_mem _ hq)), hkey, List.map_cons]

/-- No work item of a page leaves the process when no worker does. -/
theorem copyItems_any_exited (c : Client) (env : Env) (replace : String)
    (inputs : Nat → CopyInput)
    (hwork : ∀ n, (copyAllObjectItem c env replace (inputs n)).exited = false)
    (contents : List ListObjectContents) (done : Nat) :
    ((contents.enumFrom done).map (fun p => copyAllObjectItem c env replace (inputs p.1))).any
      (fun r => r.exited) = false := by
  rw [List.any_eq_false]
  intro r hr
  obtain ⟨p, _, rfl⟩ := List.mem_map.1 hr
  rw [hwork]
  decide

/-- One turn of the loop of `CopyAllObject` on a page that is not truncated. -/
theorem copyAllObjectLoop_last (c : Client) (env : Env) (replace : String)
    (inputs : Nat → CopyInput)
    (hwork : ∀ n, (copyAllObjectItem c env replace (inputs n)).exited = false)
    (p : ListObjectResult) (pages : List ListOutcome) (marker : String) (done : Nat)
    (total skip finish : Int) (hnt : ¬ p.IsTruncated = "true") :
    copyAllObjectLoop c env replace inputs (.ok p :: pages) marker done total skip finish
      = ([marker], .returned
          { total := total + p.Contents.length
            skip := skip + (addCounters ((p.Contents.enumFrom done).map
              (fun q => copyAllObjectItem c env replace (inputs q.1)))).1
            finish := finish + (addCounters ((p.Contents.enumFrom done).map
              (fun q => copyAllObjectItem c env replace (inputs q.1)))).2 }) := by
  simp only [copyAllObjectLoop, copyItems_any_exited c env replace inputs hwork, if_neg hnt]
  simp

/-- One turn of the loop of `CopyAllObject` on a truncated page whose last
entry is `last`. -/
theorem copyAllObjectLoop_more (c : Client) (env : Env) (replace : String)
    (inputs : Nat → CopyInput)
    (hwork : ∀ n, (copyAllObjectItem c env replace (inputs n)).exited = false)
    (p : ListObjectResult) (pages : List ListOutcome) (marker : String) (done : Nat)
    (total skip finish : Int) (last : ListObjectContents) (ht : p.IsTruncated = "true")
    (hlast : p.Contents.getLast? = some last) :
    copyAllObjectLoop c env replace inputs (.ok p :: pages) marker done total skip finish
      = (marker :: (copyAllObjectLoop c env replace inputs pages last.Key
            (done + p.Contents.length) (total + p.Contents.length)
            (skip + (addCounters ((p.Contents.enumFrom done).map
              (fun q => copyAllObjectItem c env replace (inputs q.1)))).1)
            (finish + (addCounters ((p.Contents.enumFrom done).map
              (fun q => copyAllObjectItem c env replace (inputs q.1)))).2)).1,
          (copyAllObjectLoop c env replace inputs pages last.Key
            (done + p.Contents.length) (total + p.Contents.length)
            (skip + (addCounters ((p.Contents.enumFrom done).map
              (fun q => copyAllObjectItem c env replace (inputs q.1)))).1)
            (finish + (addCounters ((p.Contents.enumFrom done).map
              (fun q => copyAllObjectItem c env replace (inputs q.1)))).2)).2) := by
  simp only [copyAllObjectLoop, copyItems_any_exited c env replace inputs hwork, if_pos ht, hlast]
  simp

/-- The loop of `CopyAllObject` on pages that are not empty and of which all
but the last are truncated, when no worker leaves the process: one call per
page, and the total is the sum of the page sizes. -/
theorem copyAllObjectLoop_eq (c : Client) (env : Env) (replace : String)
    (inputs : Nat → CopyInput)
    (hwork : ∀ n, (copyAllObjectItem c env replace (inputs n)).exited = false)
    (rest : List ListOutcome) :
    ∀ (ps : List ListObjectResult) (marker : String) (done : Nat) (total skip finish : Int),
      ps ≠ [] → (∀ p ∈ ps, p.Contents ≠ []) → (∀ p ∈ ps.dropLast, p.IsTruncated = "true") →
      (∀ p ∈ ps.getLast?, p.IsTruncated ≠ "true") →
      (copyAllObjectLoop c env replace inputs (ps.map Except.ok ++ rest) marker done total skip
          finish).1 = pageMarkers marker ps.dropLast ∧
      ∃ s f : Int,
        (copyAllObjectLoop c env replace inputs (ps.map Except.ok ++ rest) marker done total skip
          finish).2
          = .returned { total := total + (ps.map (fun p => (p.Contents.length : Int))).sum
                        skip := s, finish := f } := by
  intro ps
  induction ps with
  | nil => intro _ _ _ _ _ h; exact absurd rfl h
  | cons p ps ih =>
    intro marker done total skip finish _ hfull htr hlast
    cases ps with
    | nil =>
      have hnt : ¬ p.IsTruncated = "true" := hlast p (by simp)
      simp only [List.map_cons, List.map_nil, List.cons_append, List.nil_append]
      rw [copyAllObjectLoop_last c env replace inputs hwork _ _ _ _ _ _ _ hnt]
      have hsum : total + ([(p.Contents.length : Int)]).sum = total + p.Contents.length := by
        simp
      rw [hsum]
      exact ⟨by simp [pageMarkers], _, _, rfl⟩
    | cons q qs =>
      have ht : p.IsTruncated = "true" := htr p (by simp)
      have hne : p.Contents ≠ [] := hfull p (List.mem_cons_self _ _)
      have hgl : p.Contents.getLast? = some (p.Contents.getLast hne) :=
        List.getLast?_eq_getLast _ hne
      have hkey : lastKeyOr marker p.Contents = (p.Contents.getLast hne).Key := by
        rw [lastKeyOr_eq, hgl]
        rfl
      obtain ⟨h1, s, f, h2⟩ := ih (p.Contents.getLast hne).Key (done + p.Contents.length)
        (total + p.Contents.length)
        (skip + (addCounters ((p.Contents.enumFrom done).map
          (fun q => copyAllObjectItem c env replace (inputs q.1)))).1)
        (finish + (addCounters ((p.Contents.enumFrom done).map
          (fun q => copyAllObjectItem c env replace (inputs q.1)))).2)
        (by simp) (fun x hx => hfull x (List.mem_cons_of_mem _ hx))
        (fun x hx => htr x (by rw [List.dropLast_cons₂]; exact List.mem_cons_of_mem _ hx))
        (fun x hx => hlast x (by rw [List.getLast?_cons_cons]; exact hx))
      simp only [List.map_cons, List.cons_append] at h1 h2 ⊢
      rw [copyAllObjectLoop_more c env replace inputs hwork _ _ _ _ _ _ _ _ ht hgl]
      refine ⟨?_, s, f, ?_⟩
      · simp only [h1, List.dropLast_cons₂, pageMarkers, hkey]
      · simp only [h2, List.sum_cons, add_assoc]

/-- The sizes added by the entries of a page. -/
theorem foldl_size_eq_sum (atoi : String → Int) (contents : List ListObjectContents) :
    ∀ totalSize : Int,
      contents.foldl (fun totalSize v => totalSize + atoi v.Size) totalSize
        = totalSize + (contents.map (fun v => atoi v.Size)).sum := by
  induction contents with
  | nil => intro totalSize; simp
  | cons v contents ih =>
    intro totalSize
    rw [List.foldl_cons, ih, List.map_cons, List.sum_cons, add_assoc]

/-- One turn of the loop of the command `list`. -/
theorem cliListAllObjectLoop_step (atoi : String → Int) (p : ListObjectResult)
    (pages : List ListOutcome) (marker : String) (totalNum totalSize : Int) :
    cliListAllObjectLoop atoi (.ok p :: pages) marker totalNum totalSize
      = if p.IsTruncated = "true" then
          { markers := marker ::
              (cliListAllObjectLoop atoi pages (lastKeyOr marker p.Contents)
                (totalNum + p.Contents.length)
                (totalSize + (p.Contents.map (fun v => atoi v.Size)).sum)).markers
            printed := p.Contents.map (fun v => v.Key) ++
              (cliListAllObjectLoop atoi pages (lastKeyOr marker p.Contents)
                (totalNum + p.Contents.length)
                (totalSize + (p.Contents.map (fun v => atoi v.Size)).sum)).printed
            result :=
              (cliListAllObjectLoop atoi pages (lastKeyOr marker p.Contents)
                (totalNum + p.Contents.length)
                (totalSize + (p.Contents.map (fun v => atoi v.Size)).sum)).result }
        else
          { markers := [marker], printed := p.Contents.map (fun v => v.Key)
            result := .returned
              { totalNum := totalNum + p.Contents.length
                totalSize := totalSize + (p.Contents.map (fun v => atoi v.Size)).sum } } := by
  rw [cliListAllObjectLoop]
  simp only [foldl_size_eq_sum]

/-- The loop of the command `list` on pages of which all but the last are
truncated: one call per page, every entry printed, and the totals are the sum
of the page sizes and the sum of the sizes of the entries. -/
theorem cliListAllObjectLoop_eq (atoi : String → Int) (rest : List ListOutcome) :
    ∀ (ps : List ListObjectResult) (marker : String) (totalNum totalSize : Int),
      ps ≠ [] → (∀ p ∈ ps.dropLast, p.IsTruncated = "true") →
      (∀ p ∈ ps.getLast?, p.IsTruncated ≠ "true") →
      cliListAllObjectLoop atoi (ps.map Except.ok ++ rest) marker totalNum totalSize
        = { markers := pageMarkers marker ps.dropLast
            printed := (ps.flatMap (fun p => p.Contents)).map (fun v => v.Key)
            result := .returned
              { totalNum := totalNum + (ps.map (fun p => (p.Contents.length : Int))).sum
                totalSize := totalSize
                  + ((ps.flatMap (fun p => p.Contents)).map (fun v => atoi v.Size)).sum } } := by
  intro ps
  induction ps with
  | nil => intro _ _ _ h; exact absurd rfl h
  | cons p ps ih =>
    intro marker totalNum totalSize _ htr hlast
    cases ps with
    | nil =>
      have hnt : ¬ p.IsTruncated = "true" := hlast p (by simp)
      simp only [List.map_cons, List.map_nil, List.cons_append, List.nil_append]
      rw [cliListAllObjectLoop_step, if_neg hnt]
      simp [pageMarkers]
    | cons q qs =>
      have ht : p.IsTruncated = "true" := htr p (by simp)
      have hrec := ih (lastKeyOr marker p.Contents) (totalNum + p.Contents.length)
        (totalSize + (p.Contents.map (fun v => atoi v.Size)).sum)
        (by simp)
        (fun x hx => htr x (by rw [List.dropLast_cons₂]; exact List.mem_cons_of_mem _ hx))
        (fun x hx => hlast x (by rw [List.getLast?_cons_cons]; exact hx))
      simp only [List.map_cons, List.cons_append] at hrec ⊢
      rw [cliListAllObjectLoop_step, if_pos ht, hrec]
      simp only [List.dropLast_cons₂, pageMarkers, List.sum_cons, add_assoc, List.flatMap_cons,
        List.map_append, List.sum_append]

/-- A batch whose request is answered without a transport error at one of
the attempts does not leave the process. -/
theorem deleteBatch_not_exited (c : Client) (curl : Nat → Outcome) (num : Int)
    (h : ∃ j, j < c.maxRetryNum ∧ isError (curl j) = false) :
    (deleteBatch c curl num).exited = false := by
  have hc : RetryContract c.maxRetryNum curl curl (deleteBatch c curl num) :=
    retryContract_of_loop c.maxRetryNum curl curl (fun _ => rfl)
      (fun res => if res.get "StatusCode" = "200" then num else 0)
  obtain ⟨j, hj, hok⟩ := h
  cases hex : (deleteBatch c curl num).exited with
  | false => rfl
  | true =>
    have := hc.2.2.1 hex j hj
    rw [hok] at this
    cases this

/-- C21: when the listing calls are answered by the pages `ps`, none empty
and all truncated but the last, and no worker leaves the process, each of
`CopyAllObject`, `DeleteAllObject` and the command `list` makes one listing
call per page of `ps` and none after the page that is not truncated; the calls
ask for `max-keys` 1000, the first with the empty marker and every following
one with the last key of the page just received; and the total that is
returned is the sum of the page sizes, which is the number of the listed
objects. -/
theorem C21_listing_pagination (c : Client) (env : Env) (replace : String)
    (inputs : Nat → CopyInput) (curl : Nat → Nat → Outcome) (atoi : String → Int)
    (ps : List ListObjectResult) (rest : List ListOutcome)
    (hne : ps ≠ []) (hfull : ∀ p ∈ ps, p.Contents ≠ [])
    (htr : ∀ p ∈ ps.dropLast, p.IsTruncated = "true")
    (hlast : ∀ p ∈ ps.getLast?, p.IsTruncated ≠ "true")
    (hcopy : ∀ n, (copyAllObjectItem c env replace (inputs n)).exited = false)
    (hdelete : ∀ n, ∃ j, j < c.maxRetryNum ∧ isError (curl n j) = false) :
    (∀ pfx marker : String,
      (copyAllObjectListOptions pfx marker).get "max-keys" = "1000" ∧
      (copyAllObjectListOptions pfx marker).get "marker" = marker ∧
      (deleteAllObjectListOptions pfx marker).get "max-keys" = "1000" ∧
      (deleteAllObjectListOptions pfx marker).get "marker" = marker ∧
      (listAllObjectListOptions pfx marker).get "max-keys" = "1000" ∧
      (listAllObjectListOptions pfx marker).get "marker" = marker) ∧
    (CopyAllObject c env replace (ps.map Except.ok ++ rest) inputs).1
      = "" :: ps.dropLast.map (fun p => (p.Contents.getLast?.map (fun v => v.Key)).getD "") ∧
    (∃ skip finish : Int,
      (CopyAllObject c env replace (ps.map Except.ok ++ rest) inputs).2
        = .returned { total := (ps.map (fun p => (p.Contents.length : Int))).sum
                      skip := skip, finish := finish }) ∧
    (∃ sent : List Request,
      (DeleteAllObject c (ps.map Except.ok ++ rest) curl).1
        = ("" :: ps.dropLast.map
            (fun p => (p.Contents.getLast?.map (fun v => v.Key)).getD "")).map Request.list
          ++ sent ∧
      ∀ q ∈ sent, ∃ body : String, q = Request.delete body) ∧
    (∃ finish : Int,
      (DeleteAllObject c (ps.map Except.ok ++ rest) curl).2
        = .returned { total := (ps.map (fun p => (p.Contents.length : Int))).sum
                      finish := finish }) ∧
    (cliListAllObject atoi (ps.map Except.ok ++ rest)).markers
      = "" :: ps.dropLast.map (fun p => (p.Contents.getLast?.map (fun v => v.Key)).getD "") ∧
    (cliListAllObject atoi (ps.map Except.ok ++ rest)).printed
      = (ps.flatMap (fun p => p.Contents)).map (fun v => v.Key) ∧
    (cliListAllObject atoi (ps.map Except.ok ++ rest)).result
      = .returned
          { totalNum := (ps.map (fun p => (p.Contents.length : Int))).sum
            totalSize := ((ps.flatMap (fun p => p.Contents)).map (fun v => atoi v.Size)).sum } ∧
    (ps.map (fun p => (p.Contents.length : Int))).sum
      = ((ps.flatMap (fun p => p.Contents)).length : Int) := by
  have hfull' : ∀ p ∈ ps.dropLast, p.Contents ≠ [] :=
    fun p hp => hfull p (List.dropLast_subset ps hp)
  have hmarkers := pageMarkers_lastKeys ps.dropLast "" hfull'
  obtain ⟨hc1, s, f, hc2⟩ := copyAllObjectLoop_eq c env replace inputs hcopy rest ps "" 0 0 0 0
    hne hfull htr hlast
  have hdl := deleteAllObjectList_eq rest ps "" 0 [] [] hne htr hlast (le_refl 0)
    (Or.inr (fun p hp => hfull p (List.mem_of_mem_head? hp)))
  have hls := cliListAllObjectLoop_eq atoi rest ps "" 0 0 hne htr hlast
  simp only [zero_add, List.nil_append] at hc2 hdl hls
  refine ⟨?_, ?_, ⟨s, f, hc2⟩, ?_, ?_, ?_, ?_, ?_, sum_page_lengths ps⟩
  · intro pfx marker
    exact ⟨rfl, rfl, rfl, rfl, rfl, rfl⟩
  · rw [← hmarkers]
    exact hc1
  · unfold DeleteAllObject
    rw [hdl, hmarkers]
    refine ⟨_, rfl, ?_⟩
    intro q hq
    simp only [List.mem_flatMap, List.mem_replicate] at hq
    obtain ⟨pr, _, _, rfl⟩ := hq
    exact ⟨_, rfl⟩
  · unfold DeleteAllObject
    rw [hdl]
    have hany : (deleteItems c
        { bodyList := ps.map (fun p => deleteBody p.Contents)
          bodyListNum := ps.map (fun p => (p.Contents.length : Int))
          total := (ps.map (fun p => (p.Contents.length : Int))).sum } curl).any
          (fun r => r.exited) = false := by
      rw [List.any_eq_false]
      intro r hr
      simp only [deleteItems] at hr
      obtain ⟨pr, _, rfl⟩ := List.mem_map.1 hr
      rw [deleteBatch_not_exited c (curl pr.1) _ (hdelete pr.1)]
      decide
    simp only [hany]
    exact ⟨_, rfl⟩
  · rw [← hmarkers]
    simp only [cliListAllObject, hls]
  · simp only [cliListAllObject, hls]
  · simp only [cliListAllObject, hls]

/-- C21, witness: three objects listed in a truncated page of two keys and a
last page of one key: `CopyAllObject` makes two listing calls, with the empty
marker and with the last key `key1` of the first page, and the command `list`
returns the total 3. -/
theorem C21_listing_pagination_witness :
    (CopyAllObject (New "host" "id" "secret") (exampleEnv (8 * 3600)) "FALSE"
        ([examplePage 0 2 "true", examplePage 2 1 "false"].map Except.ok ++ [])
        (fun _ => exampleCopy)).1 = ["", "key1"] ∧
      (cliListAllObject (fun _ => 0)
        ([examplePage 0 2 "true", examplePage 2 1 "false"].map Except.ok ++ [])).result
        = .returned { totalNum := 3, totalSize := 0 } := by
  have h := C21_listing_pagination (New "host" "id" "secret") (exampleEnv (8 * 3600)) "FALSE"
    (fun _ => exampleCopy) (fun _ _ => .ok [("StatusCode", "200")]) (fun _ => 0)
    [examplePage 0 2 "true", examplePage 2 1 "false"] []
    (by decide) (by decide) (by decide) (by decide)
    (fun _ => (by decide : (copyAllObjectItem (New "host" "id" "secret") (exampleEnv (8 * 3600))
      "FALSE" exampleCopy).exited = false))
    (fun _ => ⟨0, by decide, by rfl⟩)
  exact ⟨h.2.1.trans (by decide), h.2.2.2.2.2.2.2.1.trans (by decide)⟩

end Oss
